import Mathlib

/-!
# AliRoot trigger configuration: a shallow embedding of `AliTriggerConfiguration.cxx`

The development follows `src/STEER/AliTriggerConfiguration.cxx`.

* ROOT strings (`TString`) are lists of characters; the `TString` methods the
  source calls (`BeginsWith`, `EndsWith`, `Contains`, `ReplaceAll`, `Remove`,
  `Tokenize`, `Atoi`) are given their ROOT library meaning.
* ROOT object arrays (`TObjArray`) holding non-null objects are lists, in
  insertion order; `AddLast` appends, `GetEntries` is the length.
* A method that mutates the configuration returns the new configuration next
  to its C++ return value.
* The classes `AliTriggerInput`, `AliTriggerInteraction`, `AliTriggerDescriptor`,
  `AliTriggerCluster`, `AliTriggerPFProtection`, `AliTriggerBCMask` and
  `AliTriggerClass` are not part of the sources: they are records of the
  values given to their constructors, and their validity checks are the
  fields of `Collaborators`, over which the theorems quantify.
* The digits of `src/PHOS/AliPHOSDigit.cxx` are records of their data
  members; an access to a slot outside the primary array has no result.
-/

set_option autoImplicit false

namespace AliRoot

/-! ## ROOT strings -/

/-- A ROOT `TString`, as its sequence of characters. -/
abbrev TString := List Char

/-- `TString::BeginsWith(pat)`: `pat` is an initial segment of `s`. -/
def BeginsWith (s pat : TString) : Bool := pat.isPrefixOf s

/-- `TString::EndsWith(pat)`: `pat` is a final segment of `s`. -/
def EndsWith (s pat : TString) : Bool := pat.isSuffixOf s

/-- `TString::Contains(pat)`: `pat` occurs in `s` as a substring (ROOT's
`Index(pat) != kNPOS`; the empty pattern is found at index 0). -/
def Contains : TString → TString → Bool
  | [], pat => pat.isEmpty
  | c :: cs, pat => pat.isPrefixOf (c :: cs) || Contains cs pat

/-- `TString::Remove(pos, n)`: erase `n` characters starting at `pos`. -/
def Remove (s : TString) (pos n : Nat) : TString := s.take pos ++ s.drop (pos + n)

/-- The scan of `TString::ReplaceAll` for a non-empty pattern: `skip` counts
the characters of a matched occurrence still to be dropped.  ROOT searches
the next occurrence from the end of the last replacement, so occurrences are
replaced left to right and never overlap, and replaced text is not searched
again. -/
def replaceScan (pat rep : TString) : Nat → TString → TString
  | _, [] => []
  | k + 1, _ :: cs => replaceScan pat rep k cs
  | 0, c :: cs =>
    if pat.isPrefixOf (c :: cs) then rep ++ replaceScan pat rep (pat.length - 1) cs
    else c :: replaceScan pat rep 0 cs

/-- `TString::ReplaceAll(pat, rep)`: every occurrence of `pat` becomes `rep`;
ROOT does nothing for an empty pattern. -/
def ReplaceAll (s pat rep : TString) : TString :=
  if pat.isEmpty then s else replaceScan pat rep 0 s

/-- Pieces of `s` between the characters of `delim`, empty pieces included;
the result always has at least one piece. -/
def splitAny (delim : TString) : TString → List TString
  | [] => [[]]
  | c :: cs =>
    if c ∈ delim then [] :: splitAny delim cs
    else match splitAny delim cs with
      | [] => [[c]]
      | w :: ws => (c :: w) :: ws

/-- `TString::Tokenize(delim)`: the non-empty pieces of `s` between the
characters of `delim`, in order. -/
def Tokenize (s delim : TString) : List TString :=
  (splitAny delim s).filter (fun w => !w.isEmpty)

/-- `TObjArray::At(i)` on a token array: `none` is the null pointer the
source gets for an index past the last token. -/
def At (tokens : List TString) (i : Nat) : Option TString := tokens.get? i

/-- The C `isspace` test of `atoi`. -/
def isSpaceC (c : Char) : Bool :=
  c.toNat = 32 || (9 ≤ c.toNat && c.toNat ≤ 13)

/-- Value of the leading run of decimal digits, continuing from `acc`. -/
def digitsValue : TString → Nat → Nat
  | [], acc => acc
  | c :: cs, acc => if c.isDigit then digitsValue cs (acc * 10 + (c.toNat - 48)) else acc

/-- The number that `strtol` reads in base 10, before it is fitted to a
`long`: leading white space, an optional sign, then decimal digits; anything
else ends the number. -/
def atoiValue (s : TString) : Int :=
  match s.dropWhile isSpaceC with
  | '-' :: cs => - (digitsValue cs 0 : Int)
  | '+' :: cs => (digitsValue cs 0 : Int)
  | cs => (digitsValue cs 0 : Int)

/-- The result of `strtol` for a number outside the range of the 64-bit
`long`: `LONG_MAX` above it and `LONG_MIN` below it. -/
def clampLong (v : Int) : Int :=
  if v > 2 ^ 63 - 1 then 2 ^ 63 - 1
  else if v < -(2 ^ 63) then -(2 ^ 63)
  else v

/-- Conversion to the 32-bit signed `Int_t`. -/
def toInt_t (v : Int) : Int := (v + 2 ^ 31) % 2 ^ 32 - 2 ^ 31

/-- Conversion to the 8-bit `UChar_t`. -/
def toUChar_t (v : Int) : Nat := (v % 256).toNat

/-- Conversion to the 32-bit `UInt_t`. -/
def toUInt_t (v : Int) : Nat := (v % 2 ^ 32).toNat

/-- Conversion to `Bool_t`. -/
def toBool_t (v : Int) : Bool := v != 0

/-- The C library `atoi`, which is `(int) strtol(s, 0, 10)`: the number read
is limited to the range of `long` and then cut to the 32 bits of an `int`. -/
def atoi (s : TString) : Int := toInt_t (clampLong (atoiValue s))

/-- `TString::Atoi()`: blanks are dropped and the rest goes through `atoi`. -/
def Atoi (s : TString) : Int := atoi (s.filter (fun c => c != ' '))

/-! ## `IsSelected` -/

/-- The loop `while (detectors.Contains("  ")) detectors.ReplaceAll("  ", " ")`
run for at most `fuel` iterations. -/
def collapseSpaces : Nat → TString → TString
  | 0, s => s
  | fuel + 1, s =>
    if Contains s [' ', ' '] then collapseSpaces fuel (ReplaceAll s [' ', ' '] [' ']) else s

/-- The loop `while (detectors.BeginsWith(" ")) detectors.Remove(0, 1)` run
for at most `fuel` iterations. -/
def stripLeading : Nat → TString → TString
  | 0, s => s
  | fuel + 1, s => if BeginsWith s [' '] then stripLeading fuel (Remove s 0 1) else s

/-- The loop `while (detectors.EndsWith(" ")) detectors.Remove(Length()-1, 1)`
run for at most `fuel` iterations. -/
def stripTrailing : Nat → TString → TString
  | 0, s => s
  | fuel + 1, s =>
    if EndsWith s [' '] then stripTrailing fuel (Remove s (s.length - 1) 1) else s

/-- The three clean-up loops that end `IsSelected`.  Every iteration of each
loop shortens the string, so its length bounds the number of iterations. -/
def cleanUp (s : TString) : TString :=
  let s1 := collapseSpaces s.length s
  let s2 := stripLeading s1.length s1
  stripTrailing s2.length s2

/-- `AliTriggerConfiguration::IsSelected(detName, detectors)`: the returned
flag and the value left in the reference argument `detectors`. -/
def IsSelected (detName detectors : TString) : Bool × TString :=
  if detectors == "ALL".toList || BeginsWith detectors "ALL ".toList ||
      EndsWith detectors " ALL".toList || Contains detectors " ALL ".toList then
    (true, "ALL".toList)
  else
    if detectors == detName || BeginsWith detectors (detName ++ [' ']) ||
        EndsWith detectors ([' '] ++ detName) ||
        Contains detectors ([' '] ++ detName ++ [' ']) then
      (true, cleanUp (ReplaceAll detectors detName []))
    else
      (false, cleanUp detectors)

/-! ## Data model -/

/-- Modelled from the spec: `AliTriggerInput` is not among the sources; an
input is its name, detector, level, signature and number (spec, data model). -/
structure AliTriggerInput where
  fName : TString
  fDetector : TString
  fLevel : Nat
  fSignature : Nat
  fNumber : Nat
  deriving DecidableEq

/-- Modelled from the spec: `AliTriggerInteraction` is not among the sources;
an interaction or logical function is a name and a logic expression. -/
structure AliTriggerInteraction where
  fName : TString
  fLogic : TString
  deriving DecidableEq

/-- Modelled from the spec: `AliTriggerDescriptor` is not among the sources; a
descriptor is a name and a condition expression. -/
structure AliTriggerDescriptor where
  fName : TString
  fCondition : TString
  deriving DecidableEq

/-- Modelled from the spec: `AliTriggerCluster` is not among the sources; a
cluster is a name, an index and a detector-list string. -/
structure AliTriggerCluster where
  fName : TString
  fIndex : Nat
  fDetectors : TString
  deriving DecidableEq

/-- Modelled from the spec: `AliTriggerPFProtection` is not among the sources;
a past-future protection is a name, three interaction-name references and the
parameters Na1, Na2, Nb1, Nb2, Ta, Tb. -/
structure AliTriggerPFProtection where
  fName : TString
  fIntName1 : TString
  fIntName2 : TString
  fIntName3 : TString
  fNa1 : Int
  fNa2 : Int
  fNb1 : Int
  fNb2 : Int
  fTa : Int
  fTb : Int
  deriving DecidableEq

/-- Modelled from the spec: `AliTriggerBCMask` is not among the sources; a
bunch-crossing mask is a name and a mask pattern string. -/
structure AliTriggerBCMask where
  fName : TString
  fPattern : TString
  deriving DecidableEq

/-- Modelled from the spec: `AliTriggerClass` is not among the sources; a class
is a name, an index, a decision-mask, a prescaler, the all-rare flag and
references, kept by name, to one descriptor, cluster, past-future protection
and bunch-crossing mask. -/
structure AliTriggerClass where
  fName : TString
  fIndex : Nat
  fClassMask : Nat
  fDescriptor : TString
  fCluster : TString
  fPFProtection : TString
  fMask : TString
  fPrescaler : Nat
  fAllRare : Bool
  deriving DecidableEq

/-- The data members of `AliTriggerConfiguration` (`fName` and `fTitle` come
from `TNamed`). -/
structure AliTriggerConfiguration where
  fName : TString
  fTitle : TString
  fInputs : List AliTriggerInput
  fInteractions : List AliTriggerInteraction
  fFunctions : List AliTriggerInteraction
  fPFProtections : List AliTriggerPFProtection
  fMasks : List AliTriggerBCMask
  fDescriptors : List AliTriggerDescriptor
  fClusters : List AliTriggerCluster
  fClasses : List AliTriggerClass
  fVersion : Int
  deriving DecidableEq

/-- The default constructor `AliTriggerConfiguration()`: no name, empty
collections, version 0. -/
def AliTriggerConfiguration.empty : AliTriggerConfiguration :=
  { fName := [], fTitle := [], fInputs := [], fInteractions := [], fFunctions := [],
    fPFProtections := [], fMasks := [], fDescriptors := [], fClusters := [],
    fClasses := [], fVersion := 0 }

/-- Objects with a `TNamed` name, the key of `TObjArray::FindObject(name)`. -/
class TNamed (α : Type) where
  /-- The name of the object. -/
  GetName : α → TString

instance : TNamed AliTriggerInput := ⟨AliTriggerInput.fName⟩
instance : TNamed AliTriggerInteraction := ⟨AliTriggerInteraction.fName⟩
instance : TNamed AliTriggerDescriptor := ⟨AliTriggerDescriptor.fName⟩
instance : TNamed AliTriggerCluster := ⟨AliTriggerCluster.fName⟩
instance : TNamed AliTriggerPFProtection := ⟨AliTriggerPFProtection.fName⟩
instance : TNamed AliTriggerBCMask := ⟨AliTriggerBCMask.fName⟩
instance : TNamed AliTriggerClass := ⟨AliTriggerClass.fName⟩

/-- `TObjArray::FindObject(name)`: the first object of the array with that
name, `none` for the null pointer. -/
def FindObject {α : Type} [TNamed α] (arr : List α) (name : TString) : Option α :=
  arr.find? (fun o => TNamed.GetName o == name)

/-- The validity checks and the class-mask rule of the trigger classes whose
implementation files are not among the sources.  They are parameters of the
embedding: every theorem that takes a `Collaborators` holds for all of them. -/
structure Collaborators where
  /-- `AliTriggerInteraction::CheckInputs(fInputs)`. -/
  CheckInputs : AliTriggerInteraction → List AliTriggerInput → Bool
  /-- `AliTriggerDescriptor::CheckInputsAndFunctions(fInputs, fFunctions)`. -/
  CheckInputsAndFunctions :
    AliTriggerDescriptor → List AliTriggerInput → List AliTriggerInteraction → Bool
  /-- `AliTriggerPFProtection::CheckInteractions(fInteractions)`. -/
  CheckInteractions : AliTriggerPFProtection → List AliTriggerInteraction → Bool
  /-- `AliTriggerClass::CheckClass(config)`. -/
  CheckClass : AliTriggerClass → AliTriggerConfiguration → Bool
  /-- The decision mask the `AliTriggerClass` constructor gives a class index. -/
  ClassMask : Nat → Nat

/-- Modelled from the spec: the names a logic or condition expression refers
to; the expression grammar is not among the sources, names are taken to be
separated by blanks, tabs and the operators `! & | ( )`. -/
def referencedNames (expr : TString) : List TString := Tokenize expr " \t!&|()".toList

/-- Modelled from the spec: `AliTriggerInteraction::CheckInputs` is not among
the sources; the logic refers only to inputs present in the input set. -/
def specCheckInputs (i : AliTriggerInteraction) (inputs : List AliTriggerInput) : Bool :=
  (referencedNames i.fLogic).all (fun n => (FindObject inputs n).isSome)

/-- Modelled from the spec: `AliTriggerDescriptor::CheckInputsAndFunctions` is
not among the sources; the condition refers only to existing inputs and
functions. -/
def specCheckInputsAndFunctions (d : AliTriggerDescriptor) (inputs : List AliTriggerInput)
    (functions : List AliTriggerInteraction) : Bool :=
  (referencedNames d.fCondition).all
    (fun n => (FindObject inputs n).isSome || (FindObject functions n).isSome)

/-- Modelled from the spec: `AliTriggerPFProtection::CheckInteractions` is not
among the sources; a protection other than the sentinels `NONE` and `NOPF`
refers only to existing interactions. -/
def specCheckInteractions (p : AliTriggerPFProtection)
    (interactions : List AliTriggerInteraction) : Bool :=
  p.fName == "NONE".toList || p.fName == "NOPF".toList ||
    [p.fIntName1, p.fIntName2, p.fIntName3].all (fun n => (FindObject interactions n).isSome)

/-- Modelled from the spec: `AliTriggerClass::CheckClass` is not among the
sources; the descriptor, cluster, past-future protection and mask the class
refers to exist in the configuration. -/
def specCheckClass (c : AliTriggerClass) (cfg : AliTriggerConfiguration) : Bool :=
  (FindObject cfg.fDescriptors c.fDescriptor).isSome &&
  (FindObject cfg.fClusters c.fCluster).isSome &&
  (FindObject cfg.fPFProtections c.fPFProtection).isSome &&
  (FindObject cfg.fMasks c.fMask).isSome

/-- Modelled from the spec: the decision-mask bit of a class index is not
given by the sources; index `i > 0` is taken to own bit `i - 1`. -/
def specClassMask (index : Nat) : Nat := if 0 < index then 2 ^ (index - 1) else 0

/-- Modelled from the spec: the checks of the classes missing from the
sources, as the spec describes them. -/
def specCollaborators : Collaborators :=
  { CheckInputs := specCheckInputs
    CheckInputsAndFunctions := specCheckInputsAndFunctions
    CheckInteractions := specCheckInteractions
    CheckClass := specCheckClass
    ClassMask := specClassMask }

/-! ## Capacities

The constants `kNMax...` are declared in the header, which is not among the
sources; their values are the ones of the error messages of the `Add`
methods and of the spec. -/

/-- The largest number of inputs. -/
def kNMaxInputs : Nat := 50
/-- The largest number of interactions. -/
def kNMaxInteractions : Nat := 2
/-- The largest number of logical functions. -/
def kNMaxFunctions : Nat := 2
/-- The largest number of classes; `AddDescriptor` uses it for descriptors too. -/
def kNMaxClasses : Nat := 50
/-- The largest number of past-future protections. -/
def kNMaxPFProtections : Nat := 4
/-- The largest number of bunch-crossing masks. -/
def kNMaxMasks : Nat := 4
/-- The largest number of clusters. -/
def kNMaxClusters : Nat := 6

/-! ## Collection add operations

Each `Add` returns the C++ return value and the configuration after the
call. -/

/-- `AddInput(AliTriggerInput*)`. -/
def AddInput (cfg : AliTriggerConfiguration) (input : AliTriggerInput) :
    Bool × AliTriggerConfiguration :=
  if cfg.fInputs.length < kNMaxInputs then
    (true, { cfg with fInputs := cfg.fInputs ++ [input] })
  else
    (false, cfg)

/-- `AddInput(name, det, level, signature, number)`: builds the input, tries
to add it and returns it, or `none` (null) when the add failed. -/
def AddInputNew (cfg : AliTriggerConfiguration) (name det : TString)
    (level signature number : Nat) : Option AliTriggerInput × AliTriggerConfiguration :=
  let input : AliTriggerInput := ⟨name, det, level, signature, number⟩
  let r := AddInput cfg input
  if !r.1 then (none, r.2) else (some input, r.2)

/-- `AddInteraction(AliTriggerInteraction*)`. -/
def AddInteraction (K : Collaborators) (cfg : AliTriggerConfiguration)
    (interact : AliTriggerInteraction) : Bool × AliTriggerConfiguration :=
  if cfg.fInteractions.length < kNMaxInteractions then
    if K.CheckInputs interact cfg.fInputs then
      (true, { cfg with fInteractions := cfg.fInteractions ++ [interact] })
    else (false, cfg)
  else (false, cfg)

/-- `AddInteraction(name, logic)`. -/
def AddInteractionNew (K : Collaborators) (cfg : AliTriggerConfiguration)
    (name logic : TString) : Option AliTriggerInteraction × AliTriggerConfiguration :=
  let interact : AliTriggerInteraction := ⟨name, logic⟩
  let r := AddInteraction K cfg interact
  if !r.1 then (none, r.2) else (some interact, r.2)

/-- `AddFunction(AliTriggerInteraction*)`. -/
def AddFunction (K : Collaborators) (cfg : AliTriggerConfiguration)
    (func : AliTriggerInteraction) : Bool × AliTriggerConfiguration :=
  if cfg.fFunctions.length < kNMaxFunctions then
    if K.CheckInputs func cfg.fInputs then
      (true, { cfg with fFunctions := cfg.fFunctions ++ [func] })
    else (false, cfg)
  else (false, cfg)

/-- `AddFunction(name, logic)`. -/
def AddFunctionNew (K : Collaborators) (cfg : AliTriggerConfiguration)
    (name logic : TString) : Option AliTriggerInteraction × AliTriggerConfiguration :=
  let func : AliTriggerInteraction := ⟨name, logic⟩
  let r := AddFunction K cfg func
  if !r.1 then (none, r.2) else (some func, r.2)

/-- `AddPFProtection(AliTriggerPFProtection*)`. -/
def AddPFProtection (K : Collaborators) (cfg : AliTriggerConfiguration)
    (pfp : AliTriggerPFProtection) : Bool × AliTriggerConfiguration :=
  if cfg.fPFProtections.length < kNMaxPFProtections then
    if K.CheckInteractions pfp cfg.fInteractions then
      (true, { cfg with fPFProtections := cfg.fPFProtections ++ [pfp] })
    else (false, cfg)
  else (false, cfg)

/-- `AddMask(AliTriggerBCMask*)`. -/
def AddMask (cfg : AliTriggerConfiguration) (mask : AliTriggerBCMask) :
    Bool × AliTriggerConfiguration :=
  if cfg.fMasks.length < kNMaxMasks then
    (true, { cfg with fMasks := cfg.fMasks ++ [mask] })
  else (false, cfg)

/-- `AddMask(name, mask)`. -/
def AddMaskNew (cfg : AliTriggerConfiguration) (name mask : TString) :
    Option AliTriggerBCMask × AliTriggerConfiguration :=
  let bcmask : AliTriggerBCMask := ⟨name, mask⟩
  let r := AddMask cfg bcmask
  if !r.1 then (none, r.2) else (some bcmask, r.2)

/-- `AddCluster(AliTriggerCluster*)`: `dets.IsNull()` is the test for the
empty string. -/
def AddCluster (cfg : AliTriggerConfiguration) (cluster : AliTriggerCluster) :
    Bool × AliTriggerConfiguration :=
  if cfg.fClusters.length < kNMaxClusters then
    let dets := cluster.fDetectors
    if !dets.isEmpty then
      (true, { cfg with fClusters := cfg.fClusters ++ [cluster] })
    else (false, cfg)
  else (false, cfg)

/-- `AddCluster(name, index, detectors)`. -/
def AddClusterNew (cfg : AliTriggerConfiguration) (name : TString) (index : Nat)
    (detectors : TString) : Option AliTriggerCluster × AliTriggerConfiguration :=
  let clust : AliTriggerCluster := ⟨name, index, detectors⟩
  let r := AddCluster cfg clust
  if !r.1 then (none, r.2) else (some clust, r.2)

/-- `AddDescriptor(AliTriggerDescriptor*)`; the capacity test of the source
compares with `kNMaxClasses`. -/
def AddDescriptor (K : Collaborators) (cfg : AliTriggerConfiguration)
    (desc : AliTriggerDescriptor) : Bool × AliTriggerConfiguration :=
  if cfg.fDescriptors.length < kNMaxClasses then
    if K.CheckInputsAndFunctions desc cfg.fInputs cfg.fFunctions then
      (true, { cfg with fDescriptors := cfg.fDescriptors ++ [desc] })
    else (false, cfg)
  else (false, cfg)

/-- `AddDescriptor(name, cond)`. -/
def AddDescriptorNew (K : Collaborators) (cfg : AliTriggerConfiguration)
    (name cond : TString) : Option AliTriggerDescriptor × AliTriggerConfiguration :=
  let desc : AliTriggerDescriptor := ⟨name, cond⟩
  let r := AddDescriptor K cfg desc
  if !r.1 then (none, r.2) else (some desc, r.2)

/-- `AddClass(AliTriggerClass*)`. -/
def AddClass (K : Collaborators) (cfg : AliTriggerConfiguration)
    (trclass : AliTriggerClass) : Bool × AliTriggerConfiguration :=
  if cfg.fClasses.length < kNMaxClasses then
    if K.CheckClass trclass cfg then
      (true, { cfg with fClasses := cfg.fClasses ++ [trclass] })
    else (false, cfg)
  else (false, cfg)

/-- Modelled from the spec: the constructor
`AliTriggerClass(config, name, index, desc, clus, pfp, mask, prescaler, allrare)`
is not among the sources; the class records the values it is given, its
references by name, and gets the decision mask of its index. -/
def newTriggerClass (K : Collaborators) (name : TString) (index : Nat)
    (desc clus pfp mask : TString) (prescaler : Nat) (allrare : Bool) : AliTriggerClass :=
  { fName := name, fIndex := index, fClassMask := K.ClassMask index, fDescriptor := desc,
    fCluster := clus, fPFProtection := pfp, fMask := mask, fPrescaler := prescaler,
    fAllRare := allrare }

/-- `AddClass(name, index, desc, clus, pfp, mask, prescaler, allrare)` with the
four references given by name (`TString&`). -/
def AddClassByName (K : Collaborators) (cfg : AliTriggerConfiguration) (name : TString)
    (index : Nat) (desc clus pfp mask : TString) (prescaler : Nat) (allrare : Bool) :
    Option AliTriggerClass × AliTriggerConfiguration :=
  if (FindObject cfg.fDescriptors desc).isNone then (none, cfg)
  else if (FindObject cfg.fClusters clus).isNone then (none, cfg)
  else if (FindObject cfg.fPFProtections pfp).isNone then (none, cfg)
  else if (FindObject cfg.fMasks mask).isNone then (none, cfg)
  else
    let trclass := newTriggerClass K name index desc clus pfp mask prescaler allrare
    let r := AddClass K cfg trclass
    if !r.1 then (none, r.2) else (some trclass, r.2)

/-! ## `GetActiveDetectors` -/

/-- The inner loop of `GetActiveDetectors` over the tokens of one cluster: a
token that `activeDet` already contains (as a substring) is skipped, any
other is appended after a blank. -/
def appendDetectors (activeDet : TString) (det : List TString) : TString :=
  det.foldl (fun acc tok => if Contains acc tok then acc else acc ++ [' '] ++ tok) activeDet

/-- `AliTriggerConfiguration::GetActiveDetectors()`. -/
def GetActiveDetectors (cfg : AliTriggerConfiguration) : TString :=
  let activeDet : TString := []
  let nclus := cfg.fClusters.length
  if nclus = 0 then activeDet
  else cfg.fClusters.foldl
    (fun acc cluster => appendDetectors acc (Tokenize cluster.fDetectors [' '])) activeDet

/-! ## The class loop of `CheckConfiguration` -/

/-- `AliTriggerClass::GetMask()`, an `ULong64_t`. -/
def GetMask (trclass : AliTriggerClass) : Nat := trclass.fClassMask % 2 ^ 64

/-- One iteration of the class loop of `CheckConfiguration` on the pair
`(check, mask)`; the `IsActive` test of the source only selects a log
message. -/
def checkClassStep (K : Collaborators) (cfg : AliTriggerConfiguration)
    (st : Bool × Nat) (trclass : AliTriggerClass) : Bool × Nat :=
  let check := if !(K.CheckClass trclass cfg) then false else st.1
  let check := if st.2 &&& GetMask trclass != 0 then false else check
  (check, st.2 ||| GetMask trclass)

/-- The class loop that ends `CheckConfiguration`, from `check = kTRUE` and
`mask = 0`: the returned `check` and the final value of `mask`. -/
def CheckConfigurationClasses (K : Collaborators) (cfg : AliTriggerConfiguration) :
    Bool × Nat :=
  cfg.fClasses.foldl (checkClassStep K cfg) (true, 0)

/-! ## The text parser

`ProcessConfigurationLine` returns `none` when the source calls `String()`
through the null pointer `At(i)` gives for a missing token (no defined
result), and otherwise the returned flag, the configuration and the `level`
after the call. -/

/-- The result of one parser step: the flag, the configuration, the level. -/
abbrev LineResult := Option (Bool × AliTriggerConfiguration × Int)

/-- Modelled from the spec: the constructor `AliTriggerPFProtection(name)` of
the sentinel protections is not among the sources; it refers to no
interaction. -/
def newPFProtectionSentinel (name : TString) : AliTriggerPFProtection :=
  { fName := name, fIntName1 := [], fIntName2 := [], fIntName3 := [],
    fNa1 := 0, fNa2 := 0, fNb1 := 0, fNb2 := 0, fTa := 0, fTb := 0 }

/-- Modelled from the spec: the constructor `AliTriggerBCMask(name)` of the
no-op mask is not among the sources; it has no pattern. -/
def newBCMaskSentinel (name : TString) : AliTriggerBCMask := { fName := name, fPattern := [] }

/-- The `case 1` of the switch: inputs. -/
def processInputs (cfg : AliTriggerConfiguration) (tokens : List TString) (level : Int) :
    LineResult :=
  if tokens.length ≠ 5 then some (false, cfg, level)
  else do
    let t0 ← At tokens 0
    let t1 ← At tokens 1
    let t2 ← At tokens 2
    let t3 ← At tokens 3
    let t4 ← At tokens 4
    let r := AddInputNew cfg t0 t1 (toUChar_t (Atoi t2)) (toUInt_t (Atoi t3))
      (toUChar_t (Atoi t4))
    some (true, r.2, level)

/-- The `case 2` of the switch: interactions. -/
def processInteractions (K : Collaborators) (cfg : AliTriggerConfiguration)
    (tokens : List TString) (level : Int) : LineResult :=
  if tokens.length ≠ 2 then some (false, cfg, level)
  else do
    let t0 ← At tokens 0
    let t1 ← At tokens 1
    let r := AddInteractionNew K cfg t0 t1
    some (true, r.2, level)

/-- The `case 3` of the switch: logical functions and descriptors. -/
def processDescriptors (K : Collaborators) (cfg : AliTriggerConfiguration)
    (strLine : TString) (tokens : List TString) (level : Int) : LineResult := do
  let t0 ← At tokens 0
  if tokens.length < 2 then
    if t0 == "EMPTY".toList || t0 == "DEMPTY".toList then
      let r := AddDescriptorNew K cfg t0 (ReplaceAll strLine t0 [])
      some (true, r.2, level)
    else some (false, cfg, level)
  else if BeginsWith t0 "l0f".toList then
    let r := AddFunctionNew K cfg t0 (ReplaceAll strLine t0 [])
    some (true, r.2, level)
  else
    let r := AddDescriptorNew K cfg t0 (ReplaceAll strLine t0 [])
    some (true, r.2, level)

/-- The loop of `case 4` building `strTemp`: every token from the third on,
each followed by a blank. -/
def joinDetectors (tokens : List TString) : TString :=
  (tokens.drop 2).foldl (fun strTemp tok => strTemp ++ tok ++ [' ']) []

/-- The `case 4` of the switch: clusters. -/
def processClusters (cfg : AliTriggerConfiguration) (tokens : List TString) (level : Int) :
    LineResult :=
  if tokens.length < 2 then some (false, cfg, level)
  else do
    let strTemp := joinDetectors tokens
    let t0 ← At tokens 0
    let t1 ← At tokens 1
    let r := AddClusterNew cfg t0 (toUChar_t (Atoi t1)) strTemp
    some (true, r.2, level)

/-- The `case 5` of the switch: past-future protections. -/
def processPFs (K : Collaborators) (cfg : AliTriggerConfiguration) (tokens : List TString)
    (level : Int) : LineResult := do
  let t0 ← At tokens 0
  if t0 == "NONE".toList || t0 == "NOPF".toList then
    let pfp := newPFProtectionSentinel t0
    some (true, (AddPFProtection K cfg pfp).2, level)
  else if tokens.length ≠ 10 then some (false, cfg, level)
  else
    let t1 ← At tokens 1
    let t2 ← At tokens 2
    let t3 ← At tokens 3
    let t4 ← At tokens 4
    let t5 ← At tokens 5
    let t6 ← At tokens 6
    let t7 ← At tokens 7
    let t8 ← At tokens 8
    let t9 ← At tokens 9
    let pfp : AliTriggerPFProtection :=
      { fName := t0, fIntName1 := t1, fIntName2 := t2, fIntName3 := t3,
        fNa1 := Atoi t4, fNa2 := Atoi t5, fNb1 := Atoi t6, fNb2 := Atoi t7,
        fTa := Atoi t8, fTb := Atoi t9 }
    some (true, (AddPFProtection K cfg pfp).2, level)

/-- The `case 6` of the switch: bunch-crossing masks.  With a single token
other than `NONE` the source reads `At(1)`, a null pointer. -/
def processBCMasks (cfg : AliTriggerConfiguration) (tokens : List TString) (level : Int) :
    LineResult :=
  if tokens.length > 2 then some (false, cfg, level)
  else do
    let t0 ← At tokens 0
    if t0 == "NONE".toList then
      some (true, (AddMask cfg (newBCMaskSentinel t0)).2, level)
    else
      let t1 ← At tokens 1
      let r := AddMaskNew cfg t0 t1
      some (true, r.2, level)

/-- The `case 7` of the switch: classes.  The result of `AddClass` is not
looked at. -/
def processClasses (K : Collaborators) (cfg : AliTriggerConfiguration)
    (tokens : List TString) (level : Int) : LineResult :=
  if tokens.length ≠ 8 then some (false, cfg, level)
  else do
    let t0 ← At tokens 0
    let t1 ← At tokens 1
    let t2 ← At tokens 2
    let t3 ← At tokens 3
    let t4 ← At tokens 4
    let t5 ← At tokens 5
    let t6 ← At tokens 6
    let t7 ← At tokens 7
    let trclass := newTriggerClass K t0 (toUChar_t (Atoi t1)) t2 t3 t4 t5
      (toUInt_t (Atoi t6)) (toBool_t (Atoi t7))
    some (true, (AddClass K cfg trclass).2, level)

/-- The `switch (level)` of `ProcessConfigurationLine` on a line with at least
one token. -/
def processTokens (K : Collaborators) (cfg : AliTriggerConfiguration) (strLine : TString)
    (tokens : List TString) (level : Int) : LineResult :=
  if level = 1 then processInputs cfg tokens level
  else if level = 2 then processInteractions K cfg tokens level
  else if level = 3 then processDescriptors K cfg strLine tokens level
  else if level = 4 then processClusters cfg tokens level
  else if level = 5 then processPFs K cfg tokens level
  else if level = 6 then processBCMasks cfg tokens level
  else if level = 7 then processClasses K cfg tokens level
  else some (true, cfg, level)

/-- The wildcard substitution of `ProcessConfigurationLine`:
`ReplaceAll("*", '!')` then `ReplaceAll("~", '!')`. -/
def normalizeLine (strLine : TString) : TString :=
  ReplaceAll (ReplaceAll strLine ['*'] ['!']) ['~'] ['!']

/-- `AliTriggerConfiguration::ProcessConfigurationLine(line, level)`. -/
def ProcessConfigurationLine (K : Collaborators) (cfg : AliTriggerConfiguration)
    (line : TString) (level : Int) : LineResult :=
  let strLine := line
  if BeginsWith strLine "#".toList then some (true, cfg, level)
  else if BeginsWith strLine "PARTITION:".toList then
    some (true, { cfg with fName := ReplaceAll strLine "PARTITION:".toList [] }, level)
  else if BeginsWith strLine "VERSION:".toList then
    some (true, { cfg with fVersion := Atoi (ReplaceAll strLine "VERSION:".toList []) }, level)
  else if BeginsWith strLine "INPUTS:".toList then some (true, cfg, 1)
  else if BeginsWith strLine "INTERACTIONS:".toList then some (true, cfg, 2)
  else if BeginsWith strLine "DESCRIPTORS:".toList then some (true, cfg, 3)
  else if BeginsWith strLine "CLUSTERS:".toList then some (true, cfg, 4)
  else if BeginsWith strLine "PFS:".toList then some (true, cfg, 5)
  else if BeginsWith strLine "BCMASKS:".toList then some (true, cfg, 6)
  else if BeginsWith strLine "CLASSES:".toList then some (true, cfg, 7)
  else
    let strLine := normalizeLine strLine
    let tokens := Tokenize strLine " \t".toList
    let ntokens := tokens.length
    if ntokens = 0 then some (true, cfg, level)
    else processTokens K cfg strLine tokens level

/-- The `for` loop of `LoadConfigurationFromString` over the remaining lines:
`some none` is the null pointer returned after a line failed, `none` a line
without a defined result. -/
def loadLines (K : Collaborators) :
    List TString → AliTriggerConfiguration → Int → Option (Option AliTriggerConfiguration)
  | [], cfg, _ => some (some cfg)
  | str :: rest, cfg, level =>
    match ProcessConfigurationLine K cfg str level with
    | none => none
    | some (false, _, _) => some none
    | some (true, cfg1, level1) => loadLines K rest cfg1 level1

/-- `AliTriggerConfiguration::LoadConfigurationFromString(configuration)`; the
argument `none` is the null pointer. -/
def LoadConfigurationFromString (K : Collaborators) (configuration : Option TString) :
    Option (Option AliTriggerConfiguration) :=
  match configuration with
  | none => some none
  | some text => loadLines K (Tokenize text ['\n']) AliTriggerConfiguration.empty 0

/-! ## Sequences of add calls -/

/-- One call of an `Add` method together with its argument. -/
inductive AddCall where
  | input (x : AliTriggerInput)
  | interaction (x : AliTriggerInteraction)
  | function (x : AliTriggerInteraction)
  | descriptor (x : AliTriggerDescriptor)
  | cluster (x : AliTriggerCluster)
  | pfProtection (x : AliTriggerPFProtection)
  | mask (x : AliTriggerBCMask)
  | trclass (x : AliTriggerClass)
  | classByName (name : TString) (index : Nat) (desc clus pfp mask : TString)
      (prescaler : Nat) (allrare : Bool)

/-- The configuration after one add call, whatever the call returned. -/
def AddCall.run (K : Collaborators) (cfg : AliTriggerConfiguration) :
    AddCall → AliTriggerConfiguration
  | .input x => (AddInput cfg x).2
  | .interaction x => (AddInteraction K cfg x).2
  | .function x => (AddFunction K cfg x).2
  | .descriptor x => (AddDescriptor K cfg x).2
  | .cluster x => (AddCluster cfg x).2
  | .pfProtection x => (AddPFProtection K cfg x).2
  | .mask x => (AddMask cfg x).2
  | .trclass x => (AddClass K cfg x).2
  | .classByName n i d c p m ps ar => (AddClassByName K cfg n i d c p m ps ar).2

/-- The configuration after a sequence of add calls, in order. -/
def runAddCalls (K : Collaborators) (calls : List AddCall) (cfg : AliTriggerConfiguration) :
    AliTriggerConfiguration :=
  calls.foldl (AddCall.run K) cfg

/-- The capacity bounds of the eight collections. -/
def WithinCapacity (cfg : AliTriggerConfiguration) : Prop :=
  cfg.fInputs.length ≤ 50 ∧ cfg.fInteractions.length ≤ 2 ∧ cfg.fFunctions.length ≤ 2 ∧
  cfg.fDescriptors.length ≤ 50 ∧ cfg.fClusters.length ≤ 6 ∧ cfg.fPFProtections.length ≤ 4 ∧
  cfg.fMasks.length ≤ 4 ∧ cfg.fClasses.length ≤ 50

/-- The four references of a class request all name objects of the
configuration. -/
def ReferencesPresent (cfg : AliTriggerConfiguration) (desc clus pfp mask : TString) : Prop :=
  (FindObject cfg.fDescriptors desc).isSome ∧ (FindObject cfg.fClusters clus).isSome ∧
  (FindObject cfg.fPFProtections pfp).isSome ∧ (FindObject cfg.fMasks mask).isSome

instance (cfg : AliTriggerConfiguration) (desc clus pfp mask : TString) :
    Decidable (ReferencesPresent cfg desc clus pfp mask) := by
  unfold ReferencesPresent; infer_instance

/-- A configuration built by add calls alone: one descriptor `D`, one cluster
`CL`, the sentinel protection and mask `NONE`, and fifty classes. -/
def fullClassesCfg : AliTriggerConfiguration :=
  runAddCalls specCollaborators
    ([AddCall.descriptor ⟨"D".toList, []⟩,
      AddCall.cluster ⟨"CL".toList, 1, "TPC".toList⟩,
      AddCall.pfProtection (newPFProtectionSentinel "NONE".toList),
      AddCall.mask (newBCMaskSentinel "NONE".toList)] ++
     List.replicate 50
      (AddCall.classByName "C".toList 1 "D".toList "CL".toList "NONE".toList "NONE".toList 0 false))
    AliTriggerConfiguration.empty

/-- The OR of the decision masks of a list of classes on top of `m`. -/
def orMasks (m : Nat) (cs : List AliTriggerClass) : Nat :=
  cs.foldl (fun acc c => acc ||| GetMask c) m

/-- A word stands in `s` between delimiters or the ends of the string. -/
def Standalone (delim w s : TString) : Prop :=
  ∃ a b, s = a ++ w ++ b ∧ (a = [] ∨ ∃ a1 d, d ∈ delim ∧ a = a1 ++ [d]) ∧
    (b = [] ∨ ∃ d b1, d ∈ delim ∧ b = d :: b1)

/-- The four-way test of `IsSelected` for the word `w`. -/
def standaloneTest (w s : TString) : Bool :=
  s == w || BeginsWith s (w ++ [' ']) || EndsWith s ([' '] ++ w) ||
    Contains s ([' '] ++ w ++ [' '])

/-- The first occurrence of each element, in order. -/
def firstOccurrences : List TString → List TString
  | [] => []
  | x :: xs => x :: (firstOccurrences xs).filter (fun y => y != x)

/-- The detector names of all clusters, in cluster order. -/
def clusterDetectors (cfg : AliTriggerConfiguration) : List TString :=
  cfg.fClusters.flatMap (fun c => Tokenize c.fDetectors [' '])

/-- A configuration with the single cluster `CL` reading out `MUON_TRG MUON`. -/
def muonCfg : AliTriggerConfiguration :=
  (AddClusterNew AliTriggerConfiguration.empty "CL".toList 1 "MUON_TRG MUON".toList).2

/-! ## Shapes of configuration lines -/

/-- The wildcard substitution on one character. -/
def normalizeChar (c : Char) : Char := if c = '*' ∨ c = '~' then '!' else c

/-- The lines `ProcessConfigurationLine` answers before it looks at tokens:
comments, `PARTITION:`, `VERSION:` and the seven section headers. -/
def isSpecialLine (line : TString) : Bool :=
  BeginsWith line "#".toList || BeginsWith line "PARTITION:".toList ||
  BeginsWith line "VERSION:".toList || BeginsWith line "INPUTS:".toList ||
  BeginsWith line "INTERACTIONS:".toList || BeginsWith line "DESCRIPTORS:".toList ||
  BeginsWith line "CLUSTERS:".toList || BeginsWith line "PFS:".toList ||
  BeginsWith line "BCMASKS:".toList || BeginsWith line "CLASSES:".toList

/-- The call returns, and returns `kFALSE`. -/
def ReturnsFailure (r : LineResult) : Prop := r.map Prod.fst = some false

/-- The call returns, and returns `kTRUE`. -/
def ReturnsSuccess (r : LineResult) : Prop := r.map Prod.fst = some true

/-- The token count of a line does not fit the section `level`, in the words
of the spec. -/
def ShapeViolation (level : Int) (tokens : List TString) : Prop :=
  (level = 1 ∧ tokens.length ≠ 5) ∨
  (level = 2 ∧ tokens.length ≠ 2) ∨
  (level = 3 ∧ tokens.length < 2 ∧ tokens.head? ≠ some "EMPTY".toList ∧
    tokens.head? ≠ some "DEMPTY".toList) ∨
  (level = 4 ∧ tokens.length < 2) ∨
  (level = 5 ∧ tokens.head? ≠ some "NONE".toList ∧ tokens.head? ≠ some "NOPF".toList ∧
    tokens.length ≠ 10) ∨
  (level = 6 ∧ 2 < tokens.length) ∨
  (level = 7 ∧ tokens.length ≠ 8)

instance (r : LineResult) : Decidable (ReturnsFailure r) := by
  unfold ReturnsFailure; infer_instance

instance (r : LineResult) : Decidable (ReturnsSuccess r) := by
  unfold ReturnsSuccess; infer_instance

instance (level : Int) (tokens : List TString) : Decidable (ShapeViolation level tokens) := by
  unfold ShapeViolation; infer_instance

/-! ## Folding the parser over the lines of a text -/

/-- The configuration and level after `ProcessConfigurationLine` went over all
the lines in order, each from the state the line before left, the returned
flags not looked at; `none` when some call has no defined result. -/
def foldLines (K : Collaborators) :
    List TString → AliTriggerConfiguration × Int → Option (AliTriggerConfiguration × Int)
  | [], st => some st
  | l :: ls, st =>
    match ProcessConfigurationLine K st.1 l st.2 with
    | none => none
    | some (_, cfg, level) => foldLines K ls (cfg, level)

/-- Some line of the text, processed in order from `st`, makes
`ProcessConfigurationLine` return failure: line `k` does, from the state the
`k` lines before it lead to. -/
def SomeLineFails (K : Collaborators) (lines : List TString)
    (st : AliTriggerConfiguration × Int) : Prop :=
  ∃ (k : Nat) (hk : k < lines.length) (stk : AliTriggerConfiguration × Int),
    foldLines K (lines.take k) st = some stk ∧
    ReturnsFailure (ProcessConfigurationLine K stk.1 (lines.get ⟨k, hk⟩) stk.2)

/-- A text whose `CLASSES:` line names the descriptor `DX`, which no line
declares. -/
def undeclaredDescriptorText : TString :=
  "CLUSTERS:\nCL 1 TPC\nPFS:\nNONE\nBCMASKS:\nNONE\nCLASSES:\nC1 1 DX CL NONE NONE 0 0\n".toList

/-- The other tokens of a detector list, in their order, joined by single
blanks: what the spec says `IsSelected` leaves after it matched `detName`. -/
def otherTokensJoined (detName detectors : TString) : TString :=
  [' '].intercalate ((Tokenize detectors [' ']).filter (fun t => t != detName))

/-! ## Frames of the add operations and of the parser -/

/-- The list `new` is `old` with `x` put after its last element: one element
more, every old element at its old position, `x` at the end. -/
def AppendsLast {α : Type} (old new : List α) (x : α) : Prop :=
  new.length = old.length + 1 ∧ (∀ i, i < old.length → new.get? i = old.get? i) ∧
    new.get? old.length = some x

/-- The line begins with one of the seven section headers. -/
def isSectionHeader (line : TString) : Bool :=
  BeginsWith line "INPUTS:".toList || BeginsWith line "INTERACTIONS:".toList ||
  BeginsWith line "DESCRIPTORS:".toList || BeginsWith line "CLUSTERS:".toList ||
  BeginsWith line "PFS:".toList || BeginsWith line "BCMASKS:".toList ||
  BeginsWith line "CLASSES:".toList

/-- Every result the parser step returns carries the given level. -/
def KeepsLevel (r : LineResult) (level : Int) : Prop :=
  ∀ b cfg lv, r = some (b, cfg, lv) → lv = level

/-! ## What the spec says the parser hands to the add operations -/

/-- The line with only its first token removed, in the words of the spec:
the leading blanks and tabs stay, the first run of other characters goes, the
rest of the line is kept as it is. -/
def removeFirstToken (strLine : TString) : TString :=
  strLine.takeWhile (fun c => c ∈ " \t".toList) ++
    ((strLine.dropWhile (fun c => c ∈ " \t".toList)).dropWhile (fun c => c ∉ " \t".toList))

/-- The tokens joined by single blanks, with no leading or trailing blank. -/
def joinedBySingleBlanks (tokens : List TString) : TString := [' '].intercalate tokens

/-- Checks that accept every object, to show what the parser hands to the add
operations whatever the validity checks are. -/
def acceptAll : Collaborators :=
  { CheckInputs := fun _ _ => true
    CheckInputsAndFunctions := fun _ _ _ => true
    CheckInteractions := fun _ _ => true
    CheckClass := fun _ _ => true
    ClassMask := specClassMask }

/-- A configuration built by the parser alone that holds four past-future
protections. -/
def fourProtectionsCfg : AliTriggerConfiguration :=
  ((foldLines specCollaborators
    ["PFS:".toList, "NONE".toList, "NOPF".toList, "NONE".toList, "NOPF".toList]
    (AliTriggerConfiguration.empty, 0)).getD (AliTriggerConfiguration.empty, 0)).1

/-! ## PHOS digits (`src/PHOS/AliPHOSDigit.cxx`) -/

/-- A PHOS digit: the data members that `AliPHOSDigit.cxx` reads and writes.
`fPrimary` is the heap array of `fNMaxPrimary` entries made by the
constructors. The header that declares the members is not part of the
sources: `fAmp`, `fId`, `fIndexInList`, `fNprimary` and `fNMaxPrimary` are
`Int_t` values, as the constructor arguments and the locals assigned from
them are, and sums of them are taken in 32-bit two's complement. -/
structure AliPHOSDigit where
  fAmp : Int
  fId : Int
  fIndexInList : Int
  fNprimary : Int
  fNMaxPrimary : Int
  fPrimary : List Int
  deriving DecidableEq

/-- Reading `arr[i]`: `none` when the slot lies outside the array. -/
def readSlot (arr : List Int) (i : Int) : Option Int :=
  if 0 ≤ i ∧ i < arr.length then arr.get? i.toNat else none

/-- Writing `arr[i] = v`: `none` when the slot lies outside the array. -/
def writeSlot (arr : List Int) (i : Int) (v : Int) : Option (List Int) :=
  if 0 ≤ i ∧ i < arr.length then some (arr.set i.toNat v) else none

/-- `AliPHOSDigit::AliPHOSDigit(Int_t primary, Int_t id, Int_t DigEnergy, Int_t index)`. -/
def AliPHOSDigit.new (primary id DigEnergy index : Int) : AliPHOSDigit :=
  { fAmp := DigEnergy
    fId := id
    fIndexInList := index
    fNprimary := if primary != -1 then 1 else 0
    fNMaxPrimary := 5
    fPrimary := (if primary != -1 then primary else -1) :: List.replicate 4 (-1) }

/-- `AliPHOSDigit::Compare`: the difference of the two ids is stored in an
`Int_t`, so it is taken in 32-bit two's complement. -/
def AliPHOSDigit.Compare (self digit : AliPHOSDigit) : Int :=
  let iddiff := toInt_t (self.fId - digit.fId)
  if iddiff > 0 then 1
  else if iddiff < 0 then -1
  else 0

/-- `AliPHOSDigit::GetPrimary`: only `index > fNMaxPrimary` is guarded; every
other index reads `fPrimary[index-1]`. -/
def AliPHOSDigit.GetPrimary (self : AliPHOSDigit) (index : Int) : Option Int :=
  if index > self.fNMaxPrimary then some (-1)
  else readSlot self.fPrimary (index - 1)

/-- The copy loop of `operator+`, over the values `index` takes:
`fPrimary[index+max1] = (digit.fPrimary)[index]`. -/
def copyPrimaries (max1 : Int) (src : List Int) : List Nat → List Int → Option (List Int)
  | [], dst => some dst
  | index :: more, dst =>
    match readSlot src index with
    | none => none
    | some v =>
      match writeSlot dst (toInt_t (index + max1)) v with
      | none => none
      | some dst1 => copyPrimaries max1 src more dst1

/-- The slots of `fPrimary` that `operator+` writes, in the order of the
writes. -/
def slotsWritten (self digit : AliPHOSDigit) : List Int :=
  let max1 := self.fNprimary
  let max2 := digit.fNprimary
  if self.fNprimary ≥ self.fNMaxPrimary then []
  else (List.range max2.toNat).map (fun index => toInt_t ((index : Int) + max1))

/-- `AliPHOSDigit::operator+`, returning the new state of the left operand;
`none` when a slot outside one of the arrays is touched. -/
def AliPHOSDigit.operatorPlus (self digit : AliPHOSDigit) : Option AliPHOSDigit :=
  let fAmp := toInt_t (self.fAmp + digit.fAmp)
  let max1 := self.fNprimary
  let max2 := digit.fNprimary
  if self.fNprimary ≥ self.fNMaxPrimary then some { self with fAmp := fAmp }
  else
    let fNprimary := toInt_t (self.fNprimary + digit.fNprimary)
    let fNprimary := if fNprimary > self.fNMaxPrimary then self.fNMaxPrimary else fNprimary
    (copyPrimaries max1 digit.fPrimary (List.range max2.toNat) self.fPrimary).map
      (fun arr => { self with fAmp := fAmp, fNprimary := fNprimary, fPrimary := arr })

/-- A digit as the constructors and `operator+` leave it: five slots, and a
primary count between 0 and 5. -/
def AliPHOSDigit.WellFormed (d : AliPHOSDigit) : Prop :=
  d.fNMaxPrimary = 5 ∧ d.fPrimary.length = 5 ∧ 0 ≤ d.fNprimary ∧ d.fNprimary ≤ 5

instance (d : AliPHOSDigit) : Decidable d.WellFormed := by
  unfold AliPHOSDigit.WellFormed; infer_instance

/-- A digit with three primaries, made by the constructor and `operator+`. -/
def threePrimaries : Option AliPHOSDigit :=
  ((AliPHOSDigit.new 11 7 10 0).operatorPlus (AliPHOSDigit.new 12 7 10 0)).bind
    (fun d => d.operatorPlus (AliPHOSDigit.new 13 7 10 0))

/-- A digit with four primaries, made by the constructor and `operator+`. -/
def fourPrimaries : Option AliPHOSDigit :=
  (((AliPHOSDigit.new 21 8 10 1).operatorPlus (AliPHOSDigit.new 22 8 10 1)).bind
    (fun d => d.operatorPlus (AliPHOSDigit.new 23 8 10 1))).bind
    (fun d => d.operatorPlus (AliPHOSDigit.new 24 8 10 1))

/-! ## Loading from a file -/

/-- The file name that `LoadConfiguration` builds from its argument;
`aliceRoot` is the value of the environment variable `ALICE_ROOT`. -/
def configurationFileName (aliceRoot configuration : TString) : TString :=
  if EndsWith configuration ".cfg".toList || EndsWith configuration ".shuttle".toList then
    configuration
  else aliceRoot ++ "/GRP/CTP/".toList ++ configuration ++ ".cfg".toList

/-- `AliTriggerConfiguration::LoadConfiguration(configuration)`. The file
system is the function `readFile`: the lines that `ReadLine` yields for a
file name, `none` for a file that is not found or cannot be opened. The
result `some none` is the null pointer. -/
def LoadConfiguration (K : Collaborators) (aliceRoot : TString)
    (readFile : TString → Option (List TString)) (configuration : TString) :
    Option (Option AliTriggerConfiguration) :=
  let filename := configurationFileName aliceRoot configuration
  match readFile filename with
  | none => some none
  | some lines => loadLines K lines AliTriggerConfiguration.empty 0

/-! ## Reachable configurations and what the parser adds -/

/-- The configurations reachable from the empty one by add calls and by
lines given to the parser, in any order. -/
inductive Reachable (K : Collaborators) : AliTriggerConfiguration → Prop
  | empty : Reachable K AliTriggerConfiguration.empty
  | add (cfg : AliTriggerConfiguration) (call : AddCall) (h : Reachable K cfg) :
      Reachable K (call.run K cfg)
  | parsed (cfg : AliTriggerConfiguration) (str : TString) (level : Int) (b : Bool)
      (cfg1 : AliTriggerConfiguration) (level1 : Int) (h : Reachable K cfg)
      (hp : ProcessConfigurationLine K cfg str level = some (b, cfg1, level1)) :
      Reachable K cfg1

/-- The cluster invariant: every cluster has a non-empty detector list, and
there are at most `kNMaxClusters` clusters. -/
def ClusterInvariant (cfg : AliTriggerConfiguration) : Prop :=
  (∀ c ∈ cfg.fClusters, c.fDetectors ≠ []) ∧ cfg.fClusters.length ≤ kNMaxClusters

/-- The add calls the parser makes on a line with the given tokens: an input
is built from exactly five tokens, with its three numbers narrowed to their
types; a cluster has as detector list every token from the third on, each
followed by a blank; the objects of the other kinds are not described here. -/
def ParsedCall (tokens : List TString) : AddCall → Prop
  | .input x => ∃ t2 t3 t4, tokens = [x.fName, x.fDetector, t2, t3, t4] ∧
      x.fLevel = toUChar_t (Atoi t2) ∧ x.fSignature = toUInt_t (Atoi t3) ∧
      x.fNumber = toUChar_t (Atoi t4)
  | .cluster x => ∃ t1 rest, tokens = x.fName :: t1 :: rest ∧
      x.fIndex = toUChar_t (Atoi t1) ∧ x.fDetectors = rest.flatMap (fun tok => tok ++ [' '])
  | .classByName _ _ _ _ _ _ _ _ => False
  | _ => True

/-- Every result the step returns carries the old configuration or the
configuration after one add call of the parser. -/
def StepsBy (K : Collaborators) (cfg : AliTriggerConfiguration) (tokens : List TString)
    (r : LineResult) : Prop :=
  ∀ b cfg1 lv, r = some (b, cfg1, lv) →
    cfg1 = cfg ∨ ∃ call, ParsedCall tokens call ∧ cfg1 = call.run K cfg

/-- What a returned call of `ProcessConfigurationLine` can have done to the
configuration: nothing, set the name, set the version, or made one add call. -/
def ParserStep (K : Collaborators) (cfg : AliTriggerConfiguration) (str : TString)
    (cfg1 : AliTriggerConfiguration) : Prop :=
  cfg1 = cfg ∨ cfg1 = { cfg with fName := ReplaceAll str "PARTITION:".toList [] } ∨
  cfg1 = { cfg with fVersion := Atoi (ReplaceAll str "VERSION:".toList []) } ∨
  ∃ call, ParsedCall (Tokenize (normalizeLine str) " \t".toList) call ∧ cfg1 = call.run K cfg

/-- The form of the inputs and clusters of a configuration that the parser
built: each cluster has a non-empty name without blank or tab, an index below
256 and a detector list that ends with a blank; each input has a non-empty
name without blank or tab, a level and a number below 256 and a signature
below 2^32. -/
def ParsedForm (cfg : AliTriggerConfiguration) : Prop :=
  (∀ c ∈ cfg.fClusters, EndsWith c.fDetectors [' '] = true ∧ c.fName ≠ [] ∧
    ' ' ∉ c.fName ∧ '\t' ∉ c.fName ∧ c.fIndex < 256) ∧
  (∀ x ∈ cfg.fInputs, x.fName ≠ [] ∧ ' ' ∉ x.fName ∧ '\t' ∉ x.fName ∧
    x.fLevel < 256 ∧ x.fSignature < 2 ^ 32 ∧ x.fNumber < 256)

/-- The empty configuration after `AddCluster("CL", 1, "TPC")`. -/
def tpcClusterCfg : AliTriggerConfiguration :=
  (AddClusterNew AliTriggerConfiguration.empty "CL".toList 1 "TPC".toList).2

/-! ## The text format written out

The sources hold no function that writes a configuration in the text format
that the parser reads (`Print` writes a dump of another shape). The writer
of this section is modelled from the spec, section 6: one line per object,
its fields in the order of the format, separated by single blanks, numbers
as decimal numerals. -/

/-- Modelled from the spec: the decimal numeral of a natural number. -/
def showNat (n : Nat) : TString := Nat.toDigits 10 n

/-- Modelled from the spec: the decimal numeral of an integer, with a minus
sign when negative. -/
def showInt (v : Int) : TString :=
  if v < 0 then '-' :: showNat (-v).toNat else showNat v.toNat

/-- Modelled from the spec: the fields of a line, separated by single blanks. -/
def blankSeparated : List TString → TString
  | [] => []
  | [w] => w
  | w :: ws => w ++ ' ' :: blankSeparated ws

/-- Modelled from the spec: the line
`<name> <detector> <level> <signature> <number>`. -/
def inputLine (x : AliTriggerInput) : TString :=
  blankSeparated [x.fName, x.fDetector, showNat x.fLevel, showNat x.fSignature,
    showNat x.fNumber]

/-- Modelled from the spec: the line `<name> <logic-expression>`. -/
def interactionLine (x : AliTriggerInteraction) : TString :=
  blankSeparated [x.fName, x.fLogic]

/-- Modelled from the spec: the line `<name> <condition-expression>`. -/
def descriptorLine (x : AliTriggerDescriptor) : TString :=
  blankSeparated [x.fName, x.fCondition]

/-- Modelled from the spec: the line `<name> <index> <detector-list...>`. -/
def clusterLine (x : AliTriggerCluster) : TString :=
  blankSeparated [x.fName, showNat x.fIndex, x.fDetectors]

/-- Modelled from the spec: the line `NONE`, `NOPF` or
`<name> <intName1> <intName2> <intName3> <Na1> <Na2> <Nb1> <Nb2> <Ta> <Tb>`. -/
def pfLine (p : AliTriggerPFProtection) : TString :=
  if p.fName == "NONE".toList || p.fName == "NOPF".toList then p.fName
  else blankSeparated [p.fName, p.fIntName1, p.fIntName2, p.fIntName3, showInt p.fNa1,
    showInt p.fNa2, showInt p.fNb1, showInt p.fNb2, showInt p.fTa, showInt p.fTb]

/-- Modelled from the spec: the line `NONE` or `<name> <maskPattern>`. -/
def maskLine (m : AliTriggerBCMask) : TString :=
  if m.fName == "NONE".toList then m.fName else blankSeparated [m.fName, m.fPattern]

/-- Modelled from the spec: the line `<name> <index> <descriptorName>
<clusterName> <pfName> <maskName> <prescaler> <allrare>`. -/
def classLine (c : AliTriggerClass) : TString :=
  blankSeparated [c.fName, showNat c.fIndex, c.fDescriptor, c.fCluster, c.fPFProtection,
    c.fMask, showNat c.fPrescaler, if c.fAllRare then "1".toList else "0".toList]

/-- Modelled from the spec: the lines of a configuration in the order of the
text format; logical functions and descriptors share the section
`DESCRIPTORS:`. -/
def toLines (cfg : AliTriggerConfiguration) : List TString :=
  ["PARTITION:".toList ++ cfg.fName, "VERSION:".toList ++ showInt cfg.fVersion] ++
  ["INPUTS:".toList] ++ cfg.fInputs.map inputLine ++
  ["INTERACTIONS:".toList] ++ cfg.fInteractions.map interactionLine ++
  ["DESCRIPTORS:".toList] ++ cfg.fFunctions.map interactionLine ++
    cfg.fDescriptors.map descriptorLine ++
  ["CLUSTERS:".toList] ++ cfg.fClusters.map clusterLine ++
  ["PFS:".toList] ++ cfg.fPFProtections.map pfLine ++
  ["BCMASKS:".toList] ++ cfg.fMasks.map maskLine ++
  ["CLASSES:".toList] ++ cfg.fClasses.map classLine

/-- Modelled from the spec: the configuration as a text, every line followed
by a newline. -/
def toText (cfg : AliTriggerConfiguration) : TString :=
  (toLines cfg).flatMap (fun l => l ++ ['\n'])

/-- A word of the text format: not empty, and free of blank, tab, newline and
of the wildcard characters `*` and `~`, which the parser rewrites. -/
def IsWord (w : TString) : Prop := w ≠ [] ∧ ∀ c ∈ w, c ∉ " \t\n*~".toList

instance (w : TString) : Decidable (IsWord w) := by
  unfold IsWord; infer_instance

/-- A word that can begin a data line: it does not begin with `#`,
`PARTITION:`, `VERSION:` or a section header. -/
def IsLineName (w : TString) : Prop := IsWord w ∧ isSpecialLine w = false

instance (w : TString) : Decidable (IsLineName w) := by
  unfold IsLineName; infer_instance

/-- The classes pass `CheckClass` one after the other, each on the
configuration that holds the classes before it. -/
def classesAccepted (K : Collaborators) : AliTriggerConfiguration → List AliTriggerClass → Bool
  | _, [] => true
  | cfg, c :: cs =>
    K.CheckClass c cfg && classesAccepted K { cfg with fClasses := cfg.fClasses ++ [c] } cs

/-- The configurations that the text format can express: the name has no
newline and no `PARTITION:` inside; the version is an `Int_t`; the
collections are within their capacities; names and references are words;
numbers lie in the range of their type; a detector list is words each followed
by one blank; the sentinel protections and mask are as the parser builds
them; every object passes its validity check; and there are no logical
functions and no descriptors. -/
def Expressible (K : Collaborators) (cfg : AliTriggerConfiguration) : Prop :=
  ('\n' ∉ cfg.fName ∧ ¬ "PARTITION:".toList <:+: cfg.fName) ∧
  (-2 ^ 31 ≤ cfg.fVersion ∧ cfg.fVersion < 2 ^ 31) ∧
  (cfg.fInputs.length ≤ kNMaxInputs ∧ ∀ x ∈ cfg.fInputs, IsLineName x.fName ∧
    IsWord x.fDetector ∧ x.fLevel < 256 ∧ x.fSignature < 2 ^ 32 ∧ x.fNumber < 256) ∧
  (cfg.fInteractions.length ≤ kNMaxInteractions ∧ ∀ x ∈ cfg.fInteractions,
    IsLineName x.fName ∧ IsWord x.fLogic ∧ K.CheckInputs x cfg.fInputs = true) ∧
  (cfg.fFunctions = [] ∧ cfg.fDescriptors = []) ∧
  (cfg.fClusters.length ≤ kNMaxClusters ∧ ∀ x ∈ cfg.fClusters, IsLineName x.fName ∧
    x.fIndex < 256 ∧ x.fDetectors ≠ [] ∧
    (∀ w ∈ Tokenize x.fDetectors [' '], IsWord w) ∧
    x.fDetectors = (Tokenize x.fDetectors [' ']).flatMap (fun tok => tok ++ [' '])) ∧
  (cfg.fPFProtections.length ≤ kNMaxPFProtections ∧ ∀ p ∈ cfg.fPFProtections,
    K.CheckInteractions p cfg.fInteractions = true ∧
    (p = newPFProtectionSentinel "NONE".toList ∨ p = newPFProtectionSentinel "NOPF".toList ∨
      (IsLineName p.fName ∧ p.fName ≠ "NONE".toList ∧ p.fName ≠ "NOPF".toList ∧
        IsWord p.fIntName1 ∧ IsWord p.fIntName2 ∧ IsWord p.fIntName3 ∧
        ∀ v ∈ [p.fNa1, p.fNa2, p.fNb1, p.fNb2, p.fTa, p.fTb], -2 ^ 31 ≤ v ∧ v < 2 ^ 31))) ∧
  (cfg.fMasks.length ≤ kNMaxMasks ∧ ∀ m ∈ cfg.fMasks,
    m = newBCMaskSentinel "NONE".toList ∨
      (IsLineName m.fName ∧ m.fName ≠ "NONE".toList ∧ IsWord m.fPattern)) ∧
  (cfg.fClasses.length ≤ kNMaxClasses ∧
    classesAccepted K { cfg with fTitle := [], fClasses := [] } cfg.fClasses = true ∧
    ∀ c ∈ cfg.fClasses, IsLineName c.fName ∧ c.fIndex < 256 ∧
      c.fClassMask = K.ClassMask c.fIndex ∧ IsWord c.fDescriptor ∧ IsWord c.fCluster ∧
      IsWord c.fPFProtection ∧ IsWord c.fMask ∧ c.fPrescaler < 2 ^ 32)

/-- A configuration with an object in every collection that the text format
can express. -/
def expressibleCfg : AliTriggerConfiguration :=
  { fName := "TEST".toList, fTitle := [], fVersion := 3
    fInputs := [⟨"V0A".toList, "VZERO".toList, 0, 256, 1⟩]
    fInteractions := [⟨"INT1".toList, "V0A".toList⟩]
    fFunctions := [], fDescriptors := []
    fClusters := [⟨"CL".toList, 1, "TPC TRD ".toList⟩]
    fPFProtections := [newPFProtectionSentinel "NONE".toList,
      ⟨"PF1".toList, "INT1".toList, "INT1".toList, "INT1".toList, 1, 2, 3, 4, -5, 6⟩]
    fMasks := [newBCMaskSentinel "NONE".toList, ⟨"BC1".toList, "HLHL".toList⟩]
    fClasses := [⟨"C1".toList, 1, specClassMask 1, "DX".toList, "CL".toList, "NONE".toList,
      "NONE".toList, 10, true⟩] }

/-- A configuration that the parser builds from a text with one input and
one descriptor. -/
def descriptorCfg : AliTriggerConfiguration :=
  { AliTriggerConfiguration.empty with
    fInputs := [⟨"V0A".toList, "VZERO".toList, 0, 1, 2⟩]
    fDescriptors := [⟨"DV0A".toList, " V0A".toList⟩] }

/-! # Theorems -/

/-! ## Add operations -/

/-- C3: each pointer-taking `Add` returns success exactly when its collection
holds fewer entries than its maximum and the validity check of its kind
passes (none for inputs and masks, a non-empty detector list for clusters),
and a call that returns failure leaves the whole configuration as it was. -/
theorem add_contract (K : Collaborators) (cfg : AliTriggerConfiguration) :
    (∀ x, ((AddInput cfg x).1 = true ↔ cfg.fInputs.length < 50) ∧
        ((AddInput cfg x).1 = false → (AddInput cfg x).2 = cfg)) ∧
    (∀ x, ((AddInteraction K cfg x).1 = true ↔
          cfg.fInteractions.length < 2 ∧ K.CheckInputs x cfg.fInputs = true) ∧
        ((AddInteraction K cfg x).1 = false → (AddInteraction K cfg x).2 = cfg)) ∧
    (∀ x, ((AddFunction K cfg x).1 = true ↔
          cfg.fFunctions.length < 2 ∧ K.CheckInputs x cfg.fInputs = true) ∧
        ((AddFunction K cfg x).1 = false → (AddFunction K cfg x).2 = cfg)) ∧
    (∀ x, ((AddDescriptor K cfg x).1 = true ↔
          cfg.fDescriptors.length < 50 ∧
            K.CheckInputsAndFunctions x cfg.fInputs cfg.fFunctions = true) ∧
        ((AddDescriptor K cfg x).1 = false → (AddDescriptor K cfg x).2 = cfg)) ∧
    (∀ x, ((AddCluster cfg x).1 = true ↔ cfg.fClusters.length < 6 ∧ x.fDetectors ≠ []) ∧
        ((AddCluster cfg x).1 = false → (AddCluster cfg x).2 = cfg)) ∧
    (∀ x, ((AddPFProtection K cfg x).1 = true ↔
          cfg.fPFProtections.length < 4 ∧ K.CheckInteractions x cfg.fInteractions = true) ∧
        ((AddPFProtection K cfg x).1 = false → (AddPFProtection K cfg x).2 = cfg)) ∧
    (∀ x, ((AddMask cfg x).1 = true ↔ cfg.fMasks.length < 4) ∧
        ((AddMask cfg x).1 = false → (AddMask cfg x).2 = cfg)) ∧
    (∀ x, ((AddClass K cfg x).1 = true ↔
          cfg.fClasses.length < 50 ∧ K.CheckClass x cfg = true) ∧
        ((AddClass K cfg x).1 = false → (AddClass K cfg x).2 = cfg)) := by
  refine ⟨?_, ?_, ?_, ?_, ?_, ?_, ?_, ?_⟩ <;> intro x
  · unfold AddInput kNMaxInputs; split <;> simp_all
  · unfold AddInteraction kNMaxInteractions; (split <;> try split) <;> simp_all
  · unfold AddFunction kNMaxFunctions; (split <;> try split) <;> simp_all
  · unfold AddDescriptor kNMaxClasses; (split <;> try split) <;> simp_all
  · unfold AddCluster kNMaxClusters
    cases hd : x.fDetectors <;> split <;> simp_all
  · unfold AddPFProtection kNMaxPFProtections; (split <;> try split) <;> simp_all
  · unfold AddMask kNMaxMasks; split <;> simp_all
  · unfold AddClass kNMaxClasses; (split <;> try split) <;> simp_all

/-- One add call keeps the collections within their capacities. -/
theorem withinCapacity_run_step (K : Collaborators) (cfg : AliTriggerConfiguration)
    (call : AddCall) (h : WithinCapacity cfg) : WithinCapacity (call.run K cfg) := by
  obtain ⟨h1, h2, h3, h4, h5, h6, h7, h8⟩ := h
  cases call <;>
    simp only [AddCall.run, AddInput, AddInteraction, AddFunction, AddDescriptor, AddCluster,
      AddPFProtection, AddMask, AddClass, AddClassByName, kNMaxInputs, kNMaxInteractions,
      kNMaxFunctions, kNMaxClasses, kNMaxClusters, kNMaxPFProtections, kNMaxMasks,
      WithinCapacity] <;>
    split_ifs <;>
    (try simp only [List.length_append, List.length_singleton, Bool.not_eq_true] at *) <;>
    omega

/-- A sequence of add calls keeps the collections within their capacities. -/
theorem withinCapacity_runAddCalls (K : Collaborators) (calls : List AddCall)
    (cfg : AliTriggerConfiguration) (h : WithinCapacity cfg) :
    WithinCapacity (runAddCalls K calls cfg) := by
  induction calls generalizing cfg with
  | nil => exact h
  | cons c cs ih => exact ih _ (withinCapacity_run_step K cfg c h)

/-- Adding inputs while there is room appends them all. -/
theorem runAddCalls_inputs (K : Collaborators) (xs : List AliTriggerInput)
    (cfg : AliTriggerConfiguration) (h : cfg.fInputs.length + xs.length ≤ 50) :
    runAddCalls K (xs.map AddCall.input) cfg = { cfg with fInputs := cfg.fInputs ++ xs } := by
  induction xs generalizing cfg with
  | nil => simp [runAddCalls]
  | cons x xs ih =>
    simp only [List.length_cons] at h
    have hlt : cfg.fInputs.length < 50 := by omega
    have hstep : AddCall.run K cfg (AddCall.input x) = { cfg with fInputs := cfg.fInputs ++ [x] } := by
      simp [AddCall.run, AddInput, kNMaxInputs, hlt]
    have := ih { cfg with fInputs := cfg.fInputs ++ [x] } (by simp; omega)
    simp only [runAddCalls, List.map_cons, List.foldl_cons, hstep] at this ⊢
    rw [this]; simp

/-- C2: from the empty configuration, any finite sequence of add calls,
successful or not, leaves at most 50 inputs, 2 interactions, 2 functions,
50 descriptors, 6 clusters, 4 past-future protections, 4 masks and 50
classes; an `AddInput` on a reachable configuration that holds 50 inputs
returns failure and leaves 50, and after fifty inputs were added the
fifty-first `AddInput` fails and changes nothing. -/
theorem capacity_invariant (K : Collaborators) (calls : List AddCall) :
    WithinCapacity (runAddCalls K calls AliTriggerConfiguration.empty) ∧
    (∀ x, (runAddCalls K calls AliTriggerConfiguration.empty).fInputs.length = 50 →
      (AddInput (runAddCalls K calls AliTriggerConfiguration.empty) x).1 = false ∧
      (AddInput (runAddCalls K calls AliTriggerConfiguration.empty) x).2.fInputs.length = 50) ∧
    (∀ xs : List AliTriggerInput, ∀ x, xs.length = 50 →
      (runAddCalls K (xs.map AddCall.input) AliTriggerConfiguration.empty).fInputs = xs ∧
      (AddInput (runAddCalls K (xs.map AddCall.input) AliTriggerConfiguration.empty) x) =
        (false, runAddCalls K (xs.map AddCall.input) AliTriggerConfiguration.empty)) := by
  refine ⟨withinCapacity_runAddCalls K calls _ ?_, ?_, ?_⟩
  · simp [WithinCapacity, AliTriggerConfiguration.empty]
  · intro x h
    simp [AddInput, kNMaxInputs, h]
  · intro xs x h
    have := runAddCalls_inputs K xs AliTriggerConfiguration.empty
      (by simp [AliTriggerConfiguration.empty]; omega)
    rw [this]
    simp [AddInput, kNMaxInputs, AliTriggerConfiguration.empty, h]

/-- C1 (amended): `AddClass` by names returns a class, and appends exactly it
to the class collection, if and only if the four names are present, the
class collection holds fewer than 50 classes and `CheckClass` accepts the new
class; with the check the spec describes the last condition follows from the
first.  When it returns null the configuration is unchanged. -/
theorem addClassByName_spec (K : Collaborators) (cfg : AliTriggerConfiguration)
    (name : TString) (index : Nat) (desc clus pfp mask : TString) (prescaler : Nat)
    (allrare : Bool) :
    ((AddClassByName K cfg name index desc clus pfp mask prescaler allrare).1.isSome ↔
      ReferencesPresent cfg desc clus pfp mask ∧ cfg.fClasses.length < 50 ∧
        K.CheckClass (newTriggerClass K name index desc clus pfp mask prescaler allrare) cfg
          = true) ∧
    ((AddClassByName K cfg name index desc clus pfp mask prescaler allrare).1.isSome →
      AddClassByName K cfg name index desc clus pfp mask prescaler allrare =
        (some (newTriggerClass K name index desc clus pfp mask prescaler allrare),
         { cfg with fClasses := cfg.fClasses ++
            [newTriggerClass K name index desc clus pfp mask prescaler allrare] })) ∧
    ((AddClassByName K cfg name index desc clus pfp mask prescaler allrare).1 = none →
      (AddClassByName K cfg name index desc clus pfp mask prescaler allrare).2 = cfg) ∧
    (K.CheckClass = specCheckClass →
      ((AddClassByName K cfg name index desc clus pfp mask prescaler allrare).1.isSome ↔
        ReferencesPresent cfg desc clus pfp mask ∧ cfg.fClasses.length < 50)) := by
  have hadd : AddClass K cfg (newTriggerClass K name index desc clus pfp mask prescaler allrare)
      = if cfg.fClasses.length < 50 ∧
          K.CheckClass (newTriggerClass K name index desc clus pfp mask prescaler allrare) cfg
            = true
        then (true, { cfg with fClasses := cfg.fClasses ++
            [newTriggerClass K name index desc clus pfp mask prescaler allrare] })
        else (false, cfg) := by
    unfold AddClass kNMaxClasses
    by_cases h1 : cfg.fClasses.length < 50 <;>
      by_cases h2 : K.CheckClass
        (newTriggerClass K name index desc clus pfp mask prescaler allrare) cfg = true <;>
      simp [h1, h2]
  have key : (AddClassByName K cfg name index desc clus pfp mask prescaler allrare).1.isSome ↔
      ReferencesPresent cfg desc clus pfp mask ∧ cfg.fClasses.length < 50 ∧
        K.CheckClass (newTriggerClass K name index desc clus pfp mask prescaler allrare) cfg
          = true := by
    simp only [AddClassByName, ReferencesPresent, hadd]
    clear hadd
    cases FindObject cfg.fDescriptors desc <;> cases FindObject cfg.fClusters clus <;>
    cases FindObject cfg.fPFProtections pfp <;> cases FindObject cfg.fMasks mask <;>
    by_cases h5 : (cfg.fClasses.length < 50 ∧
          K.CheckClass (newTriggerClass K name index desc clus pfp mask prescaler allrare) cfg
            = true) <;>
    simp [h5]
  refine ⟨key, ?_, ?_, ?_⟩
  · intro h
    obtain ⟨⟨h1, h2, h3, h4⟩, h5⟩ := key.mp h
    simp only [AddClassByName, hadd]
    clear hadd key h
    simp only [Option.isSome_iff_ne_none, ne_eq, ← Option.isNone_iff_eq_none,
      Bool.not_eq_true] at h1 h2 h3 h4
    simp [h1, h2, h3, h4, h5]
  · simp only [AddClassByName, hadd]
    clear hadd key
    split_ifs <;> simp_all
  · intro hK
    rw [key, hK]
    constructor
    · rintro ⟨h1, h2, _⟩; exact ⟨h1, h2⟩
    · rintro ⟨h1, h2⟩
      refine ⟨h1, h2, ?_⟩
      obtain ⟨a, b, c, d⟩ := h1
      simp [specCheckClass, newTriggerClass, a, b, c, d]

set_option maxRecDepth 100000 in
/-- The configuration `fullClassesCfg` holds fifty classes. -/
theorem fullClassesCfg_classes : fullClassesCfg.fClasses.length = 50 := by decide

set_option maxRecDepth 100000 in
/-- C1 as stated fails: with fifty classes in place, all four references of
the request are present and `AddClass` by names still returns null. -/
theorem addClassByName_full_returns_null :
    ReferencesPresent fullClassesCfg "D".toList "CL".toList "NONE".toList "NONE".toList ∧
    ¬ ((AddClassByName specCollaborators fullClassesCfg "C51".toList 2 "D".toList "CL".toList
          "NONE".toList "NONE".toList 0 false).1.isSome ↔
        ReferencesPresent fullClassesCfg "D".toList "CL".toList "NONE".toList "NONE".toList) := by
  decide

/-! ## The class loop of `CheckConfiguration` -/

/-- A mask meets neither of two masks exactly when it does not meet their OR. -/
theorem lor_land_eq_zero_iff (a b c : Nat) :
    (a ||| b) &&& c = 0 ↔ a &&& c = 0 ∧ b &&& c = 0 := by
  constructor
  · intro h
    have hbit : ∀ i, ((a.testBit i || b.testBit i) && c.testBit i) = false := by
      intro i
      have := congrArg (fun n => Nat.testBit n i) h
      simpa [Nat.testBit_land, Nat.testBit_lor] using this
    constructor <;> apply Nat.eq_of_testBit_eq <;> intro i <;> have := hbit i <;>
      simp only [Nat.testBit_land, Nat.zero_testBit] <;>
      cases h1 : a.testBit i <;> cases h2 : b.testBit i <;> cases h3 : c.testBit i <;> simp_all
  · rintro ⟨h1, h2⟩
    apply Nat.eq_of_testBit_eq
    intro i
    have e1 := congrArg (fun n => Nat.testBit n i) h1
    have e2 := congrArg (fun n => Nat.testBit n i) h2
    simp only [Nat.testBit_land, Nat.zero_testBit] at e1 e2
    simp only [Nat.testBit_land, Nat.testBit_lor, Nat.zero_testBit]
    cases h1 : a.testBit i <;> cases h2 : b.testBit i <;> cases h3 : c.testBit i <;> simp_all

/-- The class loop from an arbitrary state `(b, m)`. -/
theorem checkClass_foldl (K : Collaborators) (cfg : AliTriggerConfiguration)
    (cs : List AliTriggerClass) (b : Bool) (m : Nat) :
    ((cs.foldl (checkClassStep K cfg) (b, m)).1 = true ↔
      b = true ∧ (∀ c ∈ cs, K.CheckClass c cfg = true) ∧ (∀ c ∈ cs, m &&& GetMask c = 0) ∧
        cs.Pairwise (fun x y => GetMask x &&& GetMask y = 0)) ∧
    (cs.foldl (checkClassStep K cfg) (b, m)).2 = orMasks m cs := by
  induction cs generalizing b m with
  | nil => simp [orMasks]
  | cons c cs ih =>
    simp only [List.foldl_cons, orMasks]
    have hstep : checkClassStep K cfg (b, m) c =
        (b && K.CheckClass c cfg && decide (m &&& GetMask c = 0), m ||| GetMask c) := by
      unfold checkClassStep
      cases b <;> cases K.CheckClass c cfg <;> by_cases h : m &&& GetMask c = 0 <;> simp [h]
    rw [hstep]
    obtain ⟨ih1, ih2⟩ := ih (b && K.CheckClass c cfg && decide (m &&& GetMask c = 0))
      (m ||| GetMask c)
    refine ⟨?_, by simpa [orMasks] using ih2⟩
    rw [ih1]
    simp only [Bool.and_eq_true, decide_eq_true_eq, List.mem_cons, forall_eq_or_imp,
      List.pairwise_cons, lor_land_eq_zero_iff]
    constructor
    · rintro ⟨⟨⟨hb, hc⟩, hm⟩, hall, hdis, hpw⟩
      exact ⟨hb, ⟨hc, hall⟩, ⟨hm, fun x hx => (hdis x hx).1⟩, fun x hx => (hdis x hx).2, hpw⟩
    · rintro ⟨hb, ⟨hc, hall⟩, ⟨hm, hdis⟩, hcd, hpw⟩
      exact ⟨⟨⟨hb, hc⟩, hm⟩, hall, fun x hx => ⟨hdis x hx, hcd x hx⟩, hpw⟩

/-- C7: the class loop of `CheckConfiguration` returns success if and only if
every class passes `CheckClass` and the decision masks of the classes are
pairwise disjoint; it has no early exit, the accumulated mask is the OR of
the masks of all classes; two classes sharing a mask bit make it fail. -/
theorem checkConfiguration_classes (K : Collaborators) (cfg : AliTriggerConfiguration) :
    ((CheckConfigurationClasses K cfg).1 = true ↔
      (∀ c ∈ cfg.fClasses, K.CheckClass c cfg = true) ∧
      (∀ (i j : Nat) (hi : i < cfg.fClasses.length) (hj : j < cfg.fClasses.length), i ≠ j →
        GetMask (cfg.fClasses.get ⟨i, hi⟩) &&& GetMask (cfg.fClasses.get ⟨j, hj⟩) = 0)) ∧
    (CheckConfigurationClasses K cfg).2 = orMasks 0 cfg.fClasses ∧
    (∀ (i j : Nat) (hi : i < cfg.fClasses.length) (hj : j < cfg.fClasses.length), i ≠ j →
        GetMask (cfg.fClasses.get ⟨i, hi⟩) &&& GetMask (cfg.fClasses.get ⟨j, hj⟩) ≠ 0 →
        (CheckConfigurationClasses K cfg).1 = false) := by
  have hpw : cfg.fClasses.Pairwise (fun x y => GetMask x &&& GetMask y = 0) ↔
      (∀ (i j : Nat) (hi : i < cfg.fClasses.length) (hj : j < cfg.fClasses.length), i ≠ j →
        GetMask (cfg.fClasses.get ⟨i, hi⟩) &&& GetMask (cfg.fClasses.get ⟨j, hj⟩) = 0) := by
    rw [List.pairwise_iff_getElem]
    constructor
    · intro h i j hi hj hij
      rcases Nat.lt_or_gt_of_ne hij with h1 | h1
      · exact h i j hi hj h1
      · have := h j i hj hi h1
        rw [Nat.land_comm]; exact this
    · intro h i j hi hj hij
      exact h i j hi hj (Nat.ne_of_lt hij)
  obtain ⟨h1, h2⟩ := checkClass_foldl K cfg cfg.fClasses true 0
  have main : (CheckConfigurationClasses K cfg).1 = true ↔
      (∀ c ∈ cfg.fClasses, K.CheckClass c cfg = true) ∧
      (∀ (i j : Nat) (hi : i < cfg.fClasses.length) (hj : j < cfg.fClasses.length), i ≠ j →
        GetMask (cfg.fClasses.get ⟨i, hi⟩) &&& GetMask (cfg.fClasses.get ⟨j, hj⟩) = 0) := by
    unfold CheckConfigurationClasses
    rw [h1, hpw]
    simp
  refine ⟨main, h2, ?_⟩
  intro i j hi hj hij hne
  cases hres : (CheckConfigurationClasses K cfg).1
  · rfl
  · exact absurd ((main.mp hres).2 i j hi hj hij) hne

/-! ## Strings, tokens and `IsSelected` -/

/-- `BeginsWith` is the prefix relation. -/
theorem beginsWith_iff (s pat : TString) : BeginsWith s pat = true ↔ pat <+: s := by
  simp [BeginsWith]

/-- `EndsWith` is the suffix relation. -/
theorem endsWith_iff (s pat : TString) : EndsWith s pat = true ↔ pat <:+ s := by
  simp [EndsWith]

/-- `Contains` is the substring relation. -/
theorem contains_iff (s pat : TString) : Contains s pat = true ↔ pat <:+: s := by
  induction s with
  | nil => simp [Contains]
  | cons c cs ih => simp [Contains, ih, List.infix_cons_iff]

/-- A split has at least one piece. -/
theorem splitAny_ne_nil (delim s : TString) : splitAny delim s ≠ [] := by
  cases s with
  | nil => simp [splitAny]
  | cons c cs =>
    unfold splitAny
    split
    · simp
    · split <;> simp

/-- A character that is no delimiter extends the first piece. -/
theorem splitAny_cons_of_not_mem (delim : TString) (c : Char) (cs : TString)
    (hc : c ∉ delim) :
    splitAny delim (c :: cs) =
      (c :: (splitAny delim cs).headD []) :: (splitAny delim cs).tail := by
  simp only [splitAny, hc, if_false]
  cases splitAny delim cs <;> rfl

/-- A string without delimiters is its own single piece. -/
theorem splitAny_of_free (delim w : TString) (hw : ∀ c ∈ w, c ∉ delim) :
    splitAny delim w = [w] := by
  induction w with
  | nil => rfl
  | cons c cs ih =>
    have hc : c ∉ delim := hw c (List.mem_cons_self _ _)
    have := ih (fun x hx => hw x (List.mem_cons_of_mem _ hx))
    simp [splitAny, hc, this]

/-- Splitting around a delimiter splits both sides. -/
theorem splitAny_append_delim (delim x y : TString) (d : Char) (hd : d ∈ delim) :
    splitAny delim (x ++ d :: y) = splitAny delim x ++ splitAny delim y := by
  induction x with
  | nil => simp [splitAny, hd]
  | cons c cs ih =>
    by_cases hc : c ∈ delim
    · simp [splitAny, hc, ih]
    · rw [List.cons_append, splitAny_cons_of_not_mem _ _ _ hc,
        splitAny_cons_of_not_mem _ _ _ hc, ih]
      cases hx : splitAny delim cs with
      | nil => exact absurd hx (splitAny_ne_nil _ _)
      | cons h t => simp

/-- The first piece of a split and what follows it. -/
theorem splitAny_head (delim s : TString) :
    ∃ h t, splitAny delim s = h :: t ∧ (∀ c ∈ h, c ∉ delim) ∧
      ((t = [] ∧ s = h) ∨ ∃ d b, d ∈ delim ∧ s = h ++ d :: b ∧ t = splitAny delim b) := by
  induction s with
  | nil => exact ⟨[], [], rfl, by simp, Or.inl ⟨rfl, rfl⟩⟩
  | cons c cs ih =>
    by_cases hc : c ∈ delim
    · exact ⟨[], splitAny delim cs, by simp [splitAny, hc], by simp,
        Or.inr ⟨c, cs, hc, rfl, rfl⟩⟩
    · obtain ⟨h, t, e, hfree, hrest⟩ := ih
      refine ⟨c :: h, t, by simp [splitAny, hc, e], ?_, ?_⟩
      · intro x hx
        rcases List.mem_cons.mp hx with rfl | hx
        · exact hc
        · exact hfree x hx
      · rcases hrest with ⟨rfl, rfl⟩ | ⟨d, b, hd, rfl, rfl⟩
        · exact Or.inl ⟨rfl, rfl⟩
        · exact Or.inr ⟨d, b, hd, rfl, rfl⟩

/-- Every piece of a split is free of delimiters and stands alone in the
string. -/
theorem standalone_of_mem_splitAny (delim : TString) (n : Nat) :
    ∀ (s w : TString), s.length ≤ n → w ∈ splitAny delim s →
      (∀ c ∈ w, c ∉ delim) ∧ Standalone delim w s := by
  induction n with
  | zero =>
    intro s w hs hw
    have : s = [] := List.length_eq_zero.mp (Nat.le_zero.mp hs)
    subst this
    simp only [splitAny, List.mem_singleton] at hw
    subst hw
    exact ⟨by simp, [], [], rfl, Or.inl rfl, Or.inl rfl⟩
  | succ n ih =>
    intro s w hs hw
    obtain ⟨h, t, e, hfree, hrest⟩ := splitAny_head delim s
    rw [e] at hw
    rcases hrest with ⟨rfl, rfl⟩ | ⟨d, b, hd, rfl, rfl⟩
    · simp only [List.mem_singleton] at hw
      subst hw
      exact ⟨hfree, [], [], by simp, Or.inl rfl, Or.inl rfl⟩
    · rcases List.mem_cons.mp hw with rfl | hw
      · exact ⟨hfree, [], d :: b, by simp, Or.inl rfl, Or.inr ⟨d, b, hd, rfl⟩⟩
      · have hlen : b.length ≤ n := by
          simp only [List.length_append, List.length_cons] at hs
          omega
        obtain ⟨hwfree, a, b2, rfl, ha, hb⟩ := ih b w hlen hw
        refine ⟨hwfree, h ++ d :: a, b2, by simp, Or.inr ?_, hb⟩
        rcases ha with rfl | ⟨a1, d1, hd1, rfl⟩
        · exact ⟨h, d, hd, by simp⟩
        · exact ⟨h ++ d :: a1, d1, hd1, by simp⟩

/-- The pieces of a split are the delimiter-free words standing alone. -/
theorem mem_splitAny_iff (delim w s : TString) :
    w ∈ splitAny delim s ↔ (∀ c ∈ w, c ∉ delim) ∧ Standalone delim w s := by
  constructor
  · exact standalone_of_mem_splitAny delim s.length s w (Nat.le_refl _)
  · rintro ⟨hfree, a, b, rfl, ha, hb⟩
    rcases ha with rfl | ⟨a1, d, hd, rfl⟩ <;> rcases hb with rfl | ⟨d2, b1, hd2, rfl⟩
    · simp [splitAny_of_free delim w hfree]
    · simp [splitAny_append_delim _ _ _ _ hd2, splitAny_of_free delim w hfree]
    · simp [splitAny_append_delim _ _ _ _ hd, splitAny_of_free delim w hfree]
    · have : a1 ++ [d] ++ w ++ d2 :: b1 = a1 ++ d :: (w ++ d2 :: b1) := by simp
      rw [this, splitAny_append_delim _ _ _ _ hd, splitAny_append_delim _ _ _ _ hd2,
        splitAny_of_free delim w hfree]
      simp

/-- The tokens are the non-empty delimiter-free words standing alone. -/
theorem mem_tokenize_iff (delim w s : TString) :
    w ∈ Tokenize s delim ↔ w ≠ [] ∧ (∀ c ∈ w, c ∉ delim) ∧ Standalone delim w s := by
  unfold Tokenize
  rw [List.mem_filter, mem_splitAny_iff]
  cases w <;> simp

/-- The four-way test of `IsSelected` finds exactly the words standing between
blanks. -/
theorem standaloneTest_iff (w s : TString) :
    standaloneTest w s = true ↔ Standalone [' '] w s := by
  simp only [standaloneTest, Bool.or_eq_true, beq_iff_eq, beginsWith_iff, endsWith_iff,
    contains_iff, Standalone, List.mem_singleton]
  constructor
  · rintro (((rfl | ⟨t, rfl⟩) | ⟨t, rfl⟩) | ⟨t, u, rfl⟩)
    · exact ⟨[], [], by simp, Or.inl rfl, Or.inl rfl⟩
    · exact ⟨[], ' ' :: t, by simp, Or.inl rfl, Or.inr ⟨' ', t, rfl, rfl⟩⟩
    · exact ⟨t ++ [' '], [], by simp, Or.inr ⟨t, ' ', rfl, rfl⟩, Or.inl rfl⟩
    · exact ⟨t ++ [' '], ' ' :: u, by simp, Or.inr ⟨t, ' ', rfl, rfl⟩, Or.inr ⟨' ', u, rfl, rfl⟩⟩
  · rintro ⟨a, b, rfl, ha, hb⟩
    rcases ha with rfl | ⟨a1, d, rfl, rfl⟩ <;> rcases hb with rfl | ⟨d2, b1, rfl, rfl⟩
    · left; left; left; simp
    · left; left; right; exact ⟨b1, by simp⟩
    · left; right; exact ⟨a1, by simp⟩
    · right; exact ⟨a1, b1, by simp⟩

/-- The flag `IsSelected` returns is the test for `ALL` or the test for the
name. -/
theorem isSelected_fst (detName detectors : TString) :
    (IsSelected detName detectors).1 =
      (standaloneTest "ALL".toList detectors || standaloneTest detName detectors) := by
  unfold IsSelected
  have e1 : (detectors == "ALL".toList || BeginsWith detectors "ALL ".toList ||
      EndsWith detectors " ALL".toList || Contains detectors " ALL ".toList)
      = standaloneTest "ALL".toList detectors := rfl
  have e2 : (detectors == detName || BeginsWith detectors (detName ++ [' ']) ||
        EndsWith detectors ([' '] ++ detName) ||
        Contains detectors ([' '] ++ detName ++ [' '])) = standaloneTest detName detectors := rfl
  rw [e1, e2]
  cases standaloneTest "ALL".toList detectors <;> cases standaloneTest detName detectors <;> rfl

/-- C9: for a non-empty name without blanks, `IsSelected` returns true if and
only if `ALL` or the name is one of the blank-separated tokens of the detector
list. -/
theorem isSelected_iff (detName detectors : TString) (hne : detName ≠ [])
    (hsp : ' ' ∉ detName) :
    (IsSelected detName detectors).1 = true ↔
      ("ALL".toList ∈ Tokenize detectors [' '] ∨ detName ∈ Tokenize detectors [' ']) := by
  rw [isSelected_fst, Bool.or_eq_true, standaloneTest_iff, standaloneTest_iff,
    mem_tokenize_iff, mem_tokenize_iff]
  have hall : ("ALL".toList ≠ []) ∧ ∀ c ∈ "ALL".toList, c ∉ [' '] := by decide
  have hname : ∀ c ∈ detName, c ∉ [' '] := by
    intro c hc h
    rw [List.mem_singleton] at h
    exact hsp (h ▸ hc)
  constructor
  · rintro (h | h)
    · exact Or.inl ⟨hall.1, hall.2, h⟩
    · exact Or.inr ⟨hne, hname, h⟩
  · rintro (⟨_, _, h⟩ | ⟨_, _, h⟩)
    · exact Or.inl h
    · exact Or.inr h

/-- C9 at `ZDC` in `VZERO ZDC MUON` (selected), and `ZDC` against `VZERO ZDCX
MUON` (a substring of a longer token is not selected). -/
theorem isSelected_iff_witness :
    ((IsSelected "ZDC".toList "VZERO ZDC MUON".toList).1 = true ↔
      ("ALL".toList ∈ Tokenize "VZERO ZDC MUON".toList [' '] ∨
        "ZDC".toList ∈ Tokenize "VZERO ZDC MUON".toList [' '])) ∧
    (IsSelected "ZDC".toList "VZERO ZDC MUON".toList).1 = true ∧
    (IsSelected "ZDC".toList "VZERO ZDCX MUON".toList).1 = false :=
  ⟨isSelected_iff "ZDC".toList "VZERO ZDC MUON".toList (by decide) (by decide), by decide,
    by decide⟩

/-- Collapsing double blanks never lengthens what is left to scan. -/
theorem replaceScan_collapse_length (k : Nat) (s : TString) :
    (replaceScan [' ', ' '] [' '] k s).length ≤ s.length - k := by
  induction s generalizing k with
  | nil => simp [replaceScan]
  | cons c cs ih =>
    cases k with
    | succ k =>
      simp only [replaceScan, List.length_cons]
      have := ih k
      omega
    | zero =>
      simp only [replaceScan]
      split
      · rename_i h
        have h1 := ih 1
        have hlen : 1 ≤ cs.length := by
          have := (List.isPrefixOf_iff_prefix.mp h).length_le
          simpa using this
        simp only [List.length_cons, List.length_append, List.length_singleton,
          List.length_nil, Nat.zero_add, Nat.add_sub_cancel] at h1 ⊢
        omega
      · have h0 := ih 0
        simp only [List.length_cons] at h0 ⊢
        omega

/-- Collapsing double blanks shortens a string that has one. -/
theorem replaceScan_collapse_length_lt (s : TString) (h : Contains s [' ', ' '] = true) :
    (replaceScan [' ', ' '] [' '] 0 s).length < s.length := by
  induction s with
  | nil => simp [Contains] at h
  | cons c cs ih =>
    simp only [replaceScan]
    split
    · rename_i hp
      have h1 := replaceScan_collapse_length 1 cs
      have hlen : 1 ≤ cs.length := by
        have := (List.isPrefixOf_iff_prefix.mp hp).length_le
        simpa using this
      simp only [List.length_cons, List.length_append, List.length_singleton,
        List.length_nil, Nat.zero_add, Nat.add_sub_cancel] at h1 ⊢
      omega
    · rename_i hp
      have hc : Contains cs [' ', ' '] = true := by
        simp only [Contains, Bool.or_eq_true] at h
        rcases h with h | h
        · exact absurd h hp
        · exact h
      have := ih hc
      simp only [List.length_cons]
      omega

/-- One round of the first clean-up loop shortens the string. -/
theorem replaceAll_collapse_length_lt (s : TString) (h : Contains s [' ', ' '] = true) :
    (ReplaceAll s [' ', ' '] [' ']).length < s.length := by
  have hR : ReplaceAll s [' ', ' '] [' '] = replaceScan [' ', ' '] [' '] 0 s := by
    simp [ReplaceAll]
  rw [hR]
  exact replaceScan_collapse_length_lt s h

/-- With fuel for its length the first clean-up loop ends on its own
condition. -/
theorem collapseSpaces_exit (fuel : Nat) (s : TString) (h : s.length ≤ fuel) :
    Contains (collapseSpaces fuel s) [' ', ' '] = false := by
  induction fuel generalizing s with
  | zero =>
    have : s = [] := List.length_eq_zero.mp (Nat.le_zero.mp h)
    subst this
    rfl
  | succ n ih =>
    unfold collapseSpaces
    split
    · rename_i hc
      exact ih _ (by have := replaceAll_collapse_length_lt s hc; omega)
    · rename_i hc
      simpa using hc

/-- With fuel for its length the second clean-up loop ends on its own
condition. -/
theorem stripLeading_exit (fuel : Nat) (s : TString) (h : s.length ≤ fuel) :
    BeginsWith (stripLeading fuel s) [' '] = false := by
  induction fuel generalizing s with
  | zero =>
    have : s = [] := List.length_eq_zero.mp (Nat.le_zero.mp h)
    subst this
    rfl
  | succ n ih =>
    unfold stripLeading
    split
    · rename_i hc
      apply ih
      cases s with
      | nil => simp [BeginsWith] at hc
      | cons c cs =>
        simp only [Remove, List.take_zero, List.nil_append, Nat.zero_add, List.drop_succ_cons,
          List.drop_zero, List.length_cons] at h ⊢
        omega
    · rename_i hc
      simpa using hc

/-- With fuel for its length the third clean-up loop ends on its own
condition. -/
theorem stripTrailing_exit (fuel : Nat) (s : TString) (h : s.length ≤ fuel) :
    EndsWith (stripTrailing fuel s) [' '] = false := by
  induction fuel generalizing s with
  | zero =>
    have : s = [] := List.length_eq_zero.mp (Nat.le_zero.mp h)
    subst this
    rfl
  | succ n ih =>
    unfold stripTrailing
    split
    · rename_i hc
      apply ih
      have hne : s ≠ [] := by
        rintro rfl
        simp [EndsWith] at hc
      have hpos : 0 < s.length := List.length_pos.mpr hne
      simp only [Remove, List.length_append, List.length_take, List.length_drop]
      omega
    · rename_i hc
      simpa using hc

/-- Each clean-up loop of `IsSelected` leaves its loop within the iterations the
length of the string allows: the loop conditions are false on the values the
model takes as the loop results. -/
theorem cleanUp_loops_exit (s : TString) :
    Contains (collapseSpaces s.length s) [' ', ' '] = false ∧
    BeginsWith (stripLeading (collapseSpaces s.length s).length (collapseSpaces s.length s))
      [' '] = false ∧
    EndsWith (cleanUp s) [' '] = false :=
  ⟨collapseSpaces_exit _ _ (Nat.le_refl _), stripLeading_exit _ _ (Nat.le_refl _),
    stripTrailing_exit _ _ (Nat.le_refl _)⟩

/-- C8 fails on the code: for the single cluster `MUON_TRG MUON` the source
returns ` MUON_TRG`; `MUON`, found by `Contains` inside `MUON_TRG`, is left
out although it is a detector of the cluster. -/
theorem getActiveDetectors_drops_substring_name :
    GetActiveDetectors muonCfg = " MUON_TRG".toList ∧
    Tokenize (GetActiveDetectors muonCfg) [' '] = ["MUON_TRG".toList] ∧
    firstOccurrences (clusterDetectors muonCfg) = ["MUON_TRG".toList, "MUON".toList] ∧
    Tokenize (GetActiveDetectors muonCfg) [' '] ≠ firstOccurrences (clusterDetectors muonCfg) := by
  decide

/-- C10 fails on the code: the example of the spec holds, but on `ZDCX ZDC`
the call for `ZDC` leaves `X`: `ReplaceAll` also removes the name inside the
other token. -/
theorem isSelected_removes_inside_other_token :
    IsSelected "ZDC".toList "VZERO ZDC MUON".toList = (true, "VZERO MUON".toList) ∧
    otherTokensJoined "ZDC".toList "VZERO ZDC MUON".toList = "VZERO MUON".toList ∧
    "ALL".toList ∉ Tokenize "ZDCX ZDC".toList [' '] ∧
    "ZDC".toList ∈ Tokenize "ZDCX ZDC".toList [' '] ∧
    IsSelected "ZDC".toList "ZDCX ZDC".toList = (true, "X".toList) ∧
    otherTokensJoined "ZDC".toList "ZDCX ZDC".toList = "ZDCX".toList ∧
    (IsSelected "ZDC".toList "ZDCX ZDC".toList).2 ≠
      otherTokensJoined "ZDC".toList "ZDCX ZDC".toList := by
  decide

/-! ## The text parser -/

/-- Replacing a one-character pattern maps over the characters. -/
theorem replaceScan_single (c r : Char) (s : TString) :
    replaceScan [c] [r] 0 s = s.map (fun x => if x = c then r else x) := by
  induction s with
  | nil => rfl
  | cons x xs ih =>
    by_cases h : x = c
    · subst h
      simp [replaceScan, ih]
    · have h2 : ¬ c = x := fun e => h e.symm
      simp [replaceScan, ih, h, h2]

/-- The wildcard substitution acts character by character. -/
theorem normalizeLine_eq_map (s : TString) : normalizeLine s = s.map normalizeChar := by
  unfold normalizeLine ReplaceAll
  simp only [List.isEmpty_cons, Bool.false_eq_true, if_false, replaceScan_single,
    List.map_map]
  apply List.map_congr_left
  intro x _
  simp only [Function.comp, normalizeChar]
  by_cases h1 : x = '*'
  · subst h1; decide
  · by_cases h2 : x = '~'
    · subst h2; decide
    · simp [h1, h2]

/-- Splitting commutes with a character map that keeps delimiters apart. -/
theorem splitAny_map (delim : TString) (f : Char → Char)
    (hf : ∀ c, f c ∈ delim ↔ c ∈ delim) (s : TString) :
    splitAny delim (s.map f) = (splitAny delim s).map (List.map f) := by
  induction s with
  | nil => rfl
  | cons c cs ih =>
    by_cases hc : c ∈ delim
    · have hfc : f c ∈ delim := (hf c).mpr hc
      simp [splitAny, hc, hfc, ih]
    · have hfc : f c ∉ delim := fun h => hc ((hf c).mp h)
      simp only [List.map_cons, splitAny, hc, hfc, if_false, ih]
      cases splitAny delim cs <;> simp

/-- Tokens commute with a character map that keeps delimiters apart. -/
theorem tokenize_map (delim : TString) (f : Char → Char)
    (hf : ∀ c, f c ∈ delim ↔ c ∈ delim) (s : TString) :
    Tokenize (s.map f) delim = (Tokenize s delim).map (List.map f) := by
  unfold Tokenize
  rw [splitAny_map delim f hf, List.filter_map]
  congr 1
  apply List.filter_congr
  intro w _
  cases w <;> simp

/-- The wildcard substitution neither makes nor removes a blank or a tab. -/
theorem normalizeChar_mem_blank (c : Char) :
    normalizeChar c ∈ " \t".toList ↔ c ∈ " \t".toList := by
  unfold normalizeChar
  split
  · rename_i h
    rcases h with rfl | rfl <;> decide
  · rfl

/-- The tokens of the substituted line are the substituted tokens of the line.
-/
theorem tokenize_normalizeLine (line : TString) :
    Tokenize (normalizeLine line) " \t".toList =
      (Tokenize line " \t".toList).map (List.map normalizeChar) := by
  rw [normalizeLine_eq_map, tokenize_map _ _ normalizeChar_mem_blank]

/-- A keyword without wildcard characters is matched after the substitution
exactly when it is matched before. -/
theorem map_normalizeChar_eq_iff (w t : TString)
    (hw : ∀ c ∈ w, c ≠ '!' ∧ c ≠ '*' ∧ c ≠ '~') :
    t.map normalizeChar = w ↔ t = w := by
  induction t generalizing w with
  | nil => cases w <;> simp
  | cons c cs ih =>
    cases w with
    | nil => simp
    | cons x xs =>
      have hx := hw x (List.mem_cons_self _ _)
      have ih2 := ih xs (fun y hy => hw y (List.mem_cons_of_mem _ hy))
      simp only [List.map_cons, List.cons.injEq, ih2]
      constructor
      · rintro ⟨h1, h2⟩
        refine ⟨?_, h2⟩
        unfold normalizeChar at h1
        split at h1
        · exact absurd h1.symm hx.1
        · exact h1
      · rintro ⟨rfl, h2⟩
        refine ⟨?_, h2⟩
        unfold normalizeChar
        simp [hx.2.1, hx.2.2]


/-- `At` inside the token array is the token. -/
theorem At_eq (ts : List TString) (i : Nat) (h : i < ts.length) :
    At ts i = some (ts.get ⟨i, h⟩) := by
  simp [At, List.getElem?_eq_getElem h]

/-- A result with the flag `kFALSE` is a failure. -/
theorem returnsFailure_false (cfg : AliTriggerConfiguration) (level : Int) :
    ReturnsFailure (some (false, cfg, level)) := rfl

/-- A result with the flag `kTRUE` is no failure. -/
theorem not_returnsFailure_true (cfg : AliTriggerConfiguration) (level : Int) :
    ¬ ReturnsFailure (some (true, cfg, level)) := by
  simp [ReturnsFailure]

/-- Inputs fail exactly on a token count other than five. -/
theorem processInputs_failure (cfg : AliTriggerConfiguration) (ts : List TString) (level : Int) :
    ReturnsFailure (processInputs cfg ts level) ↔ ts.length ≠ 5 := by
  unfold processInputs
  by_cases h : ts.length = 5
  · simp only [At_eq ts 0 (by omega), At_eq ts 1 (by omega), At_eq ts 2 (by omega),
      At_eq ts 3 (by omega), At_eq ts 4 (by omega), h, ne_eq, not_true_eq_false, if_false,
      Option.bind_eq_bind, Option.some_bind, iff_false]
    exact not_returnsFailure_true _ _
  · simp only [h, ne_eq, not_false_eq_true, if_true, iff_true]
    exact returnsFailure_false _ _

/-- Interactions fail exactly on a token count other than two. -/
theorem processInteractions_failure (K : Collaborators) (cfg : AliTriggerConfiguration)
    (ts : List TString) (level : Int) :
    ReturnsFailure (processInteractions K cfg ts level) ↔ ts.length ≠ 2 := by
  unfold processInteractions
  by_cases h : ts.length = 2
  · simp only [At_eq ts 0 (by omega), At_eq ts 1 (by omega), h, ne_eq, not_true_eq_false,
      if_false, Option.bind_eq_bind, Option.some_bind, iff_false]
    exact not_returnsFailure_true _ _
  · simp only [h, ne_eq, not_false_eq_true, if_true, iff_true]
    exact returnsFailure_false _ _

/-- Descriptors fail exactly on a single token other than `EMPTY` and
`DEMPTY`. -/
theorem processDescriptors_failure (K : Collaborators) (cfg : AliTriggerConfiguration)
    (strLine : TString) (ts : List TString) (level : Int) (hts : ts ≠ []) :
    ReturnsFailure (processDescriptors K cfg strLine ts level) ↔
      ts.length < 2 ∧ ts.head? ≠ some "EMPTY".toList ∧ ts.head? ≠ some "DEMPTY".toList := by
  obtain ⟨a, r, rfl⟩ := List.exists_cons_of_ne_nil hts
  have h0 : At (a :: r) 0 = some a := rfl
  simp only [processDescriptors, h0, Option.bind_eq_bind, Option.some_bind, List.head?_cons,
    ne_eq, Option.some.injEq]
  by_cases hlen : (a :: r).length < 2
  · by_cases hE : (a == "EMPTY".toList || a == "DEMPTY".toList) = true
    · rw [if_pos hlen, if_pos hE]
      have hE2 := hE
      simp only [Bool.or_eq_true, beq_iff_eq] at hE2
      constructor
      · intro h; exact absurd h (not_returnsFailure_true _ _)
      · rintro ⟨_, h1, h2⟩
        rcases hE2 with h | h
        · exact absurd h h1
        · exact absurd h h2
    · rw [if_pos hlen, if_neg hE]
      have hE2 := hE
      simp only [Bool.or_eq_true, beq_iff_eq, not_or] at hE2
      exact ⟨fun _ => ⟨hlen, hE2.1, hE2.2⟩, fun _ => returnsFailure_false _ _⟩
  · rw [if_neg hlen]
    constructor
    · intro h
      split_ifs at h <;> exact absurd h (not_returnsFailure_true _ _)
    · rintro ⟨h, _⟩; exact absurd h hlen

/-- Clusters fail exactly on fewer than two tokens. -/
theorem processClusters_failure (cfg : AliTriggerConfiguration) (ts : List TString)
    (level : Int) : ReturnsFailure (processClusters cfg ts level) ↔ ts.length < 2 := by
  unfold processClusters
  by_cases h : ts.length < 2
  · simp only [h, if_true, iff_true]
    exact returnsFailure_false _ _
  · simp only [At_eq ts 0 (by omega), At_eq ts 1 (by omega), h, if_false,
      Option.bind_eq_bind, Option.some_bind, iff_false]
    exact not_returnsFailure_true _ _

/-- Protections fail exactly when the first token is no sentinel and the count
is not ten. -/
theorem processPFs_failure (K : Collaborators) (cfg : AliTriggerConfiguration)
    (ts : List TString) (level : Int) (hts : ts ≠ []) :
    ReturnsFailure (processPFs K cfg ts level) ↔
      ts.head? ≠ some "NONE".toList ∧ ts.head? ≠ some "NOPF".toList ∧ ts.length ≠ 10 := by
  obtain ⟨a, r, rfl⟩ := List.exists_cons_of_ne_nil hts
  have h0 : At (a :: r) 0 = some a := rfl
  simp only [processPFs, h0, Option.bind_eq_bind, Option.some_bind, List.head?_cons,
    ne_eq, Option.some.injEq]
  by_cases hN : (a == "NONE".toList || a == "NOPF".toList) = true
  · rw [if_pos hN]
    have hN2 := hN
    simp only [Bool.or_eq_true, beq_iff_eq] at hN2
    constructor
    · intro h; exact absurd h (not_returnsFailure_true _ _)
    · rintro ⟨h1, h2, _⟩
      rcases hN2 with h | h
      · exact absurd h h1
      · exact absurd h h2
  · rw [if_neg hN]
    have hN2 := hN
    simp only [Bool.or_eq_true, beq_iff_eq, not_or] at hN2
    by_cases hlen : (a :: r).length = 10
    · simp only [At_eq (a :: r) 1 (by omega), At_eq (a :: r) 2 (by omega),
        At_eq (a :: r) 3 (by omega), At_eq (a :: r) 4 (by omega), At_eq (a :: r) 5 (by omega),
        At_eq (a :: r) 6 (by omega), At_eq (a :: r) 7 (by omega), At_eq (a :: r) 8 (by omega),
        At_eq (a :: r) 9 (by omega), hlen, not_true_eq_false, if_false, Option.some_bind,
        and_false, iff_false]
      exact not_returnsFailure_true _ _
    · rw [if_pos hlen]
      exact ⟨fun _ => ⟨hN2.1, hN2.2, hlen⟩, fun _ => returnsFailure_false _ _⟩

/-- Masks fail exactly on more than two tokens. -/
theorem processBCMasks_failure (cfg : AliTriggerConfiguration) (ts : List TString)
    (level : Int) (hts : ts ≠ []) :
    ReturnsFailure (processBCMasks cfg ts level) ↔ 2 < ts.length := by
  obtain ⟨a, r, rfl⟩ := List.exists_cons_of_ne_nil hts
  have h0 : At (a :: r) 0 = some a := rfl
  unfold processBCMasks
  by_cases hlen : (a :: r).length > 2
  · rw [if_pos hlen]
    exact ⟨fun _ => hlen, fun _ => returnsFailure_false _ _⟩
  · rw [if_neg hlen]
    simp only [h0, Option.bind_eq_bind, Option.some_bind]
    constructor
    · intro h
      exfalso
      split_ifs at h
      · exact not_returnsFailure_true _ _ h
      · cases hr : At (a :: r) 1 with
        | none => rw [hr] at h; simp [ReturnsFailure] at h
        | some t1 =>
          rw [hr] at h
          exact not_returnsFailure_true _ _ h
    · intro h; exact absurd h hlen

/-- Classes fail exactly on a token count other than eight. -/
theorem processClasses_failure (K : Collaborators) (cfg : AliTriggerConfiguration)
    (ts : List TString) (level : Int) :
    ReturnsFailure (processClasses K cfg ts level) ↔ ts.length ≠ 8 := by
  unfold processClasses
  by_cases h : ts.length = 8
  · simp only [At_eq ts 0 (by omega), At_eq ts 1 (by omega), At_eq ts 2 (by omega),
      At_eq ts 3 (by omega), At_eq ts 4 (by omega), At_eq ts 5 (by omega),
      At_eq ts 6 (by omega), At_eq ts 7 (by omega), h, ne_eq, not_true_eq_false, if_false,
      Option.bind_eq_bind, Option.some_bind, iff_false]
    exact not_returnsFailure_true _ _
  · simp only [h, ne_eq, not_false_eq_true, if_true, iff_true]
    exact returnsFailure_false _ _

/-- The switch fails exactly on a shape violation of the tokens it is given.
-/
theorem processTokens_failure (K : Collaborators) (cfg : AliTriggerConfiguration)
    (strLine : TString) (ts : List TString) (level : Int) (hts : ts ≠ []) :
    ReturnsFailure (processTokens K cfg strLine ts level) ↔ ShapeViolation level ts := by
  unfold processTokens ShapeViolation
  by_cases h1 : level = 1
  · subst h1; simp [processInputs_failure]
  by_cases h2 : level = 2
  · subst h2; simp [processInteractions_failure]
  by_cases h3 : level = 3
  · subst h3; simp [processDescriptors_failure _ _ _ _ _ hts]
  by_cases h4 : level = 4
  · subst h4; simp [processClusters_failure]
  by_cases h5 : level = 5
  · subst h5; simp [processPFs_failure _ _ _ _ hts]
  by_cases h6 : level = 6
  · subst h6; simp [processBCMasks_failure _ _ _ hts]
  by_cases h7 : level = 7
  · subst h7; simp [processClasses_failure]
  simp [h1, h2, h3, h4, h5, h6, h7, ReturnsFailure]

/-- A line that is no comment, `PARTITION:`, `VERSION:` or header line goes to
the tokens. -/
theorem processConfigurationLine_data (K : Collaborators) (cfg : AliTriggerConfiguration)
    (line : TString) (level : Int) (hline : isSpecialLine line = false) :
    ProcessConfigurationLine K cfg line level =
      if (Tokenize (normalizeLine line) " \t".toList).length = 0 then some (true, cfg, level)
      else processTokens K cfg (normalizeLine line) (Tokenize (normalizeLine line) " \t".toList)
        level := by
  simp only [isSpecialLine, Bool.or_eq_false_iff] at hline
  obtain ⟨⟨⟨⟨⟨⟨⟨⟨⟨h0, h1⟩, h2⟩, h3⟩, h4⟩, h5⟩, h6⟩, h7⟩, h8⟩, h9⟩ := hline
  simp only [ProcessConfigurationLine, h0, h1, h2, h3, h4, h5, h6, h7, h8, h9,
    Bool.false_eq_true, if_false]

/-- The wildcard substitution does not change whether the shape is violated.
-/
theorem shapeViolation_normalize (level : Int) (ts : List TString) :
    ShapeViolation level (ts.map (List.map normalizeChar)) ↔ ShapeViolation level ts := by
  have hE := fun t => map_normalizeChar_eq_iff "EMPTY".toList t (by decide)
  have hD := fun t => map_normalizeChar_eq_iff "DEMPTY".toList t (by decide)
  have hN := fun t => map_normalizeChar_eq_iff "NONE".toList t (by decide)
  have hP := fun t => map_normalizeChar_eq_iff "NOPF".toList t (by decide)
  unfold ShapeViolation
  cases ts with
  | nil => rfl
  | cons t ts =>
    simp only [List.map_cons, List.head?_cons, List.length_cons, List.length_map, ne_eq,
      Option.some.injEq, hE, hD, hN, hP]

/-- A comment, `PARTITION:`, `VERSION:` or header line returns success. -/
theorem processConfigurationLine_special (K : Collaborators) (cfg : AliTriggerConfiguration)
    (line : TString) (level : Int) (hline : isSpecialLine line = true) :
    ReturnsSuccess (ProcessConfigurationLine K cfg line level) := by
  simp only [isSpecialLine, Bool.or_eq_true] at hline
  unfold ProcessConfigurationLine
  dsimp only
  by_cases h0 : BeginsWith line "#".toList = true
  · rw [if_pos h0]; rfl
  rw [if_neg h0]
  by_cases h1 : BeginsWith line "PARTITION:".toList = true
  · rw [if_pos h1]; rfl
  rw [if_neg h1]
  by_cases h2 : BeginsWith line "VERSION:".toList = true
  · rw [if_pos h2]; rfl
  rw [if_neg h2]
  by_cases h3 : BeginsWith line "INPUTS:".toList = true
  · rw [if_pos h3]; rfl
  rw [if_neg h3]
  by_cases h4 : BeginsWith line "INTERACTIONS:".toList = true
  · rw [if_pos h4]; rfl
  rw [if_neg h4]
  by_cases h5 : BeginsWith line "DESCRIPTORS:".toList = true
  · rw [if_pos h5]; rfl
  rw [if_neg h5]
  by_cases h6 : BeginsWith line "CLUSTERS:".toList = true
  · rw [if_pos h6]; rfl
  rw [if_neg h6]
  by_cases h7 : BeginsWith line "PFS:".toList = true
  · rw [if_pos h7]; rfl
  rw [if_neg h7]
  by_cases h8 : BeginsWith line "BCMASKS:".toList = true
  · rw [if_pos h8]; rfl
  rw [if_neg h8]
  by_cases h9 : BeginsWith line "CLASSES:".toList = true
  · rw [if_pos h9]; rfl
  rw [if_neg h9]
  exfalso
  tauto

/-- C4: on a line that is no comment, `PARTITION:`, `VERSION:` or header line
and has at least one token, `ProcessConfigurationLine` returns failure if and
only if the tokens violate the shape of the active section (inputs: not 5;
interactions: not 2; descriptors: fewer than 2 and the first neither `EMPTY`
nor `DEMPTY`; clusters: fewer than 2; protections: first neither `NONE` nor
`NOPF` and not 10; masks: more than 2; classes: not 8); in state 0 no line at
all makes it return failure. -/
theorem processConfigurationLine_failure_iff (K : Collaborators)
    (cfg : AliTriggerConfiguration) (line : TString) (level : Int)
    (hline : isSpecialLine line = false) (htok : Tokenize line " \t".toList ≠ []) :
    (ReturnsFailure (ProcessConfigurationLine K cfg line level) ↔
      ShapeViolation level (Tokenize line " \t".toList)) ∧
    (∀ anyLine, ¬ ReturnsFailure (ProcessConfigurationLine K cfg anyLine 0)) := by
  constructor
  · rw [processConfigurationLine_data K cfg line level hline, tokenize_normalizeLine]
    have hne : (Tokenize line " \t".toList).map (List.map normalizeChar) ≠ [] := by
      simpa using htok
    have hlen : ¬ ((Tokenize line " \t".toList).map (List.map normalizeChar)).length = 0 := by
      simpa using htok
    rw [if_neg hlen, processTokens_failure K cfg _ _ level hne, shapeViolation_normalize]
  · intro l
    by_cases hl : isSpecialLine l = false
    · rw [processConfigurationLine_data K cfg l 0 hl]
      split
      · exact not_returnsFailure_true _ _
      · rename_i hlen
        have hne : Tokenize (normalizeLine l) " \t".toList ≠ [] :=
          fun h => hlen (by rw [h]; rfl)
        rw [processTokens_failure K cfg _ _ 0 hne]
        rintro (⟨h, _⟩ | ⟨h, _⟩ | ⟨h, _⟩ | ⟨h, _⟩ | ⟨h, _⟩ | ⟨h, _⟩ | ⟨h, _⟩) <;>
          exact absurd h (by decide)
    · have hl2 : isSpecialLine l = true := by simpa using hl
      have := processConfigurationLine_special K cfg l 0 hl2
      unfold ReturnsSuccess at this
      unfold ReturnsFailure
      rw [this]
      decide

/-- C4 at the two-token line `V0A V0` in the inputs section: a shape
violation, and the call returns failure. -/
theorem processConfigurationLine_failure_iff_witness :
    isSpecialLine "V0A V0".toList = false ∧ Tokenize "V0A V0".toList " \t".toList ≠ [] ∧
    ReturnsFailure
      (ProcessConfigurationLine specCollaborators AliTriggerConfiguration.empty "V0A V0".toList 1) ∧
    ShapeViolation 1 (Tokenize "V0A V0".toList " \t".toList) :=
  have h := processConfigurationLine_failure_iff specCollaborators
    AliTriggerConfiguration.empty "V0A V0".toList 1 (by decide) (by decide)
  ⟨by decide, by decide, h.1.mpr (by decide), by decide⟩

/-- A failing line is the first line or a failing line of the rest, from the
state the first line leaves. -/
theorem someLineFails_cons (K : Collaborators) (l : TString) (ls : List TString)
    (st : AliTriggerConfiguration × Int) :
    SomeLineFails K (l :: ls) st ↔
      ReturnsFailure (ProcessConfigurationLine K st.1 l st.2) ∨
      ∃ b cfg level, ProcessConfigurationLine K st.1 l st.2 = some (b, cfg, level) ∧
        SomeLineFails K ls (cfg, level) := by
  constructor
  · rintro ⟨k, hk, stk, hfold, hfail⟩
    cases k with
    | zero =>
      simp only [List.take_zero, foldLines, Option.some.injEq] at hfold
      subst hfold
      exact Or.inl hfail
    | succ k =>
      right
      simp only [List.take_succ_cons, foldLines] at hfold
      cases hp : ProcessConfigurationLine K st.1 l st.2 with
      | none => rw [hp] at hfold; exact absurd hfold (by simp)
      | some r =>
        obtain ⟨b, cfg, level⟩ := r
        rw [hp] at hfold
        exact ⟨b, cfg, level, rfl, k, Nat.lt_of_succ_lt_succ hk, stk, hfold, hfail⟩
  · rintro (h | ⟨b, cfg, level, hp, k, hk, stk, hfold, hfail⟩)
    · exact ⟨0, Nat.succ_pos _, st, rfl, h⟩
    · refine ⟨k + 1, Nat.succ_lt_succ hk, stk, ?_, hfail⟩
      simp only [List.take_succ_cons, foldLines, hp]
      exact hfold

/-- The loop of `LoadConfigurationFromString` from any state: null exactly
when some line fails, the folded configuration otherwise. -/
theorem loadLines_spec (K : Collaborators) (lines : List TString)
    (st : AliTriggerConfiguration × Int) :
    (loadLines K lines st.1 st.2 = some none ↔ SomeLineFails K lines st) ∧
    (¬ SomeLineFails K lines st →
      loadLines K lines st.1 st.2 = (foldLines K lines st).map (fun s => some s.1)) := by
  induction lines generalizing st with
  | nil =>
    refine ⟨⟨fun h => by simp [loadLines] at h, ?_⟩, fun _ => rfl⟩
    rintro ⟨k, hk, _⟩
    exact absurd hk (Nat.not_lt_zero _)
  | cons l ls ih =>
    rw [someLineFails_cons]
    cases hp : ProcessConfigurationLine K st.1 l st.2 with
    | none =>
      simp [loadLines, foldLines, hp, ReturnsFailure]
    | some r =>
      obtain ⟨b, cfg, level⟩ := r
      obtain ⟨ih1, ih2⟩ := ih (cfg, level)
      cases b with
      | false =>
        simp [loadLines, hp, ReturnsFailure]
      | true =>
        have hload : loadLines K (l :: ls) st.1 st.2 = loadLines K ls cfg level := by
          simp [loadLines, hp]
        have hfold : foldLines K (l :: ls) st = foldLines K ls (cfg, level) := by
          simp [foldLines, hp]
        have hnf : ¬ ReturnsFailure (some (true, cfg, level)) := not_returnsFailure_true _ _
        have hex : (∃ b c lv, some (true, cfg, level) = some (b, c, lv) ∧
            SomeLineFails K ls (c, lv)) ↔ SomeLineFails K ls (cfg, level) := by
          constructor
          · rintro ⟨b, c, lv, he, h⟩
            cases he
            exact h
          · intro h
            exact ⟨_, _, _, rfl, h⟩
        rw [hload, hfold, hex]
        constructor
        · rw [ih1]
          exact ⟨fun h => Or.inr h, fun h => h.resolve_left hnf⟩
        · intro hno
          exact ih2 (fun h => hno (Or.inr h))

/-- C6: `LoadConfigurationFromString` on a text returns null if and only if
some line, processed in order from the empty configuration in state 0, makes
`ProcessConfigurationLine` return failure; when no line does, its result is
the fold of `ProcessConfigurationLine` over all lines (with no result where a
line has none); the lines after a failing line do not matter; a null text
gives null. -/
theorem loadConfigurationFromString_spec (K : Collaborators) (text : TString) :
    (LoadConfigurationFromString K (some text) = some none ↔
      SomeLineFails K (Tokenize text ['\n']) (AliTriggerConfiguration.empty, 0)) ∧
    (¬ SomeLineFails K (Tokenize text ['\n']) (AliTriggerConfiguration.empty, 0) →
      LoadConfigurationFromString K (some text) =
        (foldLines K (Tokenize text ['\n']) (AliTriggerConfiguration.empty, 0)).map
          (fun s => some s.1)) ∧
    (∀ (k : Nat) (hk : k < (Tokenize text ['\n']).length) (stk : AliTriggerConfiguration × Int)
        (later : List TString),
      foldLines K ((Tokenize text ['\n']).take k) (AliTriggerConfiguration.empty, 0) = some stk →
      ReturnsFailure
        (ProcessConfigurationLine K stk.1 ((Tokenize text ['\n']).get ⟨k, hk⟩) stk.2) →
      loadLines K ((Tokenize text ['\n']).take k ++ (Tokenize text ['\n']).get ⟨k, hk⟩ :: later)
        AliTriggerConfiguration.empty 0 = some none) ∧
    LoadConfigurationFromString K none = some none := by
  obtain ⟨h1, h2⟩ := loadLines_spec K (Tokenize text ['\n']) (AliTriggerConfiguration.empty, 0)
  refine ⟨h1, h2, ?_, rfl⟩
  intro k hk stk later hfold hfail
  have := (loadLines_spec K ((Tokenize text ['\n']).take k ++
    (Tokenize text ['\n']).get ⟨k, hk⟩ :: later) (AliTriggerConfiguration.empty, 0)).1
  apply this.mpr
  have hlen : ((Tokenize text ['\n']).take k).length = k := by
    rw [List.length_take]; omega
  refine ⟨k, by simp only [List.length_append, List.length_cons, hlen]; omega, stk, ?_, ?_⟩
  · rw [List.take_left' hlen]
    exact hfold
  · have hget : (List.take k (Tokenize text ['\n']) ++
        (Tokenize text ['\n']).get ⟨k, hk⟩ :: later).get
        ⟨k, by simp only [List.length_append, List.length_cons, hlen]; omega⟩ =
        (Tokenize text ['\n']).get ⟨k, hk⟩ := by
      simp [List.getElem_append_right, hlen]
    rw [hget]
    exact hfail

set_option maxRecDepth 100000 in
/-- C5 as stated fails: the `CLASSES:` line of `undeclaredDescriptorText` has
8 tokens and names a descriptor no line declared, and
`LoadConfigurationFromString` returns a configuration, without the class. -/
theorem load_returns_cfg_without_unresolved_class :
    LoadConfigurationFromString specCollaborators (some undeclaredDescriptorText) =
      some (some { AliTriggerConfiguration.empty with
        fClusters := [⟨"CL".toList, 1, "TPC ".toList⟩]
        fPFProtections := [newPFProtectionSentinel "NONE".toList]
        fMasks := [newBCMaskSentinel "NONE".toList] }) := by
  decide

/-- A class `CheckClass` rejects leaves the configuration as it was. -/
theorem addClass_rejected (K : Collaborators) (cfg : AliTriggerConfiguration)
    (c : AliTriggerClass) (h : K.CheckClass c cfg = false) : (AddClass K cfg c).2 = cfg := by
  unfold AddClass
  split_ifs <;> simp_all

/-- C5 (amended): in the classes section a line of 8 tokens whose descriptor
is not in the configuration returns success and leaves configuration and state
unchanged, when `CheckClass` rejects classes with an unresolved descriptor;
the loop of `LoadConfigurationFromString` goes on with the next line. -/
theorem classes_line_unresolved_descriptor (K : Collaborators)
    (cfg : AliTriggerConfiguration) (line : TString) (rest : List TString)
    (hline : isSpecialLine line = false) (h8 : (Tokenize line " \t".toList).length = 8)
    (hdesc : ∀ d, At (Tokenize line " \t".toList) 2 = some d →
      FindObject cfg.fDescriptors (d.map normalizeChar) = none)
    (hK : ∀ c, FindObject cfg.fDescriptors c.fDescriptor = none → K.CheckClass c cfg = false) :
    ProcessConfigurationLine K cfg line 7 = some (true, cfg, 7) ∧
    loadLines K (line :: rest) cfg 7 = loadLines K rest cfg 7 := by
  have hp : ProcessConfigurationLine K cfg line 7 = some (true, cfg, 7) := by
    rw [processConfigurationLine_data K cfg line 7 hline, tokenize_normalizeLine]
    have hlen : ((Tokenize line " \t".toList).map (List.map normalizeChar)).length = 8 := by
      simpa using h8
    have hne : ¬ ((Tokenize line " \t".toList).map (List.map normalizeChar)).length = 0 := by
      omega
    rw [if_neg hne]
    have hlv : processTokens K cfg (normalizeLine line)
        ((Tokenize line " \t".toList).map (List.map normalizeChar)) 7 =
        processClasses K cfg ((Tokenize line " \t".toList).map (List.map normalizeChar)) 7 := by
      simp [processTokens]
    rw [hlv]
    generalize hts : (Tokenize line " \t".toList).map (List.map normalizeChar) = ts at hlen
    have h2 : FindObject cfg.fDescriptors (ts.get ⟨2, by omega⟩) = none := by
      subst hts
      have := hdesc ((Tokenize line " \t".toList).get ⟨2, by omega⟩) (At_eq _ 2 (by omega))
      simpa using this
    unfold processClasses
    simp only [At_eq ts 0 (by omega), At_eq ts 1 (by omega), At_eq ts 2 (by omega),
      At_eq ts 3 (by omega), At_eq ts 4 (by omega), At_eq ts 5 (by omega),
      At_eq ts 6 (by omega), At_eq ts 7 (by omega), hlen, ne_eq, not_true_eq_false, if_false,
      Option.bind_eq_bind, Option.some_bind]
    have hrej := hK (newTriggerClass K (ts.get ⟨0, by omega⟩)
      (toUChar_t (Atoi (ts.get ⟨1, by omega⟩))) (ts.get ⟨2, by omega⟩) (ts.get ⟨3, by omega⟩)
      (ts.get ⟨4, by omega⟩) (ts.get ⟨5, by omega⟩) (toUInt_t (Atoi (ts.get ⟨6, by omega⟩)))
      (toBool_t (Atoi (ts.get ⟨7, by omega⟩)))) h2
    rw [addClass_rejected K cfg _ hrej]
  exact ⟨hp, by simp [loadLines, hp]⟩

/-- C5 (amended) at the line `C1 1 DX CL NONE NONE 0 0` on the empty
configuration, with the checks of the spec. -/
theorem classes_line_unresolved_descriptor_witness :
    ProcessConfigurationLine specCollaborators AliTriggerConfiguration.empty
        "C1 1 DX CL NONE NONE 0 0".toList 7 = some (true, AliTriggerConfiguration.empty, 7) ∧
    loadLines specCollaborators ["C1 1 DX CL NONE NONE 0 0".toList, "C2".toList]
        AliTriggerConfiguration.empty 7 =
      loadLines specCollaborators ["C2".toList] AliTriggerConfiguration.empty 7 :=
  classes_line_unresolved_descriptor specCollaborators AliTriggerConfiguration.empty
    "C1 1 DX CL NONE NONE 0 0".toList ["C2".toList] (by decide) (by decide)
    (fun _ _ => rfl)
    (fun c h => by simp [specCollaborators, specCheckClass, h])

/-! ## Frames: appending, comments, section headers -/

/-- Appending one element puts it last and moves nothing. -/
theorem appendsLast_append {α : Type} (old : List α) (x : α) : AppendsLast old (old ++ [x]) x := by
  refine ⟨by simp, ?_, by simp⟩
  intro i hi
  simp [List.getElem?_append_left hi]

/-- C11: a pointer-taking `Add` that returns success gives back the
configuration with the object appended to the collection of its kind and
nothing else changed: the collection has one element more, its old elements
keep their positions, the object is last, and the other collections, the name
and the version are as before. -/
theorem add_appends_last (K : Collaborators) (cfg : AliTriggerConfiguration) :
    (∀ x, (AddInput cfg x).1 = true →
      (AddInput cfg x).2 = { cfg with fInputs := cfg.fInputs ++ [x] } ∧
      AppendsLast cfg.fInputs (AddInput cfg x).2.fInputs x) ∧
    (∀ x, (AddInteraction K cfg x).1 = true →
      (AddInteraction K cfg x).2 = { cfg with fInteractions := cfg.fInteractions ++ [x] } ∧
      AppendsLast cfg.fInteractions (AddInteraction K cfg x).2.fInteractions x) ∧
    (∀ x, (AddFunction K cfg x).1 = true →
      (AddFunction K cfg x).2 = { cfg with fFunctions := cfg.fFunctions ++ [x] } ∧
      AppendsLast cfg.fFunctions (AddFunction K cfg x).2.fFunctions x) ∧
    (∀ x, (AddDescriptor K cfg x).1 = true →
      (AddDescriptor K cfg x).2 = { cfg with fDescriptors := cfg.fDescriptors ++ [x] } ∧
      AppendsLast cfg.fDescriptors (AddDescriptor K cfg x).2.fDescriptors x) ∧
    (∀ x, (AddCluster cfg x).1 = true →
      (AddCluster cfg x).2 = { cfg with fClusters := cfg.fClusters ++ [x] } ∧
      AppendsLast cfg.fClusters (AddCluster cfg x).2.fClusters x) ∧
    (∀ x, (AddPFProtection K cfg x).1 = true →
      (AddPFProtection K cfg x).2 = { cfg with fPFProtections := cfg.fPFProtections ++ [x] } ∧
      AppendsLast cfg.fPFProtections (AddPFProtection K cfg x).2.fPFProtections x) ∧
    (∀ x, (AddMask cfg x).1 = true →
      (AddMask cfg x).2 = { cfg with fMasks := cfg.fMasks ++ [x] } ∧
      AppendsLast cfg.fMasks (AddMask cfg x).2.fMasks x) ∧
    (∀ x, (AddClass K cfg x).1 = true →
      (AddClass K cfg x).2 = { cfg with fClasses := cfg.fClasses ++ [x] } ∧
      AppendsLast cfg.fClasses (AddClass K cfg x).2.fClasses x) := by
  refine ⟨?_, ?_, ?_, ?_, ?_, ?_, ?_, ?_⟩ <;> intro x h
  · have e : (AddInput cfg x).2 = { cfg with fInputs := cfg.fInputs ++ [x] } := by
      revert h; unfold AddInput; split <;> simp
    exact ⟨e, by rw [e]; exact appendsLast_append _ _⟩
  · have e : (AddInteraction K cfg x).2 =
        { cfg with fInteractions := cfg.fInteractions ++ [x] } := by
      revert h; unfold AddInteraction; (split <;> try split) <;> simp
    exact ⟨e, by rw [e]; exact appendsLast_append _ _⟩
  · have e : (AddFunction K cfg x).2 = { cfg with fFunctions := cfg.fFunctions ++ [x] } := by
      revert h; unfold AddFunction; (split <;> try split) <;> simp
    exact ⟨e, by rw [e]; exact appendsLast_append _ _⟩
  · have e : (AddDescriptor K cfg x).2 =
        { cfg with fDescriptors := cfg.fDescriptors ++ [x] } := by
      revert h; unfold AddDescriptor; (split <;> try split) <;> simp
    exact ⟨e, by rw [e]; exact appendsLast_append _ _⟩
  · have e : (AddCluster cfg x).2 = { cfg with fClusters := cfg.fClusters ++ [x] } := by
      revert h; unfold AddCluster
      cases hd : x.fDetectors <;> split <;> simp
    exact ⟨e, by rw [e]; exact appendsLast_append _ _⟩
  · have e : (AddPFProtection K cfg x).2 =
        { cfg with fPFProtections := cfg.fPFProtections ++ [x] } := by
      revert h; unfold AddPFProtection; (split <;> try split) <;> simp
    exact ⟨e, by rw [e]; exact appendsLast_append _ _⟩
  · have e : (AddMask cfg x).2 = { cfg with fMasks := cfg.fMasks ++ [x] } := by
      revert h; unfold AddMask; split <;> simp
    exact ⟨e, by rw [e]; exact appendsLast_append _ _⟩
  · have e : (AddClass K cfg x).2 = { cfg with fClasses := cfg.fClasses ++ [x] } := by
      revert h; unfold AddClass; (split <;> try split) <;> simp
    exact ⟨e, by rw [e]; exact appendsLast_append _ _⟩

/-- C20: a line whose first character is `#` returns success and leaves the
configuration and the state as they were, whatever follows the `#` and
whatever the state. -/
theorem comment_line_ignored (K : Collaborators) (cfg : AliTriggerConfiguration)
    (rest : TString) (level : Int) :
    ProcessConfigurationLine K cfg ('#' :: rest) level = some (true, cfg, level) := by
  unfold ProcessConfigurationLine
  dsimp only
  have h : BeginsWith ('#' :: rest) "#".toList = true := by simp [BeginsWith]
  rw [if_pos h]

/-- A line that begins with a section header returns success, leaves the
configuration alone and sets the level of that section. -/
theorem processConfigurationLine_header (K : Collaborators) (cfg : AliTriggerConfiguration)
    (level : Int) (rest : TString) :
    ProcessConfigurationLine K cfg ("INPUTS:".toList ++ rest) level = some (true, cfg, 1) ∧
    ProcessConfigurationLine K cfg ("INTERACTIONS:".toList ++ rest) level = some (true, cfg, 2) ∧
    ProcessConfigurationLine K cfg ("DESCRIPTORS:".toList ++ rest) level = some (true, cfg, 3) ∧
    ProcessConfigurationLine K cfg ("CLUSTERS:".toList ++ rest) level = some (true, cfg, 4) ∧
    ProcessConfigurationLine K cfg ("PFS:".toList ++ rest) level = some (true, cfg, 5) ∧
    ProcessConfigurationLine K cfg ("BCMASKS:".toList ++ rest) level = some (true, cfg, 6) ∧
    ProcessConfigurationLine K cfg ("CLASSES:".toList ++ rest) level = some (true, cfg, 7) := by
  refine ⟨?_, ?_, ?_, ?_, ?_, ?_, ?_⟩ <;> unfold ProcessConfigurationLine <;> dsimp only
  · rw [if_neg (show ¬ BeginsWith ("INPUTS:".toList ++ rest) "#".toList = true by
      simp [BeginsWith])]
    rw [if_neg (show ¬ BeginsWith ("INPUTS:".toList ++ rest) "PARTITION:".toList = true by
      simp [BeginsWith])]
    rw [if_neg (show ¬ BeginsWith ("INPUTS:".toList ++ rest) "VERSION:".toList = true by
      simp [BeginsWith])]
    rw [if_pos (show BeginsWith ("INPUTS:".toList ++ rest) "INPUTS:".toList = true by simp [BeginsWith])]
  · rw [if_neg (show ¬ BeginsWith ("INTERACTIONS:".toList ++ rest) "#".toList = true by
      simp [BeginsWith])]
    rw [if_neg (show ¬ BeginsWith ("INTERACTIONS:".toList ++ rest) "PARTITION:".toList = true by
      simp [BeginsWith])]
    rw [if_neg (show ¬ BeginsWith ("INTERACTIONS:".toList ++ rest) "VERSION:".toList = true by
      simp [BeginsWith])]
    rw [if_neg (show ¬ BeginsWith ("INTERACTIONS:".toList ++ rest) "INPUTS:".toList = true by
      simp [BeginsWith])]
    rw [if_pos (show BeginsWith ("INTERACTIONS:".toList ++ rest) "INTERACTIONS:".toList = true by simp [BeginsWith])]
  · rw [if_neg (show ¬ BeginsWith ("DESCRIPTORS:".toList ++ rest) "#".toList = true by
      simp [BeginsWith])]
    rw [if_neg (show ¬ BeginsWith ("DESCRIPTORS:".toList ++ rest) "PARTITION:".toList = true by
      simp [BeginsWith])]
    rw [if_neg (show ¬ BeginsWith ("DESCRIPTORS:".toList ++ rest) "VERSION:".toList = true by
      simp [BeginsWith])]
    rw [if_neg (show ¬ BeginsWith ("DESCRIPTORS:".toList ++ rest) "INPUTS:".toList = true by
      simp [BeginsWith])]
    rw [if_neg (show ¬ BeginsWith ("DESCRIPTORS:".toList ++ rest) "INTERACTIONS:".toList = true by
      simp [BeginsWith])]
    rw [if_pos (show BeginsWith ("DESCRIPTORS:".toList ++ rest) "DESCRIPTORS:".toList = true by simp [BeginsWith])]
  · rw [if_neg (show ¬ BeginsWith ("CLUSTERS:".toList ++ rest) "#".toList = true by
      simp [BeginsWith])]
    rw [if_neg (show ¬ BeginsWith ("CLUSTERS:".toList ++ rest) "PARTITION:".toList = true by
      simp [BeginsWith])]
    rw [if_neg (show ¬ BeginsWith ("CLUSTERS:".toList ++ rest) "VERSION:".toList = true by
      simp [BeginsWith])]
    rw [if_neg (show ¬ BeginsWith ("CLUSTERS:".toList ++ rest) "INPUTS:".toList = true by
      simp [BeginsWith])]
    rw [if_neg (show ¬ BeginsWith ("CLUSTERS:".toList ++ rest) "INTERACTIONS:".toList = true by
      simp [BeginsWith])]
    rw [if_neg (show ¬ BeginsWith ("CLUSTERS:".toList ++ rest) "DESCRIPTORS:".toList = true by
      simp [BeginsWith])]
    rw [if_pos (show BeginsWith ("CLUSTERS:".toList ++ rest) "CLUSTERS:".toList = true by simp [BeginsWith])]
  · rw [if_neg (show ¬ BeginsWith ("PFS:".toList ++ rest) "#".toList = true by
      simp [BeginsWith])]
    rw [if_neg (show ¬ BeginsWith ("PFS:".toList ++ rest) "PARTITION:".toList = true by
      simp [BeginsWith])]
    rw [if_neg (show ¬ BeginsWith ("PFS:".toList ++ rest) "VERSION:".toList = true by
      simp [BeginsWith])]
    rw [if_neg (show ¬ BeginsWith ("PFS:".toList ++ rest) "INPUTS:".toList = true by
      simp [BeginsWith])]
    rw [if_neg (show ¬ BeginsWith ("PFS:".toList ++ rest) "INTERACTIONS:".toList = true by
      simp [BeginsWith])]
    rw [if_neg (show ¬ BeginsWith ("PFS:".toList ++ rest) "DESCRIPTORS:".toList = true by
      simp [BeginsWith])]
    rw [if_neg (show ¬ BeginsWith ("PFS:".toList ++ rest) "CLUSTERS:".toList = true by
      simp [BeginsWith])]
    rw [if_pos (show BeginsWith ("PFS:".toList ++ rest) "PFS:".toList = true by simp [BeginsWith])]
  · rw [if_neg (show ¬ BeginsWith ("BCMASKS:".toList ++ rest) "#".toList = true by
      simp [BeginsWith])]
    rw [if_neg (show ¬ BeginsWith ("BCMASKS:".toList ++ rest) "PARTITION:".toList = true by
      simp [BeginsWith])]
    rw [if_neg (show ¬ BeginsWith ("BCMASKS:".toList ++ rest) "VERSION:".toList = true by
      simp [BeginsWith])]
    rw [if_neg (show ¬ BeginsWith ("BCMASKS:".toList ++ rest) "INPUTS:".toList = true by
      simp [BeginsWith])]
    rw [if_neg (show ¬ BeginsWith ("BCMASKS:".toList ++ rest) "INTERACTIONS:".toList = true by
      simp [BeginsWith])]
    rw [if_neg (show ¬ BeginsWith ("BCMASKS:".toList ++ rest) "DESCRIPTORS:".toList = true by
      simp [BeginsWith])]
    rw [if_neg (show ¬ BeginsWith ("BCMASKS:".toList ++ rest) "CLUSTERS:".toList = true by
      simp [BeginsWith])]
    rw [if_neg (show ¬ BeginsWith ("BCMASKS:".toList ++ rest) "PFS:".toList = true by
      simp [BeginsWith])]
    rw [if_pos (show BeginsWith ("BCMASKS:".toList ++ rest) "BCMASKS:".toList = true by simp [BeginsWith])]
  · rw [if_neg (show ¬ BeginsWith ("CLASSES:".toList ++ rest) "#".toList = true by
      simp [BeginsWith])]
    rw [if_neg (show ¬ BeginsWith ("CLASSES:".toList ++ rest) "PARTITION:".toList = true by
      simp [BeginsWith])]
    rw [if_neg (show ¬ BeginsWith ("CLASSES:".toList ++ rest) "VERSION:".toList = true by
      simp [BeginsWith])]
    rw [if_neg (show ¬ BeginsWith ("CLASSES:".toList ++ rest) "INPUTS:".toList = true by
      simp [BeginsWith])]
    rw [if_neg (show ¬ BeginsWith ("CLASSES:".toList ++ rest) "INTERACTIONS:".toList = true by
      simp [BeginsWith])]
    rw [if_neg (show ¬ BeginsWith ("CLASSES:".toList ++ rest) "DESCRIPTORS:".toList = true by
      simp [BeginsWith])]
    rw [if_neg (show ¬ BeginsWith ("CLASSES:".toList ++ rest) "CLUSTERS:".toList = true by
      simp [BeginsWith])]
    rw [if_neg (show ¬ BeginsWith ("CLASSES:".toList ++ rest) "PFS:".toList = true by
      simp [BeginsWith])]
    rw [if_neg (show ¬ BeginsWith ("CLASSES:".toList ++ rest) "BCMASKS:".toList = true by
      simp [BeginsWith])]
    rw [if_pos (show BeginsWith ("CLASSES:".toList ++ rest) "CLASSES:".toList = true by simp [BeginsWith])]

/-- A returned result carries its own level. -/
theorem keepsLevel_some (b : Bool) (cfg : AliTriggerConfiguration) (level : Int) :
    KeepsLevel (some (b, cfg, level)) level := by
  intro b1 c1 l1 h
  cases h
  rfl

/-- A token lookup in front of a step that keeps the level keeps the level. -/
theorem keepsLevel_bind {α : Type} (x : Option α) (f : α → LineResult) (level : Int)
    (h : ∀ a, KeepsLevel (f a) level) : KeepsLevel (x >>= f) level := by
  cases x with
  | none => intro b c l hh; cases hh
  | some a => exact h a

/-- The inputs case keeps the level. -/
theorem processInputs_level (cfg : AliTriggerConfiguration) (ts : List TString) (level : Int) :
    KeepsLevel (processInputs cfg ts level) level := by
  unfold processInputs
  split
  · exact keepsLevel_some _ _ _
  · repeat (first | exact keepsLevel_some _ _ _ | (apply keepsLevel_bind; intro _))

/-- The interactions case keeps the level. -/
theorem processInteractions_level (K : Collaborators) (cfg : AliTriggerConfiguration)
    (ts : List TString) (level : Int) : KeepsLevel (processInteractions K cfg ts level) level := by
  unfold processInteractions
  split
  · exact keepsLevel_some _ _ _
  · repeat (first | exact keepsLevel_some _ _ _ | (apply keepsLevel_bind; intro _))

/-- The descriptors case keeps the level. -/
theorem processDescriptors_level (K : Collaborators) (cfg : AliTriggerConfiguration)
    (strLine : TString) (ts : List TString) (level : Int) :
    KeepsLevel (processDescriptors K cfg strLine ts level) level := by
  unfold processDescriptors
  apply keepsLevel_bind
  intro t0
  split_ifs <;> exact keepsLevel_some _ _ _

/-- The clusters case keeps the level. -/
theorem processClusters_level (cfg : AliTriggerConfiguration) (ts : List TString)
    (level : Int) : KeepsLevel (processClusters cfg ts level) level := by
  unfold processClusters
  split
  · exact keepsLevel_some _ _ _
  · repeat (first | exact keepsLevel_some _ _ _ | (apply keepsLevel_bind; intro _))

/-- The protections case keeps the level. -/
theorem processPFs_level (K : Collaborators) (cfg : AliTriggerConfiguration)
    (ts : List TString) (level : Int) : KeepsLevel (processPFs K cfg ts level) level := by
  unfold processPFs
  apply keepsLevel_bind
  intro t0
  split
  · exact keepsLevel_some _ _ _
  · split
    · exact keepsLevel_some _ _ _
    · repeat (first | exact keepsLevel_some _ _ _ | (apply keepsLevel_bind; intro _))

/-- The masks case keeps the level. -/
theorem processBCMasks_level (cfg : AliTriggerConfiguration) (ts : List TString)
    (level : Int) : KeepsLevel (processBCMasks cfg ts level) level := by
  unfold processBCMasks
  split
  · exact keepsLevel_some _ _ _
  · apply keepsLevel_bind
    intro t0
    split
    · exact keepsLevel_some _ _ _
    · repeat (first | exact keepsLevel_some _ _ _ | (apply keepsLevel_bind; intro _))

/-- The classes case keeps the level. -/
theorem processClasses_level (K : Collaborators) (cfg : AliTriggerConfiguration)
    (ts : List TString) (level : Int) : KeepsLevel (processClasses K cfg ts level) level := by
  unfold processClasses
  split
  · exact keepsLevel_some _ _ _
  · repeat (first | exact keepsLevel_some _ _ _ | (apply keepsLevel_bind; intro _))

/-- The switch keeps the level. -/
theorem processTokens_level (K : Collaborators) (cfg : AliTriggerConfiguration)
    (strLine : TString) (ts : List TString) (level : Int) :
    KeepsLevel (processTokens K cfg strLine ts level) level := by
  unfold processTokens
  split_ifs
  · exact processInputs_level _ _ _
  · exact processInteractions_level _ _ _ _
  · exact processDescriptors_level _ _ _ _ _
  · exact processClusters_level _ _ _
  · exact processPFs_level _ _ _ _
  · exact processBCMasks_level _ _ _
  · exact processClasses_level _ _ _ _
  · exact keepsLevel_some _ _ _

/-- A line that begins with no section header keeps the level. -/
theorem processConfigurationLine_level (K : Collaborators) (cfg : AliTriggerConfiguration)
    (line : TString) (level : Int) (hline : isSectionHeader line = false) :
    KeepsLevel (ProcessConfigurationLine K cfg line level) level := by
  by_cases hs : isSpecialLine line = false
  · rw [processConfigurationLine_data K cfg line level hs]
    split
    · exact keepsLevel_some _ _ _
    · exact processTokens_level _ _ _ _ _
  · simp only [isSectionHeader, Bool.or_eq_false_iff] at hline
    obtain ⟨⟨⟨⟨⟨⟨h3, h4⟩, h5⟩, h6⟩, h7⟩, h8⟩, h9⟩ := hline
    unfold ProcessConfigurationLine
    dsimp only
    by_cases h0 : BeginsWith line "#".toList = true
    · rw [if_pos h0]; exact keepsLevel_some _ _ _
    rw [if_neg h0]
    by_cases h1 : BeginsWith line "PARTITION:".toList = true
    · rw [if_pos h1]; exact keepsLevel_some _ _ _
    rw [if_neg h1]
    by_cases h2 : BeginsWith line "VERSION:".toList = true
    · rw [if_pos h2]; exact keepsLevel_some _ _ _
    exfalso
    apply hs
    simp only [isSpecialLine, Bool.or_eq_false_iff]
    simp only [Bool.not_eq_true] at h0 h1 h2
    exact ⟨⟨⟨⟨⟨⟨⟨⟨⟨h0, h1⟩, h2⟩, h3⟩, h4⟩, h5⟩, h6⟩, h7⟩, h8⟩, h9⟩

/-! ## The sections of the parser, line by line -/

/-- A data line with tokens goes to the switch with the tokens of the
substituted line. -/
theorem processConfigurationLine_tokens (K : Collaborators) (cfg : AliTriggerConfiguration)
    (line : TString) (level : Int) (hline : isSpecialLine line = false)
    (ts : List TString) (hts : Tokenize (normalizeLine line) " \t".toList = ts)
    (hne : ts ≠ []) :
    ProcessConfigurationLine K cfg line level =
      processTokens K cfg (normalizeLine line) ts level := by
  rw [processConfigurationLine_data K cfg line level hline, hts]
  have : ¬ ts.length = 0 := fun h => hne (List.length_eq_zero.mp h)
  rw [if_neg this]

/-- A keyword without wildcard characters begins the substituted token exactly
when it begins the token. -/
theorem beginsWith_map_normalizeChar (w t : TString)
    (hw : ∀ c ∈ w, c ≠ '!' ∧ c ≠ '*' ∧ c ≠ '~') :
    BeginsWith (t.map normalizeChar) w = BeginsWith t w := by
  induction w generalizing t with
  | nil => cases t <;> rfl
  | cons x xs ih =>
    cases t with
    | nil => rfl
    | cons c cs =>
      have hx := hw x (List.mem_cons_self _ _)
      have ih2 := ih cs (fun y hy => hw y (List.mem_cons_of_mem _ hy))
      simp only [BeginsWith, List.map_cons, List.isPrefixOf] at ih2 ⊢
      rw [ih2]
      congr 1
      unfold normalizeChar
      by_cases hc : c = '*' ∨ c = '~'
      · rw [if_pos hc]
        rcases hc with rfl | rfl
        · simp [hx.1, hx.2.1]
        · simp [hx.1, hx.2.2]
      · rw [if_neg hc]

/-- The overload of `AddFunction` by values changes the configuration as the
add of the built object does. -/
theorem addFunctionNew_snd (K : Collaborators) (cfg : AliTriggerConfiguration)
    (name logic : TString) :
    (AddFunctionNew K cfg name logic).2 = (AddFunction K cfg ⟨name, logic⟩).2 := by
  unfold AddFunctionNew
  dsimp only
  split <;> rfl

/-- The overload of `AddDescriptor` by values changes the configuration as the
add of the built object does. -/
theorem addDescriptorNew_snd (K : Collaborators) (cfg : AliTriggerConfiguration)
    (name cond : TString) :
    (AddDescriptorNew K cfg name cond).2 = (AddDescriptor K cfg ⟨name, cond⟩).2 := by
  unfold AddDescriptorNew
  dsimp only
  split <;> rfl

/-- The overload of `AddInput` by values changes the configuration as the add
of the built object does. -/
theorem addInputNew_snd (cfg : AliTriggerConfiguration) (name det : TString)
    (level signature number : Nat) :
    (AddInputNew cfg name det level signature number).2 =
      (AddInput cfg ⟨name, det, level, signature, number⟩).2 := by
  unfold AddInputNew
  dsimp only
  split <;> rfl

/-- The overload of `AddCluster` by values changes the configuration as the
add of the built object does. -/
theorem addClusterNew_snd (cfg : AliTriggerConfiguration) (name : TString) (index : Nat)
    (detectors : TString) :
    (AddClusterNew cfg name index detectors).2 = (AddCluster cfg ⟨name, index, detectors⟩).2 := by
  unfold AddClusterNew
  dsimp only
  split <;> rfl

/-- The overload of `AddMask` by values changes the configuration as the add
of the built object does. -/
theorem addMaskNew_snd (cfg : AliTriggerConfiguration) (name mask : TString) :
    (AddMaskNew cfg name mask).2 = (AddMask cfg ⟨name, mask⟩).2 := by
  unfold AddMaskNew
  dsimp only
  split <;> rfl

/-- `AddFunction` leaves the descriptors alone. -/
theorem addFunction_descriptors (K : Collaborators) (cfg : AliTriggerConfiguration)
    (x : AliTriggerInteraction) : (AddFunction K cfg x).2.fDescriptors = cfg.fDescriptors := by
  unfold AddFunction
  split_ifs <;> rfl

/-- `AddDescriptor` leaves the functions alone. -/
theorem addDescriptor_functions (K : Collaborators) (cfg : AliTriggerConfiguration)
    (x : AliTriggerDescriptor) : (AddDescriptor K cfg x).2.fFunctions = cfg.fFunctions := by
  unfold AddDescriptor
  split_ifs <;> rfl

/-- In the descriptors section the switch takes the descriptors case. -/
theorem processTokens_three (K : Collaborators) (cfg : AliTriggerConfiguration)
    (strLine : TString) (ts : List TString) :
    processTokens K cfg strLine ts 3 = processDescriptors K cfg strLine ts 3 := by
  simp [processTokens]

/-- C14: in the descriptors section a line with at least two tokens whose
first token begins with `l0f` is offered to `AddFunction` and leaves the
descriptors alone, any other line with at least two tokens is offered to
`AddDescriptor` and leaves the functions alone; a line with a single token is
offered to `AddDescriptor` when the token is `EMPTY` or `DEMPTY` and returns
failure otherwise. -/
theorem descriptors_dispatch (K : Collaborators) (cfg : AliTriggerConfiguration)
    (line : TString) (hline : isSpecialLine line = false) :
    (∀ t0 t1 rest, Tokenize line " \t".toList = t0 :: t1 :: rest →
      (BeginsWith t0 "l0f".toList = true →
        ProcessConfigurationLine K cfg line 3 =
          some (true, (AddFunction K cfg ⟨t0.map normalizeChar,
            ReplaceAll (normalizeLine line) (t0.map normalizeChar) []⟩).2, 3) ∧
        (AddFunction K cfg ⟨t0.map normalizeChar,
            ReplaceAll (normalizeLine line) (t0.map normalizeChar) []⟩).2.fDescriptors =
          cfg.fDescriptors) ∧
      (BeginsWith t0 "l0f".toList = false →
        ProcessConfigurationLine K cfg line 3 =
          some (true, (AddDescriptor K cfg ⟨t0.map normalizeChar,
            ReplaceAll (normalizeLine line) (t0.map normalizeChar) []⟩).2, 3) ∧
        (AddDescriptor K cfg ⟨t0.map normalizeChar,
            ReplaceAll (normalizeLine line) (t0.map normalizeChar) []⟩).2.fFunctions =
          cfg.fFunctions)) ∧
    (∀ t0, Tokenize line " \t".toList = [t0] →
      ((t0 = "EMPTY".toList ∨ t0 = "DEMPTY".toList) →
        ProcessConfigurationLine K cfg line 3 =
          some (true, (AddDescriptor K cfg ⟨t0, ReplaceAll (normalizeLine line) t0 []⟩).2, 3) ∧
        (AddDescriptor K cfg ⟨t0, ReplaceAll (normalizeLine line) t0 []⟩).2.fFunctions =
          cfg.fFunctions) ∧
      (¬ (t0 = "EMPTY".toList ∨ t0 = "DEMPTY".toList) →
        ReturnsFailure (ProcessConfigurationLine K cfg line 3))) := by
  constructor
  · intro t0 t1 rest hts
    have hts2 : Tokenize (normalizeLine line) " \t".toList =
        t0.map normalizeChar :: t1.map normalizeChar :: rest.map (List.map normalizeChar) := by
      rw [tokenize_normalizeLine, hts]; rfl
    have hp := processConfigurationLine_tokens K cfg line 3 hline _ hts2 (by simp)
    rw [hp, processTokens_three]
    have h0 : At (t0.map normalizeChar :: t1.map normalizeChar ::
        rest.map (List.map normalizeChar)) 0 = some (t0.map normalizeChar) := rfl
    have hlen : ¬ (t0.map normalizeChar :: t1.map normalizeChar ::
        rest.map (List.map normalizeChar)).length < 2 := by
      simp only [List.length_cons]; omega
    have hb := beginsWith_map_normalizeChar "l0f".toList t0 (by decide)
    simp only [processDescriptors, h0, Option.bind_eq_bind, Option.some_bind]
    rw [if_neg hlen]
    constructor
    · intro hl
      rw [if_pos (by rw [hb]; exact hl), addFunctionNew_snd]
      exact ⟨rfl, addFunction_descriptors _ _ _⟩
    · intro hl
      rw [if_neg (by rw [hb, hl]; simp), addDescriptorNew_snd]
      exact ⟨rfl, addDescriptor_functions _ _ _⟩
  · intro t0 hts
    have hts2 : Tokenize (normalizeLine line) " \t".toList = [t0.map normalizeChar] := by
      rw [tokenize_normalizeLine, hts]; rfl
    have hp := processConfigurationLine_tokens K cfg line 3 hline _ hts2 (by simp)
    rw [hp, processTokens_three]
    have hE := map_normalizeChar_eq_iff "EMPTY".toList t0 (by decide)
    have hD := map_normalizeChar_eq_iff "DEMPTY".toList t0 (by decide)
    constructor
    · intro h
      have hn : t0.map normalizeChar = t0 := by
        rcases h with h | h
        · rw [h]; decide
        · rw [h]; decide
      rw [hn]
      have h0 : At [t0] 0 = some t0 := rfl
      have hlen : [t0].length < 2 := by simp
      have hc : (t0 == "EMPTY".toList || t0 == "DEMPTY".toList) = true := by
        simp only [Bool.or_eq_true, beq_iff_eq]; exact h
      simp only [processDescriptors, h0, Option.bind_eq_bind, Option.some_bind]
      rw [if_pos hlen, if_pos hc, addDescriptorNew_snd]
      exact ⟨rfl, addDescriptor_functions _ _ _⟩
    · intro h
      rw [processDescriptors_failure K cfg _ _ 3 (by simp)]
      refine ⟨by simp, ?_, ?_⟩
      · simp only [List.head?_cons, ne_eq, Option.some.injEq, hE]
        exact fun e => h (Or.inl e)
      · simp only [List.head?_cons, ne_eq, Option.some.injEq, hD]
        exact fun e => h (Or.inr e)

/-- A value in 0..255 is its own `UChar_t`. -/
theorem toUChar_t_of_range (v : Int) (h0 : 0 ≤ v) (h1 : v < 256) : (toUChar_t v : Int) = v := by
  unfold toUChar_t
  rw [Int.emod_eq_of_lt h0 h1]
  exact Int.toNat_of_nonneg h0

/-- A value in the 32-bit unsigned range is its own `UInt_t`. -/
theorem toUInt_t_of_range (v : Int) (h0 : 0 ≤ v) (h1 : v < 2 ^ 32) : (toUInt_t v : Int) = v := by
  unfold toUInt_t
  rw [Int.emod_eq_of_lt h0 h1]
  exact Int.toNat_of_nonneg h0

/-- A token of a line has no blank to drop, so `TString::Atoi` is the `atoi`
of the token: the number read, limited to the range of `long` and cut to the
32 bits of an `int`. -/
theorem Atoi_token (s t : TString) (h : t ∈ Tokenize s " \t".toList) :
    Atoi t = toInt_t (clampLong (atoiValue t)) := by
  obtain ⟨-, hfree, -⟩ := (mem_tokenize_iff _ _ _).mp h
  have hf : t.filter (fun c => c != ' ') = t := by
    rw [List.filter_eq_self]
    intro c hc
    have : c ≠ ' ' := fun e => hfree c hc (by rw [e]; decide)
    simpa using this
  unfold Atoi atoi
  rw [hf]

/-- C15 (amended): in the inputs section a line of five tokens, processed
while fewer than 50 inputs exist, appends exactly one input; its name and
detector are tokens 0 and 1 of the substituted line, its level and number the
values that `TString::Atoi` returns for tokens 2 and 4 as `UChar_t` (modulo
256) and its signature the value for token 3 as `UInt_t` (modulo 2^32); the
value of `Atoi` is the number read from the token, limited to the range of
`long` and cut to the 32 bits of an `int`; a value in range is kept. -/
theorem inputs_line_appends (K : Collaborators) (cfg : AliTriggerConfiguration)
    (line t0 t1 t2 t3 t4 : TString) (hline : isSpecialLine line = false)
    (hts : Tokenize (normalizeLine line) " \t".toList = [t0, t1, t2, t3, t4])
    (hcap : cfg.fInputs.length < 50) :
    ProcessConfigurationLine K cfg line 1 =
      some (true, { cfg with fInputs := cfg.fInputs ++
        [⟨t0, t1, toUChar_t (Atoi t2), toUInt_t (Atoi t3), toUChar_t (Atoi t4)⟩] }, 1) ∧
    Atoi t2 = toInt_t (clampLong (atoiValue t2)) ∧
    Atoi t3 = toInt_t (clampLong (atoiValue t3)) ∧
    Atoi t4 = toInt_t (clampLong (atoiValue t4)) ∧
    (0 ≤ Atoi t2 → Atoi t2 < 256 → (toUChar_t (Atoi t2) : Int) = Atoi t2) ∧
    (0 ≤ Atoi t3 → Atoi t3 < 2 ^ 32 → (toUInt_t (Atoi t3) : Int) = Atoi t3) ∧
    (0 ≤ Atoi t4 → Atoi t4 < 256 → (toUChar_t (Atoi t4) : Int) = Atoi t4) := by
  refine ⟨?_, Atoi_token _ _ (by rw [hts]; simp), Atoi_token _ _ (by rw [hts]; simp),
    Atoi_token _ _ (by rw [hts]; simp), toUChar_t_of_range _, toUInt_t_of_range _,
    toUChar_t_of_range _⟩
  rw [processConfigurationLine_tokens K cfg line 1 hline _ hts (by simp)]
  have hl : processTokens K cfg (normalizeLine line) [t0, t1, t2, t3, t4] 1 =
      processInputs cfg [t0, t1, t2, t3, t4] 1 := by simp [processTokens]
  rw [hl]
  simp only [processInputs, At, List.length_cons, List.length_nil, ne_eq, not_true_eq_false,
    if_false, List.get?_cons_zero, List.get?_cons_succ, Option.bind_eq_bind, Option.some_bind,
    addInputNew_snd]
  simp [AddInput, kNMaxInputs, hcap]

/-- C15 (amended) at the line of the spec, `VZERO_TEST1_L0 VZERO 0 256 1`:
level 0, signature 256, number 1; and at a signature beyond the range of
`long`, `X Y 0 99999999999999999999 0`: `Atoi` returns -1 and the signature
is 4294967295. -/
theorem inputs_line_appends_witness :
    ProcessConfigurationLine specCollaborators AliTriggerConfiguration.empty
        "VZERO_TEST1_L0 VZERO 0 256 1".toList 1 =
      some (true, { AliTriggerConfiguration.empty with
        fInputs := [⟨"VZERO_TEST1_L0".toList, "VZERO".toList, 0, 256, 1⟩] }, 1) ∧
    ProcessConfigurationLine specCollaborators AliTriggerConfiguration.empty
        "X Y 0 99999999999999999999 0".toList 1 =
      some (true, { AliTriggerConfiguration.empty with
        fInputs := [⟨"X".toList, "Y".toList, 0, 4294967295, 0⟩] }, 1) ∧
    atoiValue "99999999999999999999".toList = 99999999999999999999 ∧
    Atoi "99999999999999999999".toList = -1 :=
  ⟨(inputs_line_appends specCollaborators AliTriggerConfiguration.empty
      "VZERO_TEST1_L0 VZERO 0 256 1".toList "VZERO_TEST1_L0".toList "VZERO".toList "0".toList
      "256".toList "1".toList (by decide) (by decide) (by decide)).1,
    (inputs_line_appends specCollaborators AliTriggerConfiguration.empty
      "X Y 0 99999999999999999999 0".toList "X".toList "Y".toList "0".toList
      "99999999999999999999".toList "0".toList (by decide) (by decide) (by decide)).1,
    by decide, by decide⟩

/-- C15 as stated fails: the line `X Y 256 -1 300` gives level 0, signature
4294967295 and number 44, not the integer values 256, -1 and 300 of its
tokens. -/
theorem inputs_line_truncates_values :
    ProcessConfigurationLine specCollaborators AliTriggerConfiguration.empty
        "X Y 256 -1 300".toList 1 =
      some (true, { AliTriggerConfiguration.empty with
        fInputs := [⟨"X".toList, "Y".toList, 0, 4294967295, 44⟩] }, 1) ∧
    Atoi "256".toList = 256 ∧ Atoi "-1".toList = -1 ∧ Atoi "300".toList = 300 := by
  decide

/-- The loop that builds `strTemp` appends every token followed by a blank. -/
theorem foldl_append_blank (rest : List TString) (init : TString) :
    rest.foldl (fun strTemp tok => strTemp ++ tok ++ [' ']) init =
      init ++ rest.flatMap (fun tok => tok ++ [' ']) := by
  induction rest generalizing init with
  | nil => simp
  | cons t ts ih =>
    rw [List.foldl_cons, ih, List.flatMap_cons]
    simp only [List.append_assoc]

/-- The detector string of a clusters line is every token from the third on,
each followed by a blank. -/
theorem joinDetectors_eq (t0 t1 : TString) (rest : List TString) :
    joinDetectors (t0 :: t1 :: rest) = rest.flatMap (fun tok => tok ++ [' ']) := by
  unfold joinDetectors
  rw [List.drop_succ_cons, List.drop_succ_cons, List.drop_zero, foldl_append_blank]
  rfl

/-- Tokens written each with a blank after it are read back by `Tokenize`. -/
theorem tokenize_flatMap_blank (rest : List TString)
    (h : ∀ t ∈ rest, t ≠ [] ∧ ∀ c ∈ t, c ∉ [' ']) :
    Tokenize (rest.flatMap (fun tok => tok ++ [' '])) [' '] = rest := by
  induction rest with
  | nil => rfl
  | cons t ts ih =>
    have ht := h t (List.mem_cons_self _ _)
    have ih2 := ih (fun x hx => h x (List.mem_cons_of_mem _ hx))
    unfold Tokenize at ih2 ⊢
    rw [List.flatMap_cons, List.append_assoc, List.singleton_append,
      splitAny_append_delim _ _ _ _ (List.mem_singleton_self ' '),
      splitAny_of_free _ _ ht.2, List.filter_append, ih2]
    cases t with
    | nil => exact absurd rfl ht.1
    | cons c cs => rfl

/-- C16 (amended): in the clusters section a line with at least two tokens
offers to `AddCluster` the cluster named by token 0, with the value that
`TString::Atoi` returns for token 1 as `UChar_t` (modulo 256) for index, that
value being the number read from the token, limited to the range of `long`
and cut to the 32 bits of an `int`, and, for detector list, the tokens from
the third on each followed by one blank: its blank-separated tokens are those
tokens, and when there is one it ends with a blank. -/
theorem clusters_line_offers (K : Collaborators) (cfg : AliTriggerConfiguration)
    (line t0 t1 : TString) (rest : List TString) (hline : isSpecialLine line = false)
    (hts : Tokenize (normalizeLine line) " \t".toList = t0 :: t1 :: rest) :
    ProcessConfigurationLine K cfg line 4 =
      some (true, (AddCluster cfg ⟨t0, toUChar_t (Atoi t1),
        rest.flatMap (fun tok => tok ++ [' '])⟩).2, 4) ∧
    Atoi t1 = toInt_t (clampLong (atoiValue t1)) ∧
    Tokenize (rest.flatMap (fun tok => tok ++ [' '])) [' '] = rest ∧
    (rest ≠ [] → EndsWith (rest.flatMap (fun tok => tok ++ [' '])) [' '] = true) := by
  refine ⟨?_, Atoi_token _ _ (by rw [hts]; simp), ?_, ?_⟩
  · rw [processConfigurationLine_tokens K cfg line 4 hline _ hts (by simp)]
    have hl : processTokens K cfg (normalizeLine line) (t0 :: t1 :: rest) 4 =
        processClusters cfg (t0 :: t1 :: rest) 4 := by simp [processTokens]
    have hlen : ¬ (t0 :: t1 :: rest).length < 2 := by simp only [List.length_cons]; omega
    rw [hl]
    unfold processClusters
    rw [if_neg hlen]
    simp only [At, List.get?_cons_zero, List.get?_cons_succ, Option.bind_eq_bind,
      Option.some_bind, addClusterNew_snd, joinDetectors_eq]
  · apply tokenize_flatMap_blank
    intro t ht
    have hmem : t ∈ Tokenize (normalizeLine line) " \t".toList := by
      rw [hts]; exact List.mem_cons_of_mem _ (List.mem_cons_of_mem _ ht)
    obtain ⟨hne, hfree, _⟩ := (mem_tokenize_iff _ _ _).mp hmem
    refine ⟨hne, fun c hc hsp => hfree c hc ?_⟩
    rw [List.mem_singleton] at hsp
    rw [hsp]; decide
  · intro hne
    obtain ⟨l, a, rfl⟩ := (List.eq_nil_or_concat rest).resolve_left hne
    rw [endsWith_iff]
    refine ⟨l.flatMap (fun tok => tok ++ [' ']) ++ a, ?_⟩
    simp [List.flatMap_append]

/-- C16 (amended) at the line `CL 1 TPC  TRD`, and at an index beyond the
range of `long`, `CL 9223372036854775808 TPC`: `Atoi` returns -1 and the
index is 255. -/
theorem clusters_line_offers_witness :
    ProcessConfigurationLine specCollaborators AliTriggerConfiguration.empty
        "CL 1 TPC  TRD".toList 4 =
      some (true, { AliTriggerConfiguration.empty with
        fClusters := [⟨"CL".toList, 1, "TPC TRD ".toList⟩] }, 4) ∧
    ProcessConfigurationLine specCollaborators AliTriggerConfiguration.empty
        "CL 9223372036854775808 TPC".toList 4 =
      some (true, { AliTriggerConfiguration.empty with
        fClusters := [⟨"CL".toList, 255, "TPC ".toList⟩] }, 4) ∧
    Atoi "9223372036854775808".toList = -1 :=
  ⟨(clusters_line_offers specCollaborators AliTriggerConfiguration.empty "CL 1 TPC  TRD".toList
      "CL".toList "1".toList ["TPC".toList, "TRD".toList] (by decide) (by decide)).1,
    (clusters_line_offers specCollaborators AliTriggerConfiguration.empty
      "CL 9223372036854775808 TPC".toList "CL".toList "9223372036854775808".toList
      ["TPC".toList] (by decide) (by decide)).1,
    by decide⟩

/-- C16 as stated fails: the line `CL 1 TPC TRD` gives the detector list `TPC
TRD ` with a blank at its end, not the tokens joined by single blanks. -/
theorem clusters_line_trailing_blank :
    ProcessConfigurationLine specCollaborators AliTriggerConfiguration.empty
        "CL 1 TPC TRD".toList 4 =
      some (true, { AliTriggerConfiguration.empty with
        fClusters := [⟨"CL".toList, 1, "TPC TRD ".toList⟩] }, 4) ∧
    joinedBySingleBlanks ["TPC".toList, "TRD".toList] = "TPC TRD".toList ∧
    "TPC TRD ".toList ≠ joinedBySingleBlanks ["TPC".toList, "TRD".toList] := by
  decide

/-- A sentinel line of the protections section returns success and offers the
sentinel to `AddPFProtection`. -/
theorem sentinel_line_result (K : Collaborators) (cfg : AliTriggerConfiguration)
    (name : TString) (hname : name = "NONE".toList ∨ name = "NOPF".toList) :
    ProcessConfigurationLine K cfg name 5 =
      some (true, (AddPFProtection K cfg (newPFProtectionSentinel name)).2, 5) := by
  have hline : isSpecialLine name = false := by
    rcases hname with rfl | rfl <;> decide
  have hts : Tokenize (normalizeLine name) " \t".toList = [name] := by
    rcases hname with rfl | rfl <;> decide
  rw [processConfigurationLine_tokens K cfg name 5 hline _ hts (by simp)]
  have hl : processTokens K cfg (normalizeLine name) [name] 5 = processPFs K cfg [name] 5 := by
    simp [processTokens]
  have hc : (name == "NONE".toList || name == "NOPF".toList) = true := by
    simp only [Bool.or_eq_true, beq_iff_eq]; exact hname
  have h0 : At [name] 0 = some name := rfl
  rw [hl]
  simp only [processPFs, h0, Option.bind_eq_bind, Option.some_bind]
  rw [if_pos hc]

/-- C17 (amended): in the protections section the lines `NONE` and `NOPF`
return success and offer one sentinel protection to `AddPFProtection`; it is
appended when fewer than 4 protections exist and `CheckInteractions` accepts
it, which the check of the spec does whatever the interactions are, and the
configuration is unchanged when 4 protections exist. -/
theorem sentinel_pfs_line (K : Collaborators) (cfg : AliTriggerConfiguration) :
    (ProcessConfigurationLine K cfg "NONE".toList 5 =
      some (true, (AddPFProtection K cfg (newPFProtectionSentinel "NONE".toList)).2, 5)) ∧
    (ProcessConfigurationLine K cfg "NOPF".toList 5 =
      some (true, (AddPFProtection K cfg (newPFProtectionSentinel "NOPF".toList)).2, 5)) ∧
    (∀ p, cfg.fPFProtections.length < 4 → K.CheckInteractions p cfg.fInteractions = true →
      (AddPFProtection K cfg p).2 =
        { cfg with fPFProtections := cfg.fPFProtections ++ [p] }) ∧
    (∀ p, 4 ≤ cfg.fPFProtections.length → (AddPFProtection K cfg p).2 = cfg) ∧
    (∀ interactions,
      specCheckInteractions (newPFProtectionSentinel "NONE".toList) interactions = true ∧
      specCheckInteractions (newPFProtectionSentinel "NOPF".toList) interactions = true) := by
  refine ⟨sentinel_line_result K cfg _ (Or.inl rfl), sentinel_line_result K cfg _ (Or.inr rfl),
    ?_, ?_, ?_⟩
  · intro p h1 h2
    simp [AddPFProtection, kNMaxPFProtections, h1, h2]
  · intro p h
    have : ¬ cfg.fPFProtections.length < 4 := by omega
    simp [AddPFProtection, kNMaxPFProtections, this]
  · intro interactions
    constructor <;> rfl

set_option maxRecDepth 100000 in
/-- C17 as stated fails: with four protections in place the line `NONE`
returns success and adds nothing. -/
theorem sentinel_line_at_capacity :
    fourProtectionsCfg.fPFProtections.length = 4 ∧
    ProcessConfigurationLine specCollaborators fourProtectionsCfg "NONE".toList 5 =
      some (true, fourProtectionsCfg, 5) := by
  decide

/-- A masks line with a single token other than `NONE` has no result: the
source reads the missing second token. -/
theorem processBCMasks_single (cfg : AliTriggerConfiguration) (t0 : TString) (level : Int)
    (h : t0 ≠ "NONE".toList) : processBCMasks cfg [t0] level = none := by
  have h0 : At [t0] 0 = some t0 := rfl
  have h1 : At [t0] 1 = none := rfl
  have hlen : ¬ [t0].length > 2 := by simp
  have hc : ¬ (t0 == "NONE".toList) = true := by simpa using h
  unfold processBCMasks
  rw [if_neg hlen]
  simp only [h0, h1, Option.bind_eq_bind, Option.some_bind, Option.none_bind]
  rw [if_neg hc]

set_option maxRecDepth 100000 in
/-- C18 fails on the code: the masks line `MASK1` has one token and the source
reads `At(1)`, which does not exist; `NONE` gives the no-op mask and a line of
two tokens the mask named by the first with the second for pattern. -/
theorem bcmasks_single_token_reads_null :
    ProcessConfigurationLine specCollaborators AliTriggerConfiguration.empty "MASK1".toList 6 =
      none ∧
    Tokenize "MASK1".toList " \t".toList = ["MASK1".toList] ∧
    At (Tokenize "MASK1".toList " \t".toList) 1 = none ∧
    ProcessConfigurationLine specCollaborators AliTriggerConfiguration.empty "NONE".toList 6 =
      some (true, { AliTriggerConfiguration.empty with
        fMasks := [newBCMaskSentinel "NONE".toList] }, 6) ∧
    ProcessConfigurationLine specCollaborators AliTriggerConfiguration.empty
        "MASK1 3564H".toList 6 =
      some (true, { AliTriggerConfiguration.empty with
        fMasks := [⟨"MASK1".toList, "3564H".toList⟩] }, 6) := by
  decide

set_option maxRecDepth 100000 in
/-- C19 fails on the code: for the remainder `A_PARTITION:B` the name becomes
`A_B`, every occurrence of `PARTITION:` is removed and not only the leading
one; a remainder without it is taken as it is. -/
theorem partition_line_drops_inner_occurrence :
    ProcessConfigurationLine specCollaborators AliTriggerConfiguration.empty
        ("PARTITION:".toList ++ "A_PARTITION:B".toList) 0 =
      some (true, { AliTriggerConfiguration.empty with fName := "A_B".toList }, 0) ∧
    "A_B".toList ≠ "A_PARTITION:B".toList ∧
    ProcessConfigurationLine specCollaborators AliTriggerConfiguration.empty
        ("PARTITION:".toList ++ "PHYSICS_1".toList) 0 =
      some (true, { AliTriggerConfiguration.empty with fName := "PHYSICS_1".toList }, 0) := by
  decide

set_option maxRecDepth 100000 in
/-- C13 fails on the code: for the line `MB MB1 & MB2` the condition handed to
the descriptor is ` 1 & 2`, the name is removed inside the later tokens too,
and not the line without its first token; on a line where the name does not
come back the two agree. -/
theorem descriptor_condition_loses_later_occurrences :
    ProcessConfigurationLine acceptAll AliTriggerConfiguration.empty "MB MB1 & MB2".toList 3 =
      some (true, { AliTriggerConfiguration.empty with
        fDescriptors := [⟨"MB".toList, " 1 & 2".toList⟩] }, 3) ∧
    removeFirstToken (normalizeLine "MB MB1 & MB2".toList) = " MB1 & MB2".toList ∧
    ReplaceAll (normalizeLine "MB MB1 & MB2".toList) "MB".toList [] ≠
      removeFirstToken (normalizeLine "MB MB1 & MB2".toList) ∧
    ProcessConfigurationLine acceptAll AliTriggerConfiguration.empty "DV0A V0A & *V0C".toList 3 =
      some (true, { AliTriggerConfiguration.empty with
        fDescriptors := [⟨"DV0A".toList, " V0A & !V0C".toList⟩] }, 3) ∧
    removeFirstToken (normalizeLine "DV0A V0A & *V0C".toList) = " V0A & !V0C".toList := by
  decide

/-- C12: a line that begins with one of the seven section headers returns
success, leaves the configuration as it was and sets the state to the level
of that section, 1 to 7, whatever the state was; a line that begins with no
section header leaves the state as it was whenever the call returns. -/
theorem section_state_machine (K : Collaborators) (cfg : AliTriggerConfiguration)
    (level : Int) :
    (∀ line, BeginsWith line "INPUTS:".toList = true →
      ProcessConfigurationLine K cfg line level = some (true, cfg, 1)) ∧
    (∀ line, BeginsWith line "INTERACTIONS:".toList = true →
      ProcessConfigurationLine K cfg line level = some (true, cfg, 2)) ∧
    (∀ line, BeginsWith line "DESCRIPTORS:".toList = true →
      ProcessConfigurationLine K cfg line level = some (true, cfg, 3)) ∧
    (∀ line, BeginsWith line "CLUSTERS:".toList = true →
      ProcessConfigurationLine K cfg line level = some (true, cfg, 4)) ∧
    (∀ line, BeginsWith line "PFS:".toList = true →
      ProcessConfigurationLine K cfg line level = some (true, cfg, 5)) ∧
    (∀ line, BeginsWith line "BCMASKS:".toList = true →
      ProcessConfigurationLine K cfg line level = some (true, cfg, 6)) ∧
    (∀ line, BeginsWith line "CLASSES:".toList = true →
      ProcessConfigurationLine K cfg line level = some (true, cfg, 7)) ∧
    (∀ line, isSectionHeader line = false →
      KeepsLevel (ProcessConfigurationLine K cfg line level) level) := by
  refine ⟨?_, ?_, ?_, ?_, ?_, ?_, ?_, fun line h => processConfigurationLine_level K cfg line level h⟩
  · intro line h
    obtain ⟨t, rfl⟩ := (beginsWith_iff _ _).mp h
    exact (processConfigurationLine_header K cfg level t).1
  · intro line h
    obtain ⟨t, rfl⟩ := (beginsWith_iff _ _).mp h
    exact (processConfigurationLine_header K cfg level t).2.1
  · intro line h
    obtain ⟨t, rfl⟩ := (beginsWith_iff _ _).mp h
    exact (processConfigurationLine_header K cfg level t).2.2.1
  · intro line h
    obtain ⟨t, rfl⟩ := (beginsWith_iff _ _).mp h
    exact (processConfigurationLine_header K cfg level t).2.2.2.1
  · intro line h
    obtain ⟨t, rfl⟩ := (beginsWith_iff _ _).mp h
    exact (processConfigurationLine_header K cfg level t).2.2.2.2.1
  · intro line h
    obtain ⟨t, rfl⟩ := (beginsWith_iff _ _).mp h
    exact (processConfigurationLine_header K cfg level t).2.2.2.2.2.1
  · intro line h
    obtain ⟨t, rfl⟩ := (beginsWith_iff _ _).mp h
    exact (processConfigurationLine_header K cfg level t).2.2.2.2.2.2

/-- C14 at the lines `l0fA V0A` (a function), `DV0A V0A` (a descriptor),
`DEMPTY` (a descriptor) and `DX` (a failure) on the empty configuration. -/
theorem descriptors_dispatch_witness :
    ProcessConfigurationLine acceptAll AliTriggerConfiguration.empty "l0fA V0A".toList 3 =
      some (true, { AliTriggerConfiguration.empty with
        fFunctions := [⟨"l0fA".toList, " V0A".toList⟩] }, 3) ∧
    ProcessConfigurationLine acceptAll AliTriggerConfiguration.empty "DV0A V0A".toList 3 =
      some (true, { AliTriggerConfiguration.empty with
        fDescriptors := [⟨"DV0A".toList, " V0A".toList⟩] }, 3) ∧
    ProcessConfigurationLine acceptAll AliTriggerConfiguration.empty "DEMPTY".toList 3 =
      some (true, { AliTriggerConfiguration.empty with
        fDescriptors := [⟨"DEMPTY".toList, []⟩] }, 3) ∧
    ReturnsFailure
      (ProcessConfigurationLine acceptAll AliTriggerConfiguration.empty "DX".toList 3) :=
  ⟨(((descriptors_dispatch acceptAll AliTriggerConfiguration.empty "l0fA V0A".toList
      (by decide)).1 "l0fA".toList "V0A".toList [] (by decide)).1 (by decide)).1,
   (((descriptors_dispatch acceptAll AliTriggerConfiguration.empty "DV0A V0A".toList
      (by decide)).1 "DV0A".toList "V0A".toList [] (by decide)).2 (by decide)).1,
   (((descriptors_dispatch acceptAll AliTriggerConfiguration.empty "DEMPTY".toList
      (by decide)).2 "DEMPTY".toList (by decide)).1 (by decide)).1,
   ((descriptors_dispatch acceptAll AliTriggerConfiguration.empty "DX".toList
      (by decide)).2 "DX".toList (by decide)).2 (by decide)⟩

/-! ## PHOS digits -/

/-- When the difference of the two ids fits an `Int_t`, `Compare` orders by
id. -/
theorem compare_of_small_difference (a b : AliPHOSDigit)
    (h : -2 ^ 31 ≤ a.fId - b.fId ∧ a.fId - b.fId < 2 ^ 31) :
    (a.fId > b.fId → a.Compare b = 1) ∧ (a.fId < b.fId → a.Compare b = -1) ∧
    (a.fId = b.fId → a.Compare b = 0) := by
  have hw : toInt_t (a.fId - b.fId) = a.fId - b.fId := by
    unfold toInt_t; omega
  simp only [AliPHOSDigit.Compare, hw]
  refine ⟨fun h1 => ?_, fun h1 => ?_, fun h1 => ?_⟩
  · rw [if_pos (by omega)]
  · rw [if_neg (by omega), if_pos (by omega)]
  · rw [if_neg (by omega), if_neg (by omega)]

/-- C24 (fails on the code): for the ids 2147483647 and -1 the difference
does not fit an `Int_t`; it wraps to -2147483648 and `Compare` returns -1
although the first id is the greater one. -/
theorem compare_wraps_on_large_difference :
    (AliPHOSDigit.new 1 2147483647 0 0).fId > (AliPHOSDigit.new 1 (-1) 0 0).fId ∧
    toInt_t ((AliPHOSDigit.new 1 2147483647 0 0).fId - (AliPHOSDigit.new 1 (-1) 0 0).fId) =
      -2147483648 ∧
    (AliPHOSDigit.new 1 2147483647 0 0).Compare (AliPHOSDigit.new 1 (-1) 0 0) = -1 := by
  decide

/-- A value in the range of `Int_t` is its own `Int_t`. -/
theorem toInt_t_of_range (v : Int) (h0 : -2 ^ 31 ≤ v) (h1 : v < 2 ^ 31) : toInt_t v = v := by
  unfold toInt_t; omega

/-- C25 (fails as stated): the amplitudes 2147483647 and 1 of two digits with
one primary each do not add up in an `Int_t`; `a + b` leaves the amplitude
-2147483648, not the sum 2147483648. -/
theorem operatorPlus_amplitude_wraps :
    (AliPHOSDigit.new 11 7 2147483647 0).WellFormed ∧ (AliPHOSDigit.new 12 7 1 0).WellFormed ∧
    (AliPHOSDigit.new 11 7 2147483647 0).fNprimary + (AliPHOSDigit.new 12 7 1 0).fNprimary ≤ 5 ∧
    (AliPHOSDigit.new 11 7 2147483647 0).operatorPlus (AliPHOSDigit.new 12 7 1 0) =
      some ⟨-2147483648, 7, 0, 2, 5, [11, 12, -1, -1, -1]⟩ ∧
    (AliPHOSDigit.new 11 7 2147483647 0).fAmp + (AliPHOSDigit.new 12 7 1 0).fAmp = 2147483648 := by
  decide

/-- C25, amended: for two digits as the constructors and `operator+` leave
them whose primary counts add up to at most 5, `a + b` touches no slot outside
the arrays and leaves `a` with the sum of the amplitudes taken as an `Int_t`,
which is the sum itself whenever that lies in the range of `Int_t`, with its
former first `a.fNprimary` primaries followed by the first `b.fNprimary`
primaries of `b`, with the sum of the counts, and with its id and
index-in-list unchanged. -/
theorem operatorPlus_merges (a b : AliPHOSDigit) (ha : a.WellFormed) (hb : b.WellFormed)
    (hsum : a.fNprimary + b.fNprimary ≤ 5) :
    ∃ r, a.operatorPlus b = some r ∧
      r.fAmp = toInt_t (a.fAmp + b.fAmp) ∧
      (-2 ^ 31 ≤ a.fAmp + b.fAmp → a.fAmp + b.fAmp < 2 ^ 31 → r.fAmp = a.fAmp + b.fAmp) ∧
      r.fPrimary.take r.fNprimary.toNat =
        a.fPrimary.take a.fNprimary.toNat ++ b.fPrimary.take b.fNprimary.toNat ∧
      r.fNprimary = a.fNprimary + b.fNprimary ∧
      r.fId = a.fId ∧ r.fIndexInList = a.fIndexInList := by
  have key : ∃ r, a.operatorPlus b = some r ∧
      r.fAmp = toInt_t (a.fAmp + b.fAmp) ∧
      r.fPrimary.take r.fNprimary.toNat =
        a.fPrimary.take a.fNprimary.toNat ++ b.fPrimary.take b.fNprimary.toNat ∧
      r.fNprimary = a.fNprimary + b.fNprimary ∧
      r.fId = a.fId ∧ r.fIndexInList = a.fIndexInList := by
    obtain ⟨aAmp, aId, aIdx, an, aMax, ap⟩ := a
    obtain ⟨bAmp, bId, bIdx, bn, bMax, bp⟩ := b
    obtain ⟨ha1, ha2, ha3, ha4⟩ := ha
    obtain ⟨hb1, hb2, hb3, hb4⟩ := hb
    simp only at ha1 ha2 ha3 ha4 hb1 hb2 hb3 hb4 hsum
    subst ha1 hb1
    obtain ⟨n, rfl⟩ := Int.eq_ofNat_of_zero_le ha3
    obtain ⟨m, rfl⟩ := Int.eq_ofNat_of_zero_le hb3
    match ap, ha2 with
    | [p0, p1, p2, p3, p4], _ =>
      match bp, hb2 with
      | [q0, q1, q2, q3, q4], _ =>
        have hn : n ≤ 5 := by omega
        have hm : n + m ≤ 5 := by omega
        have hm5 : m ≤ 5 := by omega
        interval_cases n <;> interval_cases m <;>
          first
          | omega
          | (simp [AliPHOSDigit.operatorPlus, copyPrimaries, readSlot, writeSlot, List.range,
              List.range.loop, toInt_t])
  obtain ⟨r, h1, h2, h3, h4, h5, h6⟩ := key
  exact ⟨r, h1, h2, fun l u => by rw [h2, toInt_t_of_range _ l u], h3, h4, h5, h6⟩

/-- Two digits with a primary each: the sum holds both primaries. -/
theorem operatorPlus_merges_witness :
    ∃ r, (AliPHOSDigit.new 11 7 10 0).operatorPlus (AliPHOSDigit.new 12 7 10 0) = some r ∧
      r.fAmp = toInt_t ((AliPHOSDigit.new 11 7 10 0).fAmp + (AliPHOSDigit.new 12 7 10 0).fAmp) ∧
      (-2 ^ 31 ≤ (AliPHOSDigit.new 11 7 10 0).fAmp + (AliPHOSDigit.new 12 7 10 0).fAmp →
        (AliPHOSDigit.new 11 7 10 0).fAmp + (AliPHOSDigit.new 12 7 10 0).fAmp < 2 ^ 31 →
        r.fAmp = (AliPHOSDigit.new 11 7 10 0).fAmp + (AliPHOSDigit.new 12 7 10 0).fAmp) ∧
      r.fPrimary.take r.fNprimary.toNat =
        (AliPHOSDigit.new 11 7 10 0).fPrimary.take (AliPHOSDigit.new 11 7 10 0).fNprimary.toNat ++
          (AliPHOSDigit.new 12 7 10 0).fPrimary.take (AliPHOSDigit.new 12 7 10 0).fNprimary.toNat ∧
      r.fNprimary = (AliPHOSDigit.new 11 7 10 0).fNprimary + (AliPHOSDigit.new 12 7 10 0).fNprimary ∧
      r.fId = (AliPHOSDigit.new 11 7 10 0).fId ∧
      r.fIndexInList = (AliPHOSDigit.new 11 7 10 0).fIndexInList :=
  operatorPlus_merges _ _ (by decide) (by decide) (by decide)

/-- Whenever `operator+` touches no slot outside the arrays, it leaves a
primary count of at most 5. -/
theorem operatorPlus_count_le (a b r : AliPHOSDigit) (ha : a.WellFormed)
    (h : a.operatorPlus b = some r) : r.fNprimary ≤ 5 := by
  obtain ⟨h1, -, -, h4⟩ := ha
  unfold AliPHOSDigit.operatorPlus at h
  dsimp only at h
  split at h
  · cases h; exact h4
  · cases hc : copyPrimaries a.fNprimary b.fPrimary (List.range b.fNprimary.toNat) a.fPrimary with
    | none => rw [hc] at h; cases h
    | some arr =>
      rw [hc] at h
      simp only [Option.map_some', Option.some.injEq] at h
      subst h
      simp only [h1]
      split <;> omega

/-- C27 (fails on the code): a digit with three primaries plus a digit with
four, both made by the constructor and `operator+`: the count is cut to 5 but
the copy loop still runs over all four primaries of the right operand and
writes the slots 3, 4, 5 and 6 of the five-slot array. -/
theorem operatorPlus_writes_past_the_array :
    threePrimaries = some ⟨30, 7, 0, 3, 5, [11, 12, 13, -1, -1]⟩ ∧
    fourPrimaries = some ⟨40, 8, 1, 4, 5, [21, 22, 23, 24, -1]⟩ ∧
    AliPHOSDigit.WellFormed ⟨30, 7, 0, 3, 5, [11, 12, 13, -1, -1]⟩ ∧
    AliPHOSDigit.WellFormed ⟨40, 8, 1, 4, 5, [21, 22, 23, 24, -1]⟩ ∧
    slotsWritten ⟨30, 7, 0, 3, 5, [11, 12, 13, -1, -1]⟩ ⟨40, 8, 1, 4, 5, [21, 22, 23, 24, -1]⟩ =
      [3, 4, 5, 6] ∧
    AliPHOSDigit.operatorPlus ⟨30, 7, 0, 3, 5, [11, 12, 13, -1, -1]⟩
      ⟨40, 8, 1, 4, 5, [21, 22, 23, 24, -1]⟩ = none := by
  decide

/-- For a digit with five slots, `GetPrimary` returns the stored primary of
slot `index-1` for `index` from 1 to 5 and -1 for every `index` above 5. -/
theorem getPrimary_in_range (d : AliPHOSDigit) (hd : d.WellFormed) (index : Int) :
    (1 ≤ index ∧ index ≤ 5 → d.GetPrimary index = d.fPrimary.get? (index - 1).toNat ∧
      (d.GetPrimary index).isSome = true) ∧
    (index > 5 → d.GetPrimary index = some (-1)) := by
  obtain ⟨h1, h2, -, -⟩ := hd
  refine ⟨fun h => ?_, fun h => ?_⟩
  · have hlt : (index - 1).toNat < d.fPrimary.length := by omega
    simp only [AliPHOSDigit.GetPrimary, h1, readSlot, h2]
    rw [if_neg (by omega), if_pos (by constructor <;> omega)]
    refine ⟨rfl, ?_⟩
    rw [List.get?_eq_get hlt]; rfl
  · simp only [AliPHOSDigit.GetPrimary, h1]
    rw [if_pos h]

/-- C28 (fails on the code): for the index 0 the guard `index > fNMaxPrimary`
does not hold, so `GetPrimary` reads `fPrimary[-1]`, a slot outside the array;
the same digit returns its primary for the index 1 and -1 for the index 6. -/
theorem getPrimary_reads_before_the_array :
    ¬ (0 > (AliPHOSDigit.new 11 7 10 0).fNMaxPrimary) ∧
    readSlot (AliPHOSDigit.new 11 7 10 0).fPrimary (0 - 1) = none ∧
    (AliPHOSDigit.new 11 7 10 0).GetPrimary 0 = none ∧
    (AliPHOSDigit.new 11 7 10 0).GetPrimary (-3) = none ∧
    (AliPHOSDigit.new 11 7 10 0).GetPrimary 1 = some 11 ∧
    (AliPHOSDigit.new 11 7 10 0).GetPrimary 6 = some (-1) := by
  decide

/-! ## Loading from a file -/

/-- C23: the file name of `LoadConfiguration` is the configuration name
itself when that ends with `.cfg` or `.shuttle`, and otherwise the base path
followed by `/GRP/CTP/`, the name and `.cfg`; no other file is looked at: a
missing file gives the null pointer, and the result is that of the loop over
the lines of this one file. -/
theorem loadConfiguration_file_name (K : Collaborators) (aliceRoot configuration : TString) :
    ((".cfg".toList <:+ configuration ∨ ".shuttle".toList <:+ configuration) →
      configurationFileName aliceRoot configuration = configuration) ∧
    (¬ (".cfg".toList <:+ configuration ∨ ".shuttle".toList <:+ configuration) →
      configurationFileName aliceRoot configuration =
        aliceRoot ++ "/GRP/CTP/".toList ++ configuration ++ ".cfg".toList) ∧
    (∀ readFile, readFile (configurationFileName aliceRoot configuration) = none →
      LoadConfiguration K aliceRoot readFile configuration = some none) ∧
    (∀ readFile lines, readFile (configurationFileName aliceRoot configuration) = some lines →
      LoadConfiguration K aliceRoot readFile configuration =
        loadLines K lines AliTriggerConfiguration.empty 0) ∧
    (∀ readFile1 readFile2,
      readFile1 (configurationFileName aliceRoot configuration) =
        readFile2 (configurationFileName aliceRoot configuration) →
      LoadConfiguration K aliceRoot readFile1 configuration =
        LoadConfiguration K aliceRoot readFile2 configuration) := by
  have hiff : (EndsWith configuration ".cfg".toList || EndsWith configuration ".shuttle".toList) = true ↔
      (".cfg".toList <:+ configuration ∨ ".shuttle".toList <:+ configuration) := by
    rw [Bool.or_eq_true, endsWith_iff, endsWith_iff]
  refine ⟨fun h => ?_, fun h => ?_, fun rf h => ?_, fun rf lines h => ?_, fun rf1 rf2 h => ?_⟩
  · unfold configurationFileName; rw [if_pos (hiff.mpr h)]
  · unfold configurationFileName; rw [if_neg (fun hc => h (hiff.mp hc))]
  · simp only [LoadConfiguration, h]
  · simp only [LoadConfiguration, h]
  · simp only [LoadConfiguration, h]

/-! ## Active detectors -/

/-- A blank in front of a string adds no token. -/
theorem tokenize_blank_cons (y : TString) : Tokenize (' ' :: y) [' '] = Tokenize y [' '] := by
  simp [Tokenize, splitAny]

/-- A non-empty word without blanks is its own only token. -/
theorem tokenize_word (t : TString) (hne : t ≠ []) (hfree : ∀ c ∈ t, c ∉ [' ']) :
    Tokenize t [' '] = [t] := by
  cases t with
  | nil => exact absurd rfl hne
  | cons c cs => simp [Tokenize, splitAny_of_free _ _ hfree]

/-- A word followed by a blank is the first token of the string. -/
theorem tokenize_word_blank (t y : TString) (hne : t ≠ []) (hfree : ∀ c ∈ t, c ∉ [' ']) :
    Tokenize (t ++ ' ' :: y) [' '] = t :: Tokenize y [' '] := by
  cases t with
  | nil => exact absurd rfl hne
  | cons c cs =>
    unfold Tokenize
    rw [splitAny_append_delim [' '] (c :: cs) y ' ' (by simp), splitAny_of_free _ _ hfree]
    simp

/-- The tokens of words that are each written after one blank are the
words. -/
theorem tokenize_blank_before (toks : List TString)
    (h : ∀ t ∈ toks, t ≠ [] ∧ ∀ c ∈ t, c ∉ [' ']) :
    Tokenize (toks.flatMap (fun t => ' ' :: t)) [' '] = toks := by
  induction toks with
  | nil => simp [Tokenize, splitAny]
  | cons t ts ih =>
    have ht := h t (List.mem_cons_self _ _)
    have ih1 := ih (fun x hx => h x (List.mem_cons_of_mem _ hx))
    rw [List.flatMap_cons, List.cons_append, tokenize_blank_cons]
    cases ts with
    | nil => simp [tokenize_word t ht.1 ht.2]
    | cons u us =>
      rw [List.flatMap_cons, List.cons_append, tokenize_word_blank t _ ht.1 ht.2]
      rw [List.flatMap_cons, List.cons_append, tokenize_blank_cons] at ih1
      rw [ih1]

/-- A word of the list occurs in the string of the words written after one
blank each. -/
theorem infix_blank_before (toks : List TString) (t : TString) (ht : t ∈ toks) :
    t <:+: toks.flatMap (fun t => ' ' :: t) := by
  obtain ⟨l1, l2, rfl⟩ := List.append_of_mem ht
  refine ⟨l1.flatMap (fun t => ' ' :: t) ++ [' '], l2.flatMap (fun t => ' ' :: t), ?_⟩
  simp [List.flatMap_append, List.flatMap_cons]

/-- The inner loop of `GetActiveDetectors`: from distinct words it makes
distinct words, taken from the old ones and the tokens offered. -/
theorem appendDetectors_spec (det : List TString)
    (hdet : ∀ t ∈ det, t ≠ [] ∧ ∀ c ∈ t, c ∉ [' ']) :
    ∀ toks : List TString, toks.Nodup → (∀ t ∈ toks, t ≠ [] ∧ ∀ c ∈ t, c ∉ [' ']) →
      ∃ toks1 : List TString,
        appendDetectors (toks.flatMap (fun t => ' ' :: t)) det =
          toks1.flatMap (fun t => ' ' :: t) ∧
        toks1.Nodup ∧ (∀ t ∈ toks1, t ≠ [] ∧ ∀ c ∈ t, c ∉ [' ']) ∧
        (∀ t ∈ toks1, t ∈ toks ∨ t ∈ det) ∧ (toks1 = [] ↔ toks = [] ∧ det = []) := by
  induction det with
  | nil =>
    intro toks hnd hw
    exact ⟨toks, rfl, hnd, hw, fun t ht => Or.inl ht, by simp⟩
  | cons tok rest ih =>
    intro toks hnd hw
    have htok := hdet tok (List.mem_cons_self _ _)
    have ih1 := ih (fun x hx => hdet x (List.mem_cons_of_mem _ hx))
    simp only [appendDetectors, List.foldl_cons]
    by_cases hc : Contains (toks.flatMap (fun t => ' ' :: t)) tok = true
    · rw [if_pos hc]
      obtain ⟨toks1, h1, h2, h3, h4, h5⟩ := ih1 toks hnd hw
      have hne : toks ≠ [] := by
        intro he
        subst he
        cases tok with
        | nil => exact htok.1 rfl
        | cons c cs => simp [Contains] at hc
      refine ⟨toks1, h1, h2, h3, fun t ht => ?_, ?_⟩
      · rcases h4 t ht with h | h
        · exact Or.inl h
        · exact Or.inr (List.mem_cons_of_mem _ h)
      · constructor
        · intro he
          exact absurd (h5.mp he).1 hne
        · intro he
          exact absurd he.1 hne
    · rw [if_neg hc]
      have hnot : tok ∉ toks := by
        intro hm
        exact hc ((contains_iff _ _).mpr (infix_blank_before toks tok hm))
      have hnd1 : (toks ++ [tok]).Nodup := by
        rw [List.nodup_append]
        refine ⟨hnd, List.nodup_singleton _, ?_⟩
        intro a ha hb
        rw [List.mem_singleton] at hb
        subst hb
        exact hnot ha
      have hw1 : ∀ t ∈ toks ++ [tok], t ≠ [] ∧ ∀ c ∈ t, c ∉ [' '] := by
        intro t ht
        rcases List.mem_append.mp ht with h | h
        · exact hw t h
        · rw [List.mem_singleton] at h
          subst h
          exact htok
      obtain ⟨toks1, h1, h2, h3, h4, h5⟩ := ih1 (toks ++ [tok]) hnd1 hw1
      have heq : toks.flatMap (fun t => ' ' :: t) ++ [' '] ++ tok =
          (toks ++ [tok]).flatMap (fun t => ' ' :: t) := by
        simp [List.flatMap_append, List.flatMap_cons]
      refine ⟨toks1, ?_, h2, h3, fun t ht => ?_, ?_⟩
      · rw [heq]; exact h1
      · rcases h4 t ht with h | h
        · rcases List.mem_append.mp h with h | h
          · exact Or.inl h
          · rw [List.mem_singleton] at h
            subst h
            exact Or.inr (List.mem_cons_self _ _)
        · exact Or.inr (List.mem_cons_of_mem _ h)
      · constructor
        · intro he
          have := (h5.mp he).1
          simp at this
        · intro he
          exact absurd he.2 (List.cons_ne_nil _ _)

/-- The two nested loops of `GetActiveDetectors` are one loop over the
detector tokens of all clusters. -/
theorem foldl_appendDetectors (clusters : List AliTriggerCluster) (init : TString) :
    clusters.foldl (fun acc cluster => appendDetectors acc (Tokenize cluster.fDetectors [' ']))
        init =
      appendDetectors init (clusters.flatMap (fun c => Tokenize c.fDetectors [' '])) := by
  induction clusters generalizing init with
  | nil => rfl
  | cons c cs ih =>
    rw [List.foldl_cons, ih, List.flatMap_cons]
    simp only [appendDetectors, List.foldl_append]

/-- The result of `GetActiveDetectors` in terms of the inner loop. -/
theorem getActiveDetectors_eq (cfg : AliTriggerConfiguration) :
    GetActiveDetectors cfg = appendDetectors [] (clusterDetectors cfg) := by
  unfold GetActiveDetectors clusterDetectors
  by_cases h : cfg.fClusters.length = 0
  · have h0 : cfg.fClusters = [] := List.length_eq_zero.mp h
    simp [h0, appendDetectors]
  · simp only [h, if_false]
    exact foldl_appendDetectors _ _

/-- C30: the tokens of the result of `GetActiveDetectors` are pairwise
different, each of them is a detector token of some cluster, the result is
the empty string exactly when no cluster has a detector token, and a
non-empty result begins with one blank followed by a character that is not a
blank. -/
theorem getActiveDetectors_invariants (cfg : AliTriggerConfiguration) :
    (Tokenize (GetActiveDetectors cfg) [' ']).Nodup ∧
    (∀ t ∈ Tokenize (GetActiveDetectors cfg) [' '],
      ∃ c ∈ cfg.fClusters, t ∈ Tokenize c.fDetectors [' ']) ∧
    (GetActiveDetectors cfg = [] ↔ ∀ c ∈ cfg.fClusters, Tokenize c.fDetectors [' '] = []) ∧
    (GetActiveDetectors cfg ≠ [] →
      ∃ c rest, GetActiveDetectors cfg = ' ' :: c :: rest ∧ c ≠ ' ') := by
  have hdet : ∀ t ∈ clusterDetectors cfg, t ≠ [] ∧ ∀ c ∈ t, c ∉ [' '] := by
    intro t ht
    unfold clusterDetectors at ht
    obtain ⟨c, -, hc⟩ := List.mem_flatMap.mp ht
    have := (mem_tokenize_iff _ _ _).mp hc
    exact ⟨this.1, this.2.1⟩
  obtain ⟨toks1, h1, h2, h3, h4, h5⟩ :=
    appendDetectors_spec (clusterDetectors cfg) hdet [] List.nodup_nil (by simp)
  have hres : GetActiveDetectors cfg = toks1.flatMap (fun t => ' ' :: t) := by
    rw [getActiveDetectors_eq]; exact h1
  have htok : Tokenize (GetActiveDetectors cfg) [' '] = toks1 := by
    rw [hres]; exact tokenize_blank_before toks1 h3
  have hempty : GetActiveDetectors cfg = [] ↔ toks1 = [] := by
    rw [hres]
    cases toks1 with
    | nil => simp
    | cons t ts => simp [List.flatMap_cons]
  refine ⟨?_, ?_, ?_, ?_⟩
  · rw [htok]; exact h2
  · rw [htok]
    intro t ht
    rcases h4 t ht with h | h
    · simp at h
    · unfold clusterDetectors at h
      exact List.mem_flatMap.mp h
  · rw [hempty, h5]
    unfold clusterDetectors
    simp [List.flatMap_eq_nil_iff]
  · intro hne
    cases toks1 with
    | nil => exact absurd (hempty.mpr rfl) hne
    | cons t ts =>
      have ht := h3 t (List.mem_cons_self _ _)
      cases t with
      | nil => exact absurd rfl ht.1
      | cons c cs =>
        refine ⟨c, cs ++ ts.flatMap (fun t => ' ' :: t), ?_, ?_⟩
        · rw [hres]; simp [List.flatMap_cons]
        · intro hc
          exact ht.2 c (List.mem_cons_self _ _) (by simp [hc])

/-! ## The clean-up of `IsSelected` -/

/-- One pass that replaces double blanks by single ones keeps the first
piece and the later tokens of the string. -/
theorem splitAny_collapse (n : Nat) : ∀ s : TString, s.length ≤ n →
    (splitAny [' '] (replaceScan [' ', ' '] [' '] 0 s)).headD [] = (splitAny [' '] s).headD [] ∧
    ((splitAny [' '] (replaceScan [' ', ' '] [' '] 0 s)).tail).filter (fun w => !w.isEmpty) =
      ((splitAny [' '] s).tail).filter (fun w => !w.isEmpty) := by
  induction n with
  | zero =>
    intro s hs
    have : s = [] := List.length_eq_zero.mp (Nat.le_zero.mp hs)
    subst this
    simp [replaceScan]
  | succ n ih =>
    intro s hs
    have htok : ∀ x : TString, x.length ≤ n →
        (splitAny [' '] (replaceScan [' ', ' '] [' '] 0 x)).filter (fun w => !w.isEmpty) =
          (splitAny [' '] x).filter (fun w => !w.isEmpty) := by
      intro x hx
      obtain ⟨h1, h2⟩ := ih x hx
      obtain ⟨a, as, ha⟩ := List.exists_cons_of_ne_nil
        (splitAny_ne_nil [' '] (replaceScan [' ', ' '] [' '] 0 x))
      obtain ⟨b, bs, hb⟩ := List.exists_cons_of_ne_nil (splitAny_ne_nil [' '] x)
      rw [ha, hb] at h1 h2
      simp only [List.headD_cons, List.tail_cons] at h1 h2
      rw [ha, hb, List.filter_cons, List.filter_cons, h1, h2]
    cases s with
    | nil => simp [replaceScan]
    | cons c cs =>
      by_cases hc : c = ' '
      · subst hc
        cases cs with
        | nil => simp [replaceScan, splitAny]
        | cons d ds =>
          by_cases hd : d = ' '
          · subst hd
            have e : replaceScan [' ', ' '] [' '] 0 (' ' :: ' ' :: ds) =
                ' ' :: replaceScan [' ', ' '] [' '] 0 ds := by
              simp [replaceScan]
            rw [e]
            have hlen : ds.length ≤ n := by
              simp only [List.length_cons] at hs; omega
            have := htok ds hlen
            simp only [splitAny, List.mem_singleton, if_true, List.headD_cons, List.tail_cons,
              List.filter_cons, List.isEmpty_nil, Bool.not_true, Bool.false_eq_true, if_false]
            exact ⟨trivial, this⟩
          · have e : replaceScan [' ', ' '] [' '] 0 (' ' :: d :: ds) =
                ' ' :: replaceScan [' ', ' '] [' '] 0 (d :: ds) := by
              have hd1 : ¬ ' ' = d := fun h => hd h.symm
              simp [replaceScan, hd1]
            rw [e]
            have hlen : (d :: ds).length ≤ n := by
              simp only [List.length_cons] at hs ⊢; omega
            have := htok (d :: ds) hlen
            have s1 : ∀ x : TString, splitAny [' '] (' ' :: x) = [] :: splitAny [' '] x := by
              intro x; simp [splitAny]
            rw [s1, s1]
            simp only [List.headD_cons, List.tail_cons]
            exact ⟨trivial, this⟩
      · have e : replaceScan [' ', ' '] [' '] 0 (c :: cs) =
            c :: replaceScan [' ', ' '] [' '] 0 cs := by
          have hc1 : ¬ ' ' = c := fun h => hc h.symm
          simp [replaceScan, hc1]
        rw [e]
        have hlen : cs.length ≤ n := by
          simp only [List.length_cons] at hs; omega
        obtain ⟨h1, h2⟩ := ih cs hlen
        have hcn : c ∉ [' '] := by simpa using hc
        rw [splitAny_cons_of_not_mem [' '] c _ hcn, splitAny_cons_of_not_mem [' '] c _ hcn]
        simp only [List.headD_cons, List.tail_cons]
        exact ⟨by rw [h1], h2⟩

/-- Replacing double blanks by single ones keeps the tokens. -/
theorem tokenize_replaceAll_collapse (s : TString) :
    Tokenize (ReplaceAll s [' ', ' '] [' ']) [' '] = Tokenize s [' '] := by
  obtain ⟨h1, h2⟩ := splitAny_collapse s.length s (Nat.le_refl _)
  have e : ReplaceAll s [' ', ' '] [' '] = replaceScan [' ', ' '] [' '] 0 s := by
    simp [ReplaceAll]
  rw [e]
  unfold Tokenize
  obtain ⟨a, as, ha⟩ := List.exists_cons_of_ne_nil
    (splitAny_ne_nil [' '] (replaceScan [' ', ' '] [' '] 0 s))
  obtain ⟨b, bs, hb⟩ := List.exists_cons_of_ne_nil (splitAny_ne_nil [' '] s)
  rw [ha, hb] at h1 h2
  simp only [List.headD_cons, List.tail_cons] at h1 h2
  rw [ha, hb, List.filter_cons, List.filter_cons, h1, h2]

/-- The first clean-up loop keeps the tokens. -/
theorem tokenize_collapseSpaces (fuel : Nat) (s : TString) :
    Tokenize (collapseSpaces fuel s) [' '] = Tokenize s [' '] := by
  induction fuel generalizing s with
  | zero => rfl
  | succ n ih =>
    unfold collapseSpaces
    split
    · rw [ih, tokenize_replaceAll_collapse]
    · rfl

/-- The second clean-up loop keeps the tokens and leaves a final segment of
the string. -/
theorem stripLeading_spec (fuel : Nat) (s : TString) :
    Tokenize (stripLeading fuel s) [' '] = Tokenize s [' '] ∧ stripLeading fuel s <:+ s := by
  induction fuel generalizing s with
  | zero => exact ⟨rfl, List.suffix_refl _⟩
  | succ n ih =>
    unfold stripLeading
    split
    · rename_i hc
      cases s with
      | nil => simp [BeginsWith] at hc
      | cons c cs =>
        have hcb : c = ' ' := by
          have : ' ' = c := by simpa [BeginsWith] using hc
          exact this.symm
        subst hcb
        have e : Remove (' ' :: cs) 0 1 = cs := by simp [Remove]
        rw [e]
        obtain ⟨h1, h2⟩ := ih cs
        exact ⟨by rw [h1, tokenize_blank_cons], h2.trans (List.suffix_cons _ _)⟩
    · exact ⟨rfl, List.suffix_refl _⟩

/-- A blank at the end of a string adds no token. -/
theorem tokenize_append_blank (x : TString) : Tokenize (x ++ [' ']) [' '] = Tokenize x [' '] := by
  unfold Tokenize
  rw [splitAny_append_delim [' '] x [] ' ' (by simp)]
  simp [splitAny]

/-- The third clean-up loop keeps the tokens and leaves an initial segment
of the string. -/
theorem stripTrailing_spec (fuel : Nat) (s : TString) :
    Tokenize (stripTrailing fuel s) [' '] = Tokenize s [' '] ∧ stripTrailing fuel s <+: s := by
  induction fuel generalizing s with
  | zero => exact ⟨rfl, List.prefix_refl _⟩
  | succ n ih =>
    unfold stripTrailing
    split
    · rename_i hc
      obtain ⟨x, hx⟩ := (endsWith_iff _ _).mp hc
      subst hx
      have e : Remove (x ++ [' ']) ((x ++ [' ']).length - 1) 1 = x := by
        simp [Remove]
      rw [e]
      obtain ⟨h1, h2⟩ := ih x
      exact ⟨by rw [h1, tokenize_append_blank], h2.trans (List.prefix_append _ _)⟩
    · exact ⟨rfl, List.prefix_refl _⟩

/-- The clean-up of `IsSelected` keeps the tokens and leaves a string
without a double blank, without a blank at its beginning and without a blank
at its end. -/
theorem cleanUp_spec (s : TString) :
    Tokenize (cleanUp s) [' '] = Tokenize s [' '] ∧
    Contains (cleanUp s) [' ', ' '] = false ∧
    BeginsWith (cleanUp s) [' '] = false ∧
    EndsWith (cleanUp s) [' '] = false := by
  have hs1 := collapseSpaces_exit s.length s (Nat.le_refl _)
  have hs2 := stripLeading_exit (collapseSpaces s.length s).length (collapseSpaces s.length s)
    (Nat.le_refl _)
  obtain ⟨hl1, hl2⟩ := stripLeading_spec (collapseSpaces s.length s).length
    (collapseSpaces s.length s)
  generalize hs1d : collapseSpaces s.length s = s1 at hs1 hs2 hl1 hl2
  generalize hs2d : stripLeading s1.length s1 = s2 at hs2 hl1 hl2
  have hs3 := stripTrailing_exit s2.length s2 (Nat.le_refl _)
  obtain ⟨ht1, ht2⟩ := stripTrailing_spec s2.length s2
  have hclean : cleanUp s = stripTrailing s2.length s2 := by
    simp only [cleanUp, hs1d, hs2d]
  rw [hclean]
  refine ⟨?_, ?_, ?_, hs3⟩
  · rw [ht1, hl1, ← hs1d, tokenize_collapseSpaces]
  · cases hc : Contains (stripTrailing s2.length s2) [' ', ' '] with
    | false => rfl
    | true =>
      have h1 : [' ', ' '] <:+: s1 :=
        ((contains_iff _ _).mp hc).trans (ht2.isInfix.trans hl2.isInfix)
      rw [(contains_iff _ _).mpr h1] at hs1
      exact absurd hs1 (by decide)
  · cases hc : BeginsWith (stripTrailing s2.length s2) [' '] with
    | false => rfl
    | true =>
      have h1 : [' '] <+: s2 := ((beginsWith_iff _ _).mp hc).trans ht2
      rw [(beginsWith_iff _ _).mpr h1] at hs2
      exact absurd hs2 (by decide)

/-- A string without a double blank, without a blank at its beginning and
without a blank at its end is left as it is by the clean-up. -/
theorem cleanUp_fixed (s : TString) (h1 : Contains s [' ', ' '] = false)
    (h2 : BeginsWith s [' '] = false) (h3 : EndsWith s [' '] = false) : cleanUp s = s := by
  have e1 : ∀ fuel, collapseSpaces fuel s = s := by
    intro fuel
    cases fuel with
    | zero => rfl
    | succ n => simp [collapseSpaces, h1]
  have e2 : ∀ fuel, stripLeading fuel s = s := by
    intro fuel
    cases fuel with
    | zero => rfl
    | succ n => simp [stripLeading, h2]
  have e3 : ∀ fuel, stripTrailing fuel s = s := by
    intro fuel
    cases fuel with
    | zero => rfl
    | succ n => simp [stripTrailing, h3]
  simp only [cleanUp, e1, e2, e3]

/-- When neither `ALL` nor the name passes the four-way test, `IsSelected`
returns false and cleans the list up. -/
theorem isSelected_miss (detName detectors : TString)
    (hall : standaloneTest "ALL".toList detectors = false)
    (hname : standaloneTest detName detectors = false) :
    IsSelected detName detectors = (false, cleanUp detectors) := by
  unfold IsSelected
  have e1 : (detectors == "ALL".toList || BeginsWith detectors "ALL ".toList ||
      EndsWith detectors " ALL".toList || Contains detectors " ALL ".toList)
      = standaloneTest "ALL".toList detectors := rfl
  have e2 : (detectors == detName || BeginsWith detectors (detName ++ [' ']) ||
        EndsWith detectors ([' '] ++ detName) ||
        Contains detectors ([' '] ++ detName ++ [' '])) = standaloneTest detName detectors := rfl
  rw [e1, e2, hall, hname]
  rfl

/-- A non-empty word without blanks that is no token of the list fails the
four-way test. -/
theorem standaloneTest_of_not_token (w s : TString) (hne : w ≠ []) (hsp : ' ' ∉ w)
    (h : w ∉ Tokenize s [' ']) : standaloneTest w s = false := by
  cases ht : standaloneTest w s with
  | false => rfl
  | true =>
    exfalso
    apply h
    rw [mem_tokenize_iff]
    refine ⟨hne, ?_, (standaloneTest_iff w s).mp ht⟩
    intro c hc hm
    rw [List.mem_singleton] at hm
    exact hsp (hm ▸ hc)

/-- C29 (fails as stated): the name `A B` is no token of the list `A B`,
which has no token `ALL`; yet `IsSelected` finds the list equal to the name,
returns true and leaves the empty list, whose tokens are not those of the
original. -/
theorem isSelected_name_with_blank :
    "A B".toList ≠ [] ∧
    "ALL".toList ∉ Tokenize "A B".toList [' '] ∧
    "A B".toList ∉ Tokenize "A B".toList [' '] ∧
    IsSelected "A B".toList "A B".toList = (true, []) ∧
    Tokenize (IsSelected "A B".toList "A B".toList).2 [' '] ≠ Tokenize "A B".toList [' '] := by
  decide

/-- C29, amended: for a detector list without the token `ALL` and a non-empty
name without blanks that is no token of the list, `IsSelected` returns false
and leaves the list cleaned up by its three loops, each of which ends on its
own condition; the list left has the tokens of the original in their order,
no blank at its beginning, no blank at its end and no double blank, and a
second call with the same name returns false again and leaves it as it is. -/
theorem isSelected_miss_normalises (detName detectors : TString) (hne : detName ≠ [])
    (hsp : ' ' ∉ detName) (hall : "ALL".toList ∉ Tokenize detectors [' '])
    (hmiss : detName ∉ Tokenize detectors [' ']) :
    IsSelected detName detectors = (false, cleanUp detectors) ∧
    Contains (collapseSpaces detectors.length detectors) [' ', ' '] = false ∧
    BeginsWith (stripLeading (collapseSpaces detectors.length detectors).length
      (collapseSpaces detectors.length detectors)) [' '] = false ∧
    Tokenize (IsSelected detName detectors).2 [' '] = Tokenize detectors [' '] ∧
    BeginsWith (IsSelected detName detectors).2 [' '] = false ∧
    EndsWith (IsSelected detName detectors).2 [' '] = false ∧
    Contains (IsSelected detName detectors).2 [' ', ' '] = false ∧
    IsSelected detName (IsSelected detName detectors).2 =
      (false, (IsSelected detName detectors).2) := by
  have h1 : IsSelected detName detectors = (false, cleanUp detectors) :=
    isSelected_miss detName detectors
      (standaloneTest_of_not_token _ _ (by decide) (by decide) hall)
      (standaloneTest_of_not_token _ _ hne hsp hmiss)
  obtain ⟨c1, c2, c3, c4⟩ := cleanUp_spec detectors
  have h2 : IsSelected detName (cleanUp detectors) = (false, cleanUp (cleanUp detectors)) :=
    isSelected_miss detName (cleanUp detectors)
      (standaloneTest_of_not_token _ _ (by decide) (by decide) (by rw [c1]; exact hall))
      (standaloneTest_of_not_token _ _ hne hsp (by rw [c1]; exact hmiss))
  rw [h1]
  refine ⟨rfl, collapseSpaces_exit _ _ (Nat.le_refl _), stripLeading_exit _ _ (Nat.le_refl _),
    c1, c3, c4, c2, ?_⟩
  simp only
  rw [h2, cleanUp_fixed _ c2 c3 c4]

/-- C29 at the list `  VZERO   ZDC ` and the name `MUON`: the list left is
`VZERO ZDC`. -/
theorem isSelected_miss_normalises_witness :
    IsSelected "MUON".toList "  VZERO   ZDC ".toList = (false, cleanUp "  VZERO   ZDC ".toList) ∧
    cleanUp "  VZERO   ZDC ".toList = "VZERO ZDC".toList ∧
    Tokenize (IsSelected "MUON".toList "  VZERO   ZDC ".toList).2 [' '] =
      Tokenize "  VZERO   ZDC ".toList [' '] ∧
    IsSelected "MUON".toList (IsSelected "MUON".toList "  VZERO   ZDC ".toList).2 =
      (false, (IsSelected "MUON".toList "  VZERO   ZDC ".toList).2) :=
  have h := isSelected_miss_normalises "MUON".toList "  VZERO   ZDC ".toList (by decide)
    (by decide) (by decide) (by decide)
  ⟨h.1, by decide, h.2.2.2.1, h.2.2.2.2.2.2.2⟩

/-! ## Reachable configurations and what the parser adds -/

/-- The overload of `AddInteraction` by values changes the configuration as
the add of the built object does. -/
theorem addInteractionNew_snd (K : Collaborators) (cfg : AliTriggerConfiguration)
    (name logic : TString) :
    (AddInteractionNew K cfg name logic).2 = (AddInteraction K cfg ⟨name, logic⟩).2 := by
  unfold AddInteractionNew
  dsimp only
  split <;> rfl

/-- A result with the old configuration is a step of the parser. -/
theorem stepsBy_same (K : Collaborators) (cfg : AliTriggerConfiguration) (ts : List TString)
    (b : Bool) (level : Int) : StepsBy K cfg ts (some (b, cfg, level)) := by
  intro b1 c1 l1 h
  cases h
  exact Or.inl rfl

/-- A result with the configuration after an add call of the parser is a
step of the parser. -/
theorem stepsBy_call (K : Collaborators) (cfg : AliTriggerConfiguration) (ts : List TString)
    (call : AddCall) (hcall : ParsedCall ts call) (b : Bool) (level : Int) :
    StepsBy K cfg ts (some (b, call.run K cfg, level)) := by
  intro b1 c1 l1 h
  cases h
  exact Or.inr ⟨call, hcall, rfl⟩

/-- A token lookup in front of a step of the parser. -/
theorem stepsBy_bind {α : Type} (K : Collaborators) (cfg : AliTriggerConfiguration)
    (ts : List TString) (x : Option α) (f : α → LineResult)
    (h : ∀ a, StepsBy K cfg ts (f a)) : StepsBy K cfg ts (x >>= f) := by
  cases x with
  | none => intro b c l hh; cases hh
  | some a => exact h a

/-- The inputs case is a step of the parser. -/
theorem processInputs_step (K : Collaborators) (cfg : AliTriggerConfiguration)
    (ts : List TString) (level : Int) : StepsBy K cfg ts (processInputs cfg ts level) := by
  unfold processInputs
  split
  · exact stepsBy_same _ _ _ _ _
  · rename_i hlen
    have hlen5 : ts.length = 5 := by
      by_contra hc; exact hlen hc
    match ts, hlen5 with
    | [a, b, c, d, e], _ =>
      simp only [At, List.get?_cons_zero, List.get?_cons_succ, Option.bind_eq_bind,
        Option.some_bind, addInputNew_snd]
      exact stepsBy_call K cfg _ (.input ⟨a, b, _, _, _⟩) ⟨c, d, e, rfl, rfl, rfl, rfl⟩ _ _

/-- The interactions case is a step of the parser. -/
theorem processInteractions_step (K : Collaborators) (cfg : AliTriggerConfiguration)
    (ts : List TString) (level : Int) :
    StepsBy K cfg ts (processInteractions K cfg ts level) := by
  unfold processInteractions
  split
  · exact stepsBy_same _ _ _ _ _
  · apply stepsBy_bind; intro t0
    apply stepsBy_bind; intro t1
    simp only [addInteractionNew_snd]
    exact stepsBy_call K cfg _ (.interaction ⟨t0, t1⟩) trivial _ _

/-- The descriptors case is a step of the parser. -/
theorem processDescriptors_step (K : Collaborators) (cfg : AliTriggerConfiguration)
    (strLine : TString) (ts : List TString) (level : Int) :
    StepsBy K cfg ts (processDescriptors K cfg strLine ts level) := by
  unfold processDescriptors
  apply stepsBy_bind
  intro t0
  simp only [addDescriptorNew_snd, addFunctionNew_snd]
  split_ifs
  · exact stepsBy_call K cfg _ (.descriptor ⟨t0, _⟩) trivial _ _
  · exact stepsBy_same _ _ _ _ _
  · exact stepsBy_call K cfg _ (.function ⟨t0, _⟩) trivial _ _
  · exact stepsBy_call K cfg _ (.descriptor ⟨t0, _⟩) trivial _ _

/-- The clusters case is a step of the parser. -/
theorem processClusters_step (K : Collaborators) (cfg : AliTriggerConfiguration)
    (ts : List TString) (level : Int) : StepsBy K cfg ts (processClusters cfg ts level) := by
  unfold processClusters
  split
  · exact stepsBy_same _ _ _ _ _
  · rename_i hlen
    match ts, hlen with
    | [], h => exact absurd (by simp) h
    | [a], h => exact absurd (by simp) h
    | a :: b :: rest, _ =>
      simp only [At, List.get?_cons_zero, List.get?_cons_succ, Option.bind_eq_bind,
        Option.some_bind, addClusterNew_snd, joinDetectors_eq]
      exact stepsBy_call K cfg _ (.cluster ⟨a, _, _⟩) ⟨b, rest, rfl, rfl, rfl⟩ _ _

/-- The protections case is a step of the parser. -/
theorem processPFs_step (K : Collaborators) (cfg : AliTriggerConfiguration)
    (ts : List TString) (level : Int) : StepsBy K cfg ts (processPFs K cfg ts level) := by
  unfold processPFs
  apply stepsBy_bind
  intro t0
  split
  · exact stepsBy_call K cfg _ (.pfProtection _) trivial _ _
  · split
    · exact stepsBy_same _ _ _ _ _
    · repeat (first
        | exact stepsBy_call K cfg _ (.pfProtection _) trivial _ _
        | (apply stepsBy_bind; intro _))

/-- The masks case is a step of the parser. -/
theorem processBCMasks_step (K : Collaborators) (cfg : AliTriggerConfiguration)
    (ts : List TString) (level : Int) : StepsBy K cfg ts (processBCMasks cfg ts level) := by
  unfold processBCMasks
  split
  · exact stepsBy_same _ _ _ _ _
  · apply stepsBy_bind
    intro t0
    split
    · exact stepsBy_call K cfg _ (.mask _) trivial _ _
    · apply stepsBy_bind
      intro t1
      simp only [addMaskNew_snd]
      exact stepsBy_call K cfg _ (.mask ⟨t0, t1⟩) trivial _ _

/-- The classes case is a step of the parser. -/
theorem processClasses_step (K : Collaborators) (cfg : AliTriggerConfiguration)
    (ts : List TString) (level : Int) : StepsBy K cfg ts (processClasses K cfg ts level) := by
  unfold processClasses
  split
  · exact stepsBy_same _ _ _ _ _
  · repeat (first
      | exact stepsBy_call K cfg _ (.trclass _) trivial _ _
      | (apply stepsBy_bind; intro _))

/-- The switch is a step of the parser. -/
theorem processTokens_step (K : Collaborators) (cfg : AliTriggerConfiguration)
    (strLine : TString) (ts : List TString) (level : Int) :
    StepsBy K cfg ts (processTokens K cfg strLine ts level) := by
  unfold processTokens
  split_ifs
  · exact processInputs_step _ _ _ _
  · exact processInteractions_step _ _ _ _
  · exact processDescriptors_step _ _ _ _ _
  · exact processClusters_step _ _ _ _
  · exact processPFs_step _ _ _ _
  · exact processBCMasks_step _ _ _ _
  · exact processClasses_step _ _ _ _
  · exact stepsBy_same _ _ _ _ _

/-- Whatever `ProcessConfigurationLine` returns, it has left the
configuration alone, set its name, set its version or made one add call. -/
theorem processConfigurationLine_step (K : Collaborators) (cfg : AliTriggerConfiguration)
    (line : TString) (level : Int) (b : Bool) (cfg1 : AliTriggerConfiguration) (level1 : Int)
    (h : ProcessConfigurationLine K cfg line level = some (b, cfg1, level1)) :
    ParserStep K cfg line cfg1 := by
  by_cases hs : isSpecialLine line = false
  · rw [processConfigurationLine_data K cfg line level hs] at h
    split at h
    · cases h; exact Or.inl rfl
    · rcases processTokens_step K cfg _ _ level b cfg1 level1 h with h1 | h1
      · exact Or.inl h1
      · exact Or.inr (Or.inr (Or.inr h1))
  · unfold ProcessConfigurationLine at h
    dsimp only at h
    by_cases h0 : BeginsWith line "#".toList = true
    · rw [if_pos h0] at h; cases h; exact Or.inl rfl
    rw [if_neg h0] at h
    by_cases h1 : BeginsWith line "PARTITION:".toList = true
    · rw [if_pos h1] at h; cases h; exact Or.inr (Or.inl rfl)
    rw [if_neg h1] at h
    by_cases h2 : BeginsWith line "VERSION:".toList = true
    · rw [if_pos h2] at h; cases h; exact Or.inr (Or.inr (Or.inl rfl))
    rw [if_neg h2] at h
    by_cases h3 : BeginsWith line "INPUTS:".toList = true
    · rw [if_pos h3] at h; cases h; exact Or.inl rfl
    rw [if_neg h3] at h
    by_cases h4 : BeginsWith line "INTERACTIONS:".toList = true
    · rw [if_pos h4] at h; cases h; exact Or.inl rfl
    rw [if_neg h4] at h
    by_cases h5 : BeginsWith line "DESCRIPTORS:".toList = true
    · rw [if_pos h5] at h; cases h; exact Or.inl rfl
    rw [if_neg h5] at h
    by_cases h6 : BeginsWith line "CLUSTERS:".toList = true
    · rw [if_pos h6] at h; cases h; exact Or.inl rfl
    rw [if_neg h6] at h
    by_cases h7 : BeginsWith line "PFS:".toList = true
    · rw [if_pos h7] at h; cases h; exact Or.inl rfl
    rw [if_neg h7] at h
    by_cases h8 : BeginsWith line "BCMASKS:".toList = true
    · rw [if_pos h8] at h; cases h; exact Or.inl rfl
    rw [if_neg h8] at h
    by_cases h9 : BeginsWith line "CLASSES:".toList = true
    · rw [if_pos h9] at h; cases h; exact Or.inl rfl
    exfalso
    apply hs
    simp only [isSpecialLine, Bool.or_eq_false_iff]
    simp only [Bool.not_eq_true] at h0 h1 h2 h3 h4 h5 h6 h7 h8 h9
    exact ⟨⟨⟨⟨⟨⟨⟨⟨⟨h0, h1⟩, h2⟩, h3⟩, h4⟩, h5⟩, h6⟩, h7⟩, h8⟩, h9⟩

/-- An add call leaves the clusters alone or appends one cluster with a
non-empty detector list to fewer than `kNMaxClusters` clusters. -/
theorem addCall_clusters (K : Collaborators) (cfg : AliTriggerConfiguration) (call : AddCall) :
    (call.run K cfg).fClusters = cfg.fClusters ∨
    ∃ x, call = .cluster x ∧ x.fDetectors ≠ [] ∧ cfg.fClusters.length < kNMaxClusters ∧
      (call.run K cfg).fClusters = cfg.fClusters ++ [x] := by
  cases call with
  | cluster x =>
    simp only [AddCall.run, AddCluster]
    by_cases h1 : cfg.fClusters.length < kNMaxClusters
    · rw [if_pos h1]
      cases hd : x.fDetectors with
      | nil => left; simp
      | cons c cs =>
        right
        refine ⟨x, rfl, ?_, h1, ?_⟩
        · rw [hd]; exact List.cons_ne_nil _ _
        · simp
    · rw [if_neg h1]; left; rfl
  | input x => left; simp only [AddCall.run, AddInput]; split <;> rfl
  | interaction x =>
    left; simp only [AddCall.run, AddInteraction]; (split <;> try split) <;> rfl
  | function x =>
    left; simp only [AddCall.run, AddFunction]; (split <;> try split) <;> rfl
  | descriptor x =>
    left; simp only [AddCall.run, AddDescriptor]; (split <;> try split) <;> rfl
  | pfProtection x =>
    left; simp only [AddCall.run, AddPFProtection]; (split <;> try split) <;> rfl
  | mask x => left; simp only [AddCall.run, AddMask]; split <;> rfl
  | trclass x =>
    left; simp only [AddCall.run, AddClass]; (split <;> try split) <;> rfl
  | classByName n i d c p m ps ar =>
    left
    simp only [AddCall.run, AddClassByName, AddClass]
    split_ifs <;> rfl

/-- An add call leaves the inputs alone or appends its input. -/
theorem addCall_inputs (K : Collaborators) (cfg : AliTriggerConfiguration) (call : AddCall) :
    (call.run K cfg).fInputs = cfg.fInputs ∨
    ∃ x, call = .input x ∧ (call.run K cfg).fInputs = cfg.fInputs ++ [x] := by
  cases call with
  | input x =>
    simp only [AddCall.run, AddInput]
    split
    · right; exact ⟨x, rfl, rfl⟩
    · left; rfl
  | cluster x =>
    left; simp only [AddCall.run, AddCluster]; (split <;> try split) <;> rfl
  | interaction x =>
    left; simp only [AddCall.run, AddInteraction]; (split <;> try split) <;> rfl
  | function x =>
    left; simp only [AddCall.run, AddFunction]; (split <;> try split) <;> rfl
  | descriptor x =>
    left; simp only [AddCall.run, AddDescriptor]; (split <;> try split) <;> rfl
  | pfProtection x =>
    left; simp only [AddCall.run, AddPFProtection]; (split <;> try split) <;> rfl
  | mask x => left; simp only [AddCall.run, AddMask]; split <;> rfl
  | trclass x =>
    left; simp only [AddCall.run, AddClass]; (split <;> try split) <;> rfl
  | classByName n i d c p m ps ar =>
    left
    simp only [AddCall.run, AddClassByName, AddClass]
    split_ifs <;> rfl

/-- An add call keeps the cluster invariant. -/
theorem clusterInvariant_run (K : Collaborators) (cfg : AliTriggerConfiguration)
    (call : AddCall) (h : ClusterInvariant cfg) : ClusterInvariant (call.run K cfg) := by
  obtain ⟨h1, h2⟩ := h
  rcases addCall_clusters K cfg call with he | ⟨x, -, hx, hlt, he⟩
  · unfold ClusterInvariant; rw [he]; exact ⟨h1, h2⟩
  · unfold ClusterInvariant; rw [he]
    refine ⟨fun c hc => ?_, ?_⟩
    · rcases List.mem_append.mp hc with hc | hc
      · exact h1 c hc
      · rw [List.mem_singleton] at hc; subst hc; exact hx
    · rw [List.length_append, List.length_singleton]; omega

/-- A returned call of the parser keeps the cluster invariant. -/
theorem clusterInvariant_step (K : Collaborators) (cfg : AliTriggerConfiguration)
    (line : TString) (cfg1 : AliTriggerConfiguration) (hs : ParserStep K cfg line cfg1)
    (h : ClusterInvariant cfg) : ClusterInvariant cfg1 := by
  rcases hs with rfl | rfl | rfl | ⟨call, -, rfl⟩
  · exact h
  · exact h
  · exact h
  · exact clusterInvariant_run K cfg call h

/-- Every reachable configuration has the cluster invariant. -/
theorem clusterInvariant_reachable (K : Collaborators) (cfg : AliTriggerConfiguration)
    (h : Reachable K cfg) : ClusterInvariant cfg := by
  induction h with
  | empty =>
    exact ⟨fun c hc => by simp [AliTriggerConfiguration.empty] at hc,
      by simp [AliTriggerConfiguration.empty]⟩
  | add cfg call _ ih => exact clusterInvariant_run K cfg call ih
  | parsed cfg str level b cfg1 level1 _ hp ih =>
    exact clusterInvariant_step K cfg str cfg1
      (processConfigurationLine_step K cfg str level b cfg1 level1 hp) ih

/-- A sequence of add calls leads from a reachable configuration to a
reachable one. -/
theorem reachable_runAddCalls (K : Collaborators) (calls : List AddCall)
    (cfg : AliTriggerConfiguration) (h : Reachable K cfg) :
    Reachable K (runAddCalls K calls cfg) := by
  induction calls generalizing cfg with
  | nil => exact h
  | cons c cs ih => exact ih _ (Reachable.add cfg c h)

/-- What every returned call of the parser keeps holds for the configuration
that the loop over the lines returns. -/
theorem loadLines_keeps (K : Collaborators) (P : AliTriggerConfiguration → Prop)
    (hstep : ∀ cfg str level b cfg1 level1,
      ProcessConfigurationLine K cfg str level = some (b, cfg1, level1) → P cfg → P cfg1)
    (lines : List TString) : ∀ (cfg : AliTriggerConfiguration) (level : Int)
      (cfg1 : AliTriggerConfiguration),
      loadLines K lines cfg level = some (some cfg1) → P cfg → P cfg1 := by
  induction lines with
  | nil =>
    intro cfg level cfg1 h hP
    simp only [loadLines, Option.some.injEq] at h
    subst h
    exact hP
  | cons l ls ih =>
    intro cfg level cfg1 h hP
    cases hp : ProcessConfigurationLine K cfg l level with
    | none => simp [loadLines, hp] at h
    | some r =>
      obtain ⟨b, c, lv⟩ := r
      cases b with
      | false => simp [loadLines, hp] at h
      | true =>
        have hl : loadLines K (l :: ls) cfg level = loadLines K ls c lv := by
          simp [loadLines, hp]
        rw [hl] at h
        exact ih c lv cfg1 h (hstep cfg l level true c lv hp hP)

/-- C21: every configuration reachable from the empty one by add calls and by
lines given to the parser has only clusters with a non-empty detector list,
and at most 6 of them; so has the configuration after any sequence of add
calls on the empty one and every configuration that
`LoadConfigurationFromString` returns; and `AddCluster` returns false for a
cluster with an empty detector list and leaves the configuration as it is. -/
theorem cluster_invariant (K : Collaborators) :
    (∀ cfg, Reachable K cfg →
      (∀ c ∈ cfg.fClusters, c.fDetectors ≠ []) ∧ cfg.fClusters.length ≤ 6) ∧
    (∀ calls : List AddCall,
      (∀ c ∈ (runAddCalls K calls AliTriggerConfiguration.empty).fClusters, c.fDetectors ≠ []) ∧
      (runAddCalls K calls AliTriggerConfiguration.empty).fClusters.length ≤ 6) ∧
    (∀ text cfg, LoadConfigurationFromString K (some text) = some (some cfg) →
      (∀ c ∈ cfg.fClusters, c.fDetectors ≠ []) ∧ cfg.fClusters.length ≤ 6) ∧
    (∀ cfg x, x.fDetectors = [] → AddCluster cfg x = (false, cfg)) := by
  refine ⟨fun cfg h => clusterInvariant_reachable K cfg h, fun calls => ?_,
    fun text cfg h => ?_, fun cfg x hx => ?_⟩
  · exact clusterInvariant_reachable K _ (reachable_runAddCalls K calls _ Reachable.empty)
  · have hr : Reachable K cfg :=
      loadLines_keeps K (Reachable K)
        (fun c str level b c1 l1 hp hc => Reachable.parsed c str level b c1 l1 hc hp)
        _ _ _ _ h Reachable.empty
    exact clusterInvariant_reachable K cfg hr
  · unfold AddCluster
    simp only [hx, List.isEmpty_nil, Bool.not_true, Bool.false_eq_true, if_false]
    split <;> rfl

/-- A detector list that the parser joined and that is not empty ends with a
blank. -/
theorem endsWith_flatMap_blank (rest : List TString)
    (h : rest.flatMap (fun tok => tok ++ [' ']) ≠ []) :
    EndsWith (rest.flatMap (fun tok => tok ++ [' '])) [' '] = true := by
  rw [endsWith_iff]
  rcases List.eq_nil_or_concat rest with rfl | ⟨init, last, rfl⟩
  · exact absurd rfl h
  · refine ⟨init.flatMap (fun tok => tok ++ [' ']) ++ last, ?_⟩
    simp [List.flatMap_append, List.flatMap_cons]

/-- A token of a line is not empty and has neither blank nor tab. -/
theorem token_of_line (s w : TString) (h : w ∈ Tokenize s " \t".toList) :
    w ≠ [] ∧ ' ' ∉ w ∧ '\t' ∉ w := by
  obtain ⟨h1, h2, -⟩ := (mem_tokenize_iff _ _ _).mp h
  exact ⟨h1, fun hc => h2 ' ' hc (by decide), fun hc => h2 '\t' hc (by decide)⟩

/-- A returned call of the parser keeps the parsed form. -/
theorem parsedForm_step (K : Collaborators) (cfg : AliTriggerConfiguration)
    (line : TString) (cfg1 : AliTriggerConfiguration) (hs : ParserStep K cfg line cfg1)
    (h : ParsedForm cfg) : ParsedForm cfg1 := by
  rcases hs with rfl | rfl | rfl | ⟨call, hcall, rfl⟩
  · exact h
  · exact h
  · exact h
  · obtain ⟨h1, h2⟩ := h
    refine ⟨?_, ?_⟩
    · rcases addCall_clusters K cfg call with he | ⟨x, hx, hne, -, he⟩
      · rw [he]; exact h1
      · rw [he]
        intro c hc
        rcases List.mem_append.mp hc with hc | hc
        · exact h1 c hc
        · rw [List.mem_singleton] at hc
          subst hc
          subst hx
          obtain ⟨t1, rest, htok, hidx, hdet⟩ := hcall
          have hmem : c.fName ∈ Tokenize (normalizeLine line) " \t".toList := by
            rw [htok]; exact List.mem_cons_self _ _
          obtain ⟨n1, n2, n3⟩ := token_of_line _ _ hmem
          refine ⟨?_, n1, n2, n3, ?_⟩
          · rw [hdet] at hne ⊢
            exact endsWith_flatMap_blank rest hne
          · rw [hidx]; unfold toUChar_t; omega
    · rcases addCall_inputs K cfg call with he | ⟨x, hx, he⟩
      · rw [he]; exact h2
      · rw [he]
        intro y hy
        rcases List.mem_append.mp hy with hy | hy
        · exact h2 y hy
        · rw [List.mem_singleton] at hy
          subst hy
          subst hx
          obtain ⟨t2, t3, t4, htok, hl, hsg, hn⟩ := hcall
          have hmem : y.fName ∈ Tokenize (normalizeLine line) " \t".toList := by
            rw [htok]; exact List.mem_cons_self _ _
          obtain ⟨n1, n2, n3⟩ := token_of_line _ _ hmem
          refine ⟨n1, n2, n3, ?_, ?_, ?_⟩
          · rw [hl]; unfold toUChar_t; omega
          · rw [hsg]; unfold toUInt_t; omega
          · rw [hn]; unfold toUChar_t; omega

/-- Every configuration that `LoadConfigurationFromString` returns has the
parsed form. -/
theorem parsedForm_load (K : Collaborators) (text : TString) (cfg : AliTriggerConfiguration)
    (h : LoadConfigurationFromString K (some text) = some (some cfg)) : ParsedForm cfg := by
  refine loadLines_keeps K ParsedForm
    (fun c str level b c1 l1 hp hc =>
      parsedForm_step K c str c1 (processConfigurationLine_step K c str level b c1 l1 hp) hc)
    _ _ _ _ h ?_
  exact ⟨fun c hc => by simp [AliTriggerConfiguration.empty] at hc,
    fun x hx => by simp [AliTriggerConfiguration.empty] at hx⟩

/-! ## The text format written out and read back -/

/-- A decimal digit character is a digit, has the value of its digit and is
none of the characters with a meaning in the text format. -/
theorem digitChar_spec (d : Nat) (h : d < 10) :
    (Nat.digitChar d).isDigit = true ∧ (Nat.digitChar d).toNat - 48 = d ∧
    isSpaceC (Nat.digitChar d) = false ∧
    Nat.digitChar d ∉ " \t\n*~+-VERSION:".toList := by
  interval_cases d <;> decide

/-- Reading one decimal digit. -/
theorem digitsValue_digitChar (d : Nat) (h : d < 10) (rest : TString) (acc : Nat) :
    digitsValue (Nat.digitChar d :: rest) acc = digitsValue rest (acc * 10 + d) := by
  have hd := digitChar_spec d h
  simp only [digitsValue, hd.1, if_true, hd.2.1]

/-- The digits that `Nat.toDigitsCore` puts in front of `ds` are read back by
`digitsValue` as the number. -/
theorem toDigitsCore_spec (fuel : Nat) : ∀ (n : Nat) (ds : List Char), n < fuel →
    ∃ pre, Nat.toDigitsCore 10 fuel n ds = pre ++ ds ∧ pre ≠ [] ∧
      (∀ c ∈ pre, ∃ d, d < 10 ∧ c = Nat.digitChar d) ∧
      ∀ acc rest, digitsValue (pre ++ rest) acc = digitsValue rest (acc * 10 ^ pre.length + n) := by
  induction fuel with
  | zero => intro n ds h; exact absurd h (Nat.not_lt_zero _)
  | succ fuel ih =>
    intro n ds hn
    have hd := digitChar_spec (n % 10) (Nat.mod_lt _ (by decide))
    unfold Nat.toDigitsCore
    dsimp only
    by_cases h0 : n / 10 = 0
    · rw [if_pos h0]
      refine ⟨[Nat.digitChar (n % 10)], rfl, by simp, ?_, ?_⟩
      · intro c hc
        rw [List.mem_singleton] at hc
        exact ⟨n % 10, Nat.mod_lt _ (by decide), hc⟩
      · intro acc rest
        have hn10 : n % 10 = n := by omega
        rw [List.singleton_append, digitsValue_digitChar _ (Nat.mod_lt _ (by decide)),
          List.length_singleton, pow_one, hn10]
    · rw [if_neg h0]
      have hlt : n / 10 < fuel := by omega
      obtain ⟨pre, h1, h2, h3, h4⟩ := ih (n / 10) (Nat.digitChar (n % 10) :: ds) hlt
      refine ⟨pre ++ [Nat.digitChar (n % 10)], ?_, by simp, ?_, ?_⟩
      · rw [h1]; simp
      · intro c hc
        rcases List.mem_append.mp hc with hc | hc
        · exact h3 c hc
        · rw [List.mem_singleton] at hc
          exact ⟨n % 10, Nat.mod_lt _ (by decide), hc⟩
      · intro acc rest
        rw [List.append_assoc, h4 acc ([Nat.digitChar (n % 10)] ++ rest),
          List.singleton_append, digitsValue_digitChar _ (Nat.mod_lt _ (by decide)),
          List.length_append, List.length_singleton]
        congr 1
        have := Nat.div_add_mod n 10
        rw [pow_succ]
        nlinarith [this]

/-- The decimal numeral of a number is not empty, consists of digits, and is
read back by `digitsValue` as the number. -/
theorem showNat_spec (n : Nat) :
    showNat n ≠ [] ∧ (∀ c ∈ showNat n, ∃ d, d < 10 ∧ c = Nat.digitChar d) ∧
    ∀ acc rest, digitsValue (showNat n ++ rest) acc =
      digitsValue rest (acc * 10 ^ (showNat n).length + n) := by
  obtain ⟨pre, h1, h2, h3, h4⟩ := toDigitsCore_spec (n + 1) n [] (Nat.lt_succ_self n)
  have e : showNat n = pre := by
    unfold showNat Nat.toDigits
    rw [h1, List.append_nil]
  rw [e]
  exact ⟨h2, h3, h4⟩

/-- No character of a decimal numeral has a meaning in the text format. -/
theorem showNat_plain (n : Nat) (c : Char) (hc : c ∈ showNat n) :
    c.isDigit = true ∧ isSpaceC c = false ∧ c ∉ " \t\n*~+-VERSION:".toList := by
  obtain ⟨d, hd, rfl⟩ := (showNat_spec n).2.1 c hc
  have := digitChar_spec d hd
  exact ⟨this.1, this.2.2.1, this.2.2.2⟩

/-- The number that `strtol` reads from a decimal numeral. -/
theorem atoiValue_showNat (n : Nat) : atoiValue (showNat n) = n := by
  obtain ⟨hne, -, hval⟩ := showNat_spec n
  have hv : digitsValue (showNat n) 0 = n := by
    have := hval 0 []
    simpa [digitsValue] using this
  have hpl := showNat_plain n
  cases hs : showNat n with
  | nil => exact absurd hs hne
  | cons c cs =>
    rw [hs] at hv hpl
    obtain ⟨-, hsp, hch⟩ := hpl c (List.mem_cons_self _ _)
    have hm : c ≠ '-' := fun e => hch (by rw [e]; decide)
    have hp : c ≠ '+' := fun e => hch (by rw [e]; decide)
    unfold atoiValue
    have hdrop : List.dropWhile isSpaceC (c :: cs) = c :: cs := by
      simp [List.dropWhile, hsp]
    rw [hdrop]
    split
    · rename_i heq
      simp only [List.cons.injEq] at heq
      exact absurd heq.1 hm
    · rename_i heq
      simp only [List.cons.injEq] at heq
      exact absurd heq.1 hp
    · rw [hv]

/-- The number that `strtol` reads from the decimal numeral of an integer. -/
theorem atoiValue_showInt (v : Int) : atoiValue (showInt v) = v := by
  unfold showInt
  by_cases h : v < 0
  · rw [if_pos h]
    obtain ⟨-, -, hval⟩ := showNat_spec (-v).toNat
    have hv : digitsValue (showNat (-v).toNat) 0 = (-v).toNat := by
      have := hval 0 []
      simpa [digitsValue] using this
    unfold atoiValue
    have hdrop : List.dropWhile isSpaceC ('-' :: showNat (-v).toNat) =
        '-' :: showNat (-v).toNat := by
      rw [List.dropWhile_cons_of_neg (by decide)]
    rw [hdrop]
    simp only [hv]
    omega
  · rw [if_neg h, atoiValue_showNat]
    omega

/-- A numeral has no blank for `TString::Atoi` to drop. -/
theorem filter_blank_of_plain (s : TString) (h : ∀ c ∈ s, c ≠ ' ') :
    s.filter (fun c => c != ' ') = s := by
  rw [List.filter_eq_self]
  intro c hc
  simpa using h c hc

/-- No character of the numeral of an integer is a blank, a tab, a newline or
a wildcard. -/
theorem showInt_plain (v : Int) (c : Char) (hc : c ∈ showInt v) :
    c ∉ " \t\n*~VERSION:".toList := by
  unfold showInt at hc
  split at hc
  · rcases List.mem_cons.mp hc with rfl | hc
    · decide
    · have := (showNat_plain _ c hc).2.2
      intro hm
      apply this
      simp only [String.toList, List.mem_cons] at hm ⊢
      tauto
  · have := (showNat_plain _ c hc).2.2
    intro hm
    apply this
    simp only [String.toList, List.mem_cons] at hm ⊢
    tauto

/-- The numeral of an integer is not empty. -/
theorem showInt_ne_nil (v : Int) : showInt v ≠ [] := by
  unfold showInt
  split
  · exact List.cons_ne_nil _ _
  · exact (showNat_spec _).1

/-- `TString::Atoi` on the numeral of an integer of the `Int_t` range. -/
theorem Atoi_showInt (v : Int) (h0 : -2 ^ 31 ≤ v) (h1 : v < 2 ^ 31) : Atoi (showInt v) = v := by
  unfold Atoi atoi
  rw [filter_blank_of_plain _ (fun c hc e => showInt_plain v c hc (by rw [e]; decide)),
    atoiValue_showInt]
  unfold clampLong toInt_t
  split_ifs <;> omega

/-- `TString::Atoi` on a numeral, taken as an `UInt_t`. -/
theorem toUInt_t_Atoi_showNat (n : Nat) (h : n < 2 ^ 32) : toUInt_t (Atoi (showNat n)) = n := by
  unfold Atoi atoi
  rw [filter_blank_of_plain _ (fun c hc e => (showNat_plain n c hc).2.2 (by rw [e]; decide)),
    atoiValue_showNat]
  unfold clampLong toInt_t toUInt_t
  split_ifs <;> omega

/-- `TString::Atoi` on a numeral, taken as an `UChar_t`. -/
theorem toUChar_t_Atoi_showNat (n : Nat) (h : n < 256) : toUChar_t (Atoi (showNat n)) = n := by
  unfold Atoi atoi
  rw [filter_blank_of_plain _ (fun c hc e => (showNat_plain n c hc).2.2 (by rw [e]; decide)),
    atoiValue_showNat]
  unfold clampLong toInt_t toUChar_t
  split_ifs <;> omega

/-- A non-empty word without delimiters is its own only token. -/
theorem tokenize_word_of_free (delim w : TString) (hne : w ≠ [])
    (hfree : ∀ c ∈ w, c ∉ delim) : Tokenize w delim = [w] := by
  cases w with
  | nil => exact absurd rfl hne
  | cons c cs => simp [Tokenize, splitAny_of_free _ _ hfree]

/-- A word followed by a delimiter is the first token of the string. -/
theorem tokenize_word_delim (delim w y : TString) (d : Char) (hd : d ∈ delim) (hne : w ≠ [])
    (hfree : ∀ c ∈ w, c ∉ delim) : Tokenize (w ++ d :: y) delim = w :: Tokenize y delim := by
  cases w with
  | nil => exact absurd rfl hne
  | cons c cs =>
    unfold Tokenize
    rw [splitAny_append_delim delim (c :: cs) y d hd, splitAny_of_free _ _ hfree]
    simp

/-- Words written each with the delimiter after it are read back by
`Tokenize`. -/
theorem tokenize_flatMap_delim (delim : TString) (d : Char) (hd : d ∈ delim)
    (ws : List TString) (h : ∀ w ∈ ws, w ≠ [] ∧ ∀ c ∈ w, c ∉ delim) :
    Tokenize (ws.flatMap (fun w => w ++ [d])) delim = ws := by
  induction ws with
  | nil => simp [Tokenize, splitAny]
  | cons w ws ih =>
    have hw := h w (List.mem_cons_self _ _)
    rw [List.flatMap_cons, List.append_assoc, List.singleton_append,
      tokenize_word_delim delim w _ d hd hw.1 hw.2,
      ih (fun x hx => h x (List.mem_cons_of_mem _ hx))]

/-- The fields of a line written with single blanks are its tokens, when the
fields but the last are words; the last field gives its own tokens. -/
theorem tokenize_blankSeparated_append (ws : List TString) (last : TString)
    (h : ∀ w ∈ ws, w ≠ [] ∧ ∀ c ∈ w, c ∉ " \t".toList) :
    Tokenize (blankSeparated (ws ++ [last])) " \t".toList =
      ws ++ Tokenize last " \t".toList := by
  induction ws with
  | nil => rfl
  | cons w ws ih =>
    have hw := h w (List.mem_cons_self _ _)
    have e : blankSeparated (w :: ws ++ [last]) = w ++ ' ' :: blankSeparated (ws ++ [last]) := by
      cases ws <;> rfl
    rw [e, tokenize_word_delim _ w _ ' ' (by decide) hw.1 hw.2,
      ih (fun x hx => h x (List.mem_cons_of_mem _ hx))]
    rfl

/-- The fields of a line written with single blanks are its tokens, when the
fields are words. -/
theorem tokenize_blankSeparated (ws : List TString)
    (h : ∀ w ∈ ws, w ≠ [] ∧ ∀ c ∈ w, c ∉ " \t".toList) :
    Tokenize (blankSeparated ws) " \t".toList = ws := by
  rcases List.eq_nil_or_concat ws with rfl | ⟨init, last, rfl⟩
  · rfl
  · rw [List.concat_eq_append] at h ⊢
    have hl := h last (by simp)
    rw [tokenize_blankSeparated_append init last (fun w hw => h w (by simp [hw])),
      tokenize_word_of_free _ _ hl.1 hl.2]

/-- A character of a line written with single blanks is a blank or a
character of a field. -/
theorem mem_blankSeparated (ws : List TString) (c : Char) (hc : c ∈ blankSeparated ws) :
    c = ' ' ∨ ∃ w ∈ ws, c ∈ w := by
  induction ws with
  | nil => simp [blankSeparated] at hc
  | cons w ws ih =>
    cases ws with
    | nil => exact Or.inr ⟨w, List.mem_cons_self _ _, hc⟩
    | cons v vs =>
      have e : blankSeparated (w :: v :: vs) = w ++ ' ' :: blankSeparated (v :: vs) := rfl
      rw [e] at hc
      rcases List.mem_append.mp hc with hc | hc
      · exact Or.inr ⟨w, List.mem_cons_self _ _, hc⟩
      · rcases List.mem_cons.mp hc with hc | hc
        · exact Or.inl hc
        · rcases ih hc with h | ⟨x, hx, hcx⟩
          · exact Or.inl h
          · exact Or.inr ⟨x, List.mem_cons_of_mem _ hx, hcx⟩

/-- The wildcard substitution leaves a line without wildcard characters as
it is. -/
theorem normalizeLine_plain (s : TString) (h : ∀ c ∈ s, c ≠ '*' ∧ c ≠ '~') :
    normalizeLine s = s := by
  rw [normalizeLine_eq_map]
  conv_rhs => rw [← List.map_id s]
  apply List.map_congr_left
  intro c hc
  obtain ⟨h1, h2⟩ := h c hc
  simp [normalizeChar, h1, h2]

/-- A keyword without a blank that does not begin a word does not begin the
word followed by a blank and more. -/
theorem beginsWith_word_blank (hdr : TString) (hb : ' ' ∉ hdr) :
    ∀ (w rest : TString), BeginsWith w hdr = false →
      BeginsWith (w ++ ' ' :: rest) hdr = false := by
  induction hdr with
  | nil => intro w rest h; cases w <;> simp [BeginsWith] at h
  | cons a as ih =>
    intro w rest h
    have ha : a ≠ ' ' := fun e => hb (by rw [e]; exact List.mem_cons_self _ _)
    have has : ' ' ∉ as := fun hm => hb (List.mem_cons_of_mem _ hm)
    cases w with
    | nil => simp [BeginsWith, List.isPrefixOf, ha]
    | cons b bs =>
      simp only [BeginsWith, List.cons_append, List.isPrefixOf, Bool.and_eq_false_imp,
        beq_iff_eq] at h ⊢
      intro hab
      exact ih has bs rest (h hab)

/-- A data line begins with no special prefix when its first word does
not. -/
theorem isSpecialLine_word_blank (w rest : TString) (h : isSpecialLine w = false) :
    isSpecialLine (w ++ ' ' :: rest) = false := by
  simp only [isSpecialLine, Bool.or_eq_false_iff] at h ⊢
  obtain ⟨⟨⟨⟨⟨⟨⟨⟨⟨h0, h1⟩, h2⟩, h3⟩, h4⟩, h5⟩, h6⟩, h7⟩, h8⟩, h9⟩ := h
  exact ⟨⟨⟨⟨⟨⟨⟨⟨⟨beginsWith_word_blank _ (by decide) w rest h0,
    beginsWith_word_blank _ (by decide) w rest h1⟩,
    beginsWith_word_blank _ (by decide) w rest h2⟩,
    beginsWith_word_blank _ (by decide) w rest h3⟩,
    beginsWith_word_blank _ (by decide) w rest h4⟩,
    beginsWith_word_blank _ (by decide) w rest h5⟩,
    beginsWith_word_blank _ (by decide) w rest h6⟩,
    beginsWith_word_blank _ (by decide) w rest h7⟩,
    beginsWith_word_blank _ (by decide) w rest h8⟩,
    beginsWith_word_blank _ (by decide) w rest h9⟩

/-- A word has no blank and no tab, so it is a token; and no wildcard and no
newline. -/
theorem isWord_spec (w : TString) (h : IsWord w) :
    w ≠ [] ∧ (∀ c ∈ w, c ∉ " \t".toList) ∧ (∀ c ∈ w, c ≠ '*' ∧ c ≠ '~') ∧ '\n' ∉ w ∧ ' ' ∉ w := by
  obtain ⟨h1, h2⟩ := h
  refine ⟨h1, fun c hc hm => h2 c hc ?_, fun c hc => ⟨?_, ?_⟩, fun hm => h2 _ hm (by decide),
    fun hm => h2 _ hm (by decide)⟩
  · simp only [String.toList, List.mem_cons] at hm ⊢
    tauto
  · intro e; exact h2 c hc (by rw [e]; decide)
  · intro e; exact h2 c hc (by rw [e]; decide)

/-- A decimal numeral is a word. -/
theorem isWord_showNat (n : Nat) : IsWord (showNat n) := by
  refine ⟨(showNat_spec n).1, fun c hc hm => (showNat_plain n c hc).2.2 ?_⟩
  simp only [String.toList, List.mem_cons] at hm ⊢
  tauto

/-- The numeral of an integer is a word. -/
theorem isWord_showInt (v : Int) : IsWord (showInt v) := by
  refine ⟨showInt_ne_nil v, fun c hc hm => showInt_plain v c hc ?_⟩
  simp only [String.toList, List.mem_cons] at hm ⊢
  tauto

/-- A line of word fields whose first word begins with no special prefix
goes to the switch with its fields as tokens. -/
theorem processConfigurationLine_words (K : Collaborators) (cfg : AliTriggerConfiguration)
    (level : Int) (w0 : TString) (ws : List TString) (h0 : IsLineName w0)
    (hws : ∀ w ∈ ws, IsWord w) :
    ProcessConfigurationLine K cfg (blankSeparated (w0 :: ws)) level =
      processTokens K cfg (blankSeparated (w0 :: ws)) (w0 :: ws) level := by
  have hall : ∀ w ∈ w0 :: ws, IsWord w := by
    intro w hw
    rcases List.mem_cons.mp hw with rfl | hw
    · exact h0.1
    · exact hws w hw
  have hplain : normalizeLine (blankSeparated (w0 :: ws)) = blankSeparated (w0 :: ws) := by
    apply normalizeLine_plain
    intro c hc
    rcases mem_blankSeparated _ c hc with rfl | ⟨w, hw, hcw⟩
    · decide
    · exact (isWord_spec w (hall w hw)).2.2.1 c hcw
  have hsp : isSpecialLine (blankSeparated (w0 :: ws)) = false := by
    cases ws with
    | nil => exact h0.2
    | cons v vs => exact isSpecialLine_word_blank w0 _ h0.2
  have hts : Tokenize (normalizeLine (blankSeparated (w0 :: ws))) " \t".toList = w0 :: ws := by
    rw [hplain]
    exact tokenize_blankSeparated _
      (fun w hw => ⟨(isWord_spec w (hall w hw)).1, (isWord_spec w (hall w hw)).2.1⟩)
  rw [processConfigurationLine_tokens K cfg _ level hsp _ hts (List.cons_ne_nil _ _), hplain]

/-- The line of an input is parsed to that input. -/
theorem inputLine_parsed (K : Collaborators) (cfg : AliTriggerConfiguration)
    (x : AliTriggerInput) (hn : IsLineName x.fName) (hd : IsWord x.fDetector)
    (hl : x.fLevel < 256) (hs : x.fSignature < 2 ^ 32) (hnum : x.fNumber < 256)
    (hcap : cfg.fInputs.length < kNMaxInputs) :
    ProcessConfigurationLine K cfg (inputLine x) 1 =
      some (true, { cfg with fInputs := cfg.fInputs ++ [x] }, 1) := by
  obtain ⟨name, det, level, sig, num⟩ := x
  simp only at hn hd hl hs hnum
  unfold inputLine
  rw [processConfigurationLine_words K cfg 1 _ _ hn (by
    intro w hw
    simp only [List.mem_cons, List.mem_singleton, List.not_mem_nil, or_false] at hw
    rcases hw with rfl | rfl | rfl | rfl
    · exact hd
    · exact isWord_showNat _
    · exact isWord_showNat _
    · exact isWord_showNat _)]
  have hl1 : processTokens K cfg
      (blankSeparated [name, det, showNat level, showNat sig, showNat num])
      [name, det, showNat level, showNat sig, showNat num] 1 =
      processInputs cfg [name, det, showNat level, showNat sig, showNat num] 1 := by
    simp [processTokens]
  rw [hl1]
  simp only [processInputs, At, List.length_cons, List.length_nil, ne_eq, not_true_eq_false,
    if_false, List.get?_cons_zero, List.get?_cons_succ, Option.bind_eq_bind, Option.some_bind,
    addInputNew_snd, toUChar_t_Atoi_showNat _ hl, toUInt_t_Atoi_showNat _ hs,
    toUChar_t_Atoi_showNat _ hnum]
  simp [AddInput, hcap]

/-- The line of an interaction is parsed to that interaction. -/
theorem interactionLine_parsed (K : Collaborators) (cfg : AliTriggerConfiguration)
    (x : AliTriggerInteraction) (hn : IsLineName x.fName) (hlg : IsWord x.fLogic)
    (hck : K.CheckInputs x cfg.fInputs = true)
    (hcap : cfg.fInteractions.length < kNMaxInteractions) :
    ProcessConfigurationLine K cfg (interactionLine x) 2 =
      some (true, { cfg with fInteractions := cfg.fInteractions ++ [x] }, 2) := by
  obtain ⟨name, logic⟩ := x
  simp only at hn hlg hck
  unfold interactionLine
  rw [processConfigurationLine_words K cfg 2 _ _ hn (by
    intro w hw
    simp only [List.mem_singleton] at hw
    rw [hw]; exact hlg)]
  have hl1 : processTokens K cfg (blankSeparated [name, logic]) [name, logic] 2 =
      processInteractions K cfg [name, logic] 2 := by
    simp [processTokens]
  rw [hl1]
  simp only [processInteractions, At, List.length_cons, List.length_nil, ne_eq,
    not_true_eq_false, if_false, List.get?_cons_zero, List.get?_cons_succ, Option.bind_eq_bind,
    Option.some_bind, addInteractionNew_snd]
  simp [AddInteraction, hcap, hck]

/-- The line of a bunch-crossing mask is parsed to that mask. -/
theorem maskLine_parsed (K : Collaborators) (cfg : AliTriggerConfiguration)
    (m : AliTriggerBCMask)
    (hm : m = newBCMaskSentinel "NONE".toList ∨
      (IsLineName m.fName ∧ m.fName ≠ "NONE".toList ∧ IsWord m.fPattern))
    (hcap : cfg.fMasks.length < kNMaxMasks) :
    ProcessConfigurationLine K cfg (maskLine m) 6 =
      some (true, { cfg with fMasks := cfg.fMasks ++ [m] }, 6) := by
  rcases hm with rfl | ⟨hn, hne, hp⟩
  · have e : maskLine (newBCMaskSentinel "NONE".toList) = blankSeparated ["NONE".toList] := by
      decide
    rw [e, processConfigurationLine_words K cfg 6 _ _ (by decide) (by simp)]
    have hl1 : processTokens K cfg (blankSeparated ["NONE".toList]) ["NONE".toList] 6 =
        processBCMasks cfg ["NONE".toList] 6 := by
      simp [processTokens]
    rw [hl1]
    simp only [processBCMasks, At, List.length_cons, List.length_nil, List.get?_cons_zero,
      Option.bind_eq_bind, Option.some_bind]
    simp [AddMask, hcap]
  · obtain ⟨name, pattern⟩ := m
    simp only at hn hne hp
    have e : maskLine ⟨name, pattern⟩ = blankSeparated [name, pattern] := by
      unfold maskLine
      simp only [beq_iff_eq, hne, if_false]
    rw [e, processConfigurationLine_words K cfg 6 _ _ hn (by
      intro w hw
      simp only [List.mem_singleton] at hw
      rw [hw]; exact hp)]
    have hl1 : processTokens K cfg (blankSeparated [name, pattern]) [name, pattern] 6 =
        processBCMasks cfg [name, pattern] 6 := by
      simp [processTokens]
    rw [hl1]
    have hne1 : (name == "NONE".toList) = false := by
      simpa using hne
    simp only [processBCMasks, At, List.length_cons, List.length_nil, List.get?_cons_zero,
      List.get?_cons_succ, Option.bind_eq_bind, Option.some_bind, hne1, addMaskNew_snd]
    simp [AddMask, hcap]

/-- `AddPFProtection` with room left and the check passed. -/
theorem addPFProtection_ok (K : Collaborators) (cfg : AliTriggerConfiguration)
    (p : AliTriggerPFProtection) (hck : K.CheckInteractions p cfg.fInteractions = true)
    (hcap : cfg.fPFProtections.length < kNMaxPFProtections) :
    AddPFProtection K cfg p =
      (true, { cfg with fPFProtections := cfg.fPFProtections ++ [p] }) := by
  unfold AddPFProtection
  rw [if_pos hcap, if_pos hck]

/-- The line of a past-future protection is parsed to that protection. -/
theorem pfLine_parsed (K : Collaborators) (cfg : AliTriggerConfiguration)
    (p : AliTriggerPFProtection) (hck : K.CheckInteractions p cfg.fInteractions = true)
    (hp : p = newPFProtectionSentinel "NONE".toList ∨ p = newPFProtectionSentinel "NOPF".toList ∨
      (IsLineName p.fName ∧ p.fName ≠ "NONE".toList ∧ p.fName ≠ "NOPF".toList ∧
        IsWord p.fIntName1 ∧ IsWord p.fIntName2 ∧ IsWord p.fIntName3 ∧
        ∀ v ∈ [p.fNa1, p.fNa2, p.fNb1, p.fNb2, p.fTa, p.fTb], -2 ^ 31 ≤ v ∧ v < 2 ^ 31))
    (hcap : cfg.fPFProtections.length < kNMaxPFProtections) :
    ProcessConfigurationLine K cfg (pfLine p) 5 =
      some (true, { cfg with fPFProtections := cfg.fPFProtections ++ [p] }, 5) := by
  rcases hp with rfl | rfl | ⟨hn, hne1, hne2, h1, h2, h3, hv⟩
  · have e : pfLine (newPFProtectionSentinel "NONE".toList) = blankSeparated ["NONE".toList] := by
      decide
    rw [e, processConfigurationLine_words K cfg 5 _ _ (by decide) (by simp)]
    have hl1 : processTokens K cfg (blankSeparated ["NONE".toList]) ["NONE".toList] 5 =
        processPFs K cfg ["NONE".toList] 5 := by
      simp [processTokens]
    rw [hl1]
    have hb : ("NONE".toList == "NONE".toList || "NONE".toList == "NOPF".toList) = true := by
      decide
    simp only [processPFs, At, List.get?_cons_zero, Option.bind_eq_bind, Option.some_bind, hb,
      if_true, addPFProtection_ok K cfg _ hck hcap]
  · have e : pfLine (newPFProtectionSentinel "NOPF".toList) = blankSeparated ["NOPF".toList] := by
      decide
    rw [e, processConfigurationLine_words K cfg 5 _ _ (by decide) (by simp)]
    have hl1 : processTokens K cfg (blankSeparated ["NOPF".toList]) ["NOPF".toList] 5 =
        processPFs K cfg ["NOPF".toList] 5 := by
      simp [processTokens]
    rw [hl1]
    have hb : ("NOPF".toList == "NONE".toList || "NOPF".toList == "NOPF".toList) = true := by
      decide
    simp only [processPFs, At, List.get?_cons_zero, Option.bind_eq_bind, Option.some_bind, hb,
      if_true, addPFProtection_ok K cfg _ hck hcap]
  · obtain ⟨name, i1, i2, i3, na1, na2, nb1, nb2, ta, tb⟩ := p
    simp only at hn hne1 hne2 h1 h2 h3 hv hck
    have hr : ∀ v ∈ [na1, na2, nb1, nb2, ta, tb], Atoi (showInt v) = v :=
      fun v hm => Atoi_showInt v (hv v hm).1 (hv v hm).2
    have e : pfLine ⟨name, i1, i2, i3, na1, na2, nb1, nb2, ta, tb⟩ =
        blankSeparated [name, i1, i2, i3, showInt na1, showInt na2, showInt nb1, showInt nb2,
          showInt ta, showInt tb] := by
      have hb : (name == "NONE".toList || name == "NOPF".toList) = false := by
        rw [Bool.or_eq_false_iff]
        exact ⟨beq_eq_false_iff_ne.mpr hne1, beq_eq_false_iff_ne.mpr hne2⟩
      unfold pfLine
      simp only [hb, Bool.false_eq_true, if_false]
    rw [e, processConfigurationLine_words K cfg 5 _ _ hn (by
      intro w hw
      simp only [List.mem_cons, List.mem_singleton, List.not_mem_nil, or_false] at hw
      rcases hw with rfl | rfl | rfl | rfl | rfl | rfl | rfl | rfl | rfl
      · exact h1
      · exact h2
      · exact h3
      all_goals exact isWord_showInt _)]
    have hl1 : processTokens K cfg
        (blankSeparated [name, i1, i2, i3, showInt na1, showInt na2, showInt nb1, showInt nb2,
          showInt ta, showInt tb])
        [name, i1, i2, i3, showInt na1, showInt na2, showInt nb1, showInt nb2,
          showInt ta, showInt tb] 5 =
        processPFs K cfg [name, i1, i2, i3, showInt na1, showInt na2, showInt nb1, showInt nb2,
          showInt ta, showInt tb] 5 := by
      simp [processTokens]
    rw [hl1]
    have hb : (name == "NONE".toList || name == "NOPF".toList) = false := by
      rw [Bool.or_eq_false_iff]
      exact ⟨beq_eq_false_iff_ne.mpr hne1, beq_eq_false_iff_ne.mpr hne2⟩
    simp only [processPFs, At, List.get?_cons_zero, List.get?_cons_succ, Option.bind_eq_bind,
      Option.some_bind, hb, Bool.false_eq_true, if_false, List.length_cons, List.length_nil,
      ne_eq, not_true_eq_false,
      hr na1 (by simp), hr na2 (by simp), hr nb1 (by simp), hr nb2 (by simp), hr ta (by simp),
      hr tb (by simp), addPFProtection_ok K cfg _ hck hcap]

/-- The line of a class is parsed to that class. -/
theorem classLine_parsed (K : Collaborators) (cfg : AliTriggerConfiguration)
    (c : AliTriggerClass) (hck : K.CheckClass c cfg = true)
    (hc : IsLineName c.fName ∧ c.fIndex < 256 ∧
      c.fClassMask = K.ClassMask c.fIndex ∧ IsWord c.fDescriptor ∧ IsWord c.fCluster ∧
      IsWord c.fPFProtection ∧ IsWord c.fMask ∧ c.fPrescaler < 2 ^ 32)
    (hcap : cfg.fClasses.length < kNMaxClasses) :
    ProcessConfigurationLine K cfg (classLine c) 7 =
      some (true, { cfg with fClasses := cfg.fClasses ++ [c] }, 7) := by
  obtain ⟨name, index, cmask, desc, clus, pfp, mask, presc, allrare⟩ := c
  obtain ⟨hn, hi, hm, h1, h2, h3, h4, hps⟩ := hc
  simp only at hn hi hm h1 h2 h3 h4 hps hck
  subst hm
  have hrare : IsWord (if allrare = true then "1".toList else "0".toList) := by
    cases allrare <;> decide
  have hrare2 : toBool_t (Atoi (if allrare = true then "1".toList else "0".toList)) = allrare := by
    cases allrare <;> decide
  unfold classLine
  rw [processConfigurationLine_words K cfg 7 _ _ hn (by
    intro w hw
    simp only [List.mem_cons, List.mem_singleton, List.not_mem_nil, or_false] at hw
    rcases hw with rfl | rfl | rfl | rfl | rfl | rfl | rfl
    · exact isWord_showNat _
    · exact h1
    · exact h2
    · exact h3
    · exact h4
    · exact isWord_showNat _
    · exact hrare)]
  have hl1 : ∀ ts : List TString, processTokens K cfg
      (blankSeparated [name, showNat index, desc, clus, pfp, mask, showNat presc,
        if allrare = true then "1".toList else "0".toList]) ts 7 =
      processClasses K cfg ts 7 := by
    intro ts; simp [processTokens]
  rw [hl1]
  simp only [processClasses, At, List.get?_cons_zero, List.get?_cons_succ, Option.bind_eq_bind,
    Option.some_bind, List.length_cons, List.length_nil, ne_eq, not_true_eq_false, if_false,
    toUChar_t_Atoi_showNat _ hi, toUInt_t_Atoi_showNat _ hps, hrare2, newTriggerClass]
  simp [AddClass, hcap, hck]

/-- The line of a cluster is parsed to that cluster. -/
theorem clusterLine_parsed (K : Collaborators) (cfg : AliTriggerConfiguration)
    (x : AliTriggerCluster)
    (hx : IsLineName x.fName ∧ x.fIndex < 256 ∧ x.fDetectors ≠ [] ∧
      (∀ w ∈ Tokenize x.fDetectors [' '], IsWord w) ∧
      x.fDetectors = (Tokenize x.fDetectors [' ']).flatMap (fun tok => tok ++ [' ']))
    (hcap : cfg.fClusters.length < kNMaxClusters) :
    ProcessConfigurationLine K cfg (clusterLine x) 4 =
      some (true, { cfg with fClusters := cfg.fClusters ++ [x] }, 4) := by
  obtain ⟨name, index, dets⟩ := x
  obtain ⟨hn, hi, hne, hw, hd⟩ := hx
  simp only at hn hi hne hw hd
  generalize htoks : Tokenize dets [' '] = toks at hw hd
  have hwords : ∀ w ∈ toks, w ≠ [] ∧ ∀ c ∈ w, c ∉ " \t".toList :=
    fun w hm => ⟨(isWord_spec w (hw w hm)).1, (isWord_spec w (hw w hm)).2.1⟩
  have hdt : Tokenize dets " \t".toList = toks := by
    rw [hd]
    exact tokenize_flatMap_delim _ ' ' (by decide) toks hwords
  have hline : clusterLine ⟨name, index, dets⟩ = name ++ ' ' :: (showNat index ++ ' ' :: dets) :=
    rfl
  have hplain : normalizeLine (clusterLine ⟨name, index, dets⟩) =
      clusterLine ⟨name, index, dets⟩ := by
    apply normalizeLine_plain
    intro c hc
    rw [hline] at hc
    simp only [List.mem_append, List.mem_cons] at hc
    rcases hc with hc | rfl | hc | rfl | hc
    · exact (isWord_spec _ hn.1).2.2.1 c hc
    · decide
    · exact (isWord_spec _ (isWord_showNat index)).2.2.1 c hc
    · decide
    · rw [hd] at hc
      obtain ⟨w, hwm, hcw⟩ := List.mem_flatMap.mp hc
      rcases List.mem_append.mp hcw with hcw | hcw
      · exact (isWord_spec w (hw w hwm)).2.2.1 c hcw
      · rw [List.mem_singleton] at hcw; rw [hcw]; decide
  have hts : Tokenize (normalizeLine (clusterLine ⟨name, index, dets⟩)) " \t".toList =
      name :: showNat index :: toks := by
    rw [hplain, hline,
      tokenize_word_delim _ name _ ' ' (by decide) (isWord_spec _ hn.1).1 (isWord_spec _ hn.1).2.1,
      tokenize_word_delim _ (showNat index) _ ' ' (by decide)
        (isWord_spec _ (isWord_showNat index)).1 (isWord_spec _ (isWord_showNat index)).2.1, hdt]
  have hsp : isSpecialLine (clusterLine ⟨name, index, dets⟩) = false := by
    rw [hline]; exact isSpecialLine_word_blank name _ hn.2
  rw [processConfigurationLine_tokens K cfg _ 4 hsp _ hts (List.cons_ne_nil _ _)]
  have hl1 : ∀ s : TString, processTokens K cfg s (name :: showNat index :: toks) 4 =
      processClusters cfg (name :: showNat index :: toks) 4 := by
    intro s; simp [processTokens]
  have hlen : ¬ (name :: showNat index :: toks).length < 2 := by
    simp only [List.length_cons]; omega
  rw [hl1]
  unfold processClusters
  rw [if_neg hlen]
  simp only [At, List.get?_cons_zero, List.get?_cons_succ, Option.bind_eq_bind,
    Option.some_bind, addClusterNew_snd, joinDetectors_eq, toUChar_t_Atoi_showNat _ hi, ← hd]
  cases hdc : dets with
  | nil => exact absurd hdc hne
  | cons d ds => simp [AddCluster, hcap]

/-- Skipping the characters of a replaced occurrence. -/
theorem replaceScan_skip (pat rep : TString) (a s : TString) :
    replaceScan pat rep a.length (a ++ s) = replaceScan pat rep 0 s := by
  induction a with
  | nil => rfl
  | cons c cs ih => simpa [replaceScan] using ih

/-- A string in which the pattern does not occur is left as it is. -/
theorem replaceScan_no_occurrence (pat rep : TString) (s : TString) (h : ¬ pat <:+: s) :
    replaceScan pat rep 0 s = s := by
  induction s with
  | nil => rfl
  | cons c cs ih =>
    have h1 : pat.isPrefixOf (c :: cs) = false := by
      cases hp : pat.isPrefixOf (c :: cs) with
      | false => rfl
      | true => exact absurd ((beginsWith_iff (c :: cs) pat).mp hp).isInfix h
    have h2 : ¬ pat <:+: cs := fun hi => h (hi.trans (List.suffix_cons c cs).isInfix)
    simp only [replaceScan, h1, Bool.false_eq_true, if_false, ih h2]

/-- Removing a keyword from a line that begins with it and does not hold it
again leaves the rest of the line. -/
theorem replaceAll_keyword (pat s : TString) (hne : pat ≠ []) (h : ¬ pat <:+: s) :
    ReplaceAll (pat ++ s) pat [] = s := by
  cases pat with
  | nil => exact absurd rfl hne
  | cons p ps =>
    have hpre : (p :: ps).isPrefixOf (p :: (ps ++ s)) = true :=
      (beginsWith_iff (p :: (ps ++ s)) (p :: ps)).mpr (List.prefix_append (p :: ps) s)
    have e : replaceScan (p :: ps) [] 0 (p :: (ps ++ s)) =
        replaceScan (p :: ps) [] ps.length (ps ++ s) := by
      rw [replaceScan, if_pos hpre]
      simp
    simp only [ReplaceAll, List.isEmpty_cons, Bool.false_eq_true, if_false, List.cons_append]
    rw [e, replaceScan_skip, replaceScan_no_occurrence _ _ _ h]

/-- The line `PARTITION:<name>` sets the name, when the name does not hold
`PARTITION:` again. -/
theorem partitionLine_parsed (K : Collaborators) (cfg : AliTriggerConfiguration)
    (name : TString) (level : Int) (h : ¬ "PARTITION:".toList <:+: name) :
    ProcessConfigurationLine K cfg ("PARTITION:".toList ++ name) level =
      some (true, { cfg with fName := name }, level) := by
  unfold ProcessConfigurationLine
  dsimp only
  rw [if_neg (show ¬ BeginsWith ("PARTITION:".toList ++ name) "#".toList = true by
    simp [BeginsWith])]
  rw [if_pos (show BeginsWith ("PARTITION:".toList ++ name) "PARTITION:".toList = true by
    simp [BeginsWith])]
  rw [replaceAll_keyword _ _ (by decide) h]

/-- The line `VERSION:<n>` sets the version, for a version of the `Int_t`
range. -/
theorem versionLine_parsed (K : Collaborators) (cfg : AliTriggerConfiguration)
    (v : Int) (level : Int) (h0 : -2 ^ 31 ≤ v) (h1 : v < 2 ^ 31) :
    ProcessConfigurationLine K cfg ("VERSION:".toList ++ showInt v) level =
      some (true, { cfg with fVersion := v }, level) := by
  have hno : ¬ "VERSION:".toList <:+: showInt v := by
    intro hi
    have hm : 'V' ∈ showInt v := hi.subset (by decide)
    exact showInt_plain v 'V' hm (by decide)
  unfold ProcessConfigurationLine
  dsimp only
  rw [if_neg (show ¬ BeginsWith ("VERSION:".toList ++ showInt v) "#".toList = true by
    simp [BeginsWith])]
  rw [if_neg (show ¬ BeginsWith ("VERSION:".toList ++ showInt v) "PARTITION:".toList = true by
    simp [BeginsWith])]
  rw [if_pos (show BeginsWith ("VERSION:".toList ++ showInt v) "VERSION:".toList = true by
    simp [BeginsWith])]
  rw [replaceAll_keyword _ _ (by decide) hno, Atoi_showInt v h0 h1]

/-- The section headers as whole lines. -/
theorem headerLine_parsed (K : Collaborators) (cfg : AliTriggerConfiguration) (level : Int) :
    ProcessConfigurationLine K cfg "INPUTS:".toList level = some (true, cfg, 1) ∧
    ProcessConfigurationLine K cfg "INTERACTIONS:".toList level = some (true, cfg, 2) ∧
    ProcessConfigurationLine K cfg "DESCRIPTORS:".toList level = some (true, cfg, 3) ∧
    ProcessConfigurationLine K cfg "CLUSTERS:".toList level = some (true, cfg, 4) ∧
    ProcessConfigurationLine K cfg "PFS:".toList level = some (true, cfg, 5) ∧
    ProcessConfigurationLine K cfg "BCMASKS:".toList level = some (true, cfg, 6) ∧
    ProcessConfigurationLine K cfg "CLASSES:".toList level = some (true, cfg, 7) := by
  have h := processConfigurationLine_header K cfg level []
  simp only [List.append_nil] at h
  exact h

/-- A line that returns success hands its state to the rest of the loop. -/
theorem loadLines_cons_ok (K : Collaborators) (l : TString) (ls : List TString)
    (cfg cfg1 : AliTriggerConfiguration) (level level1 : Int)
    (h : ProcessConfigurationLine K cfg l level = some (true, cfg1, level1)) :
    loadLines K (l :: ls) cfg level = loadLines K ls cfg1 level1 := by
  simp only [loadLines, h]

/-- A line of fields is not empty when its first field is not. -/
theorem blankSeparated_ne_nil (w : TString) (ws : List TString) (h : w ≠ []) :
    blankSeparated (w :: ws) ≠ [] := by
  cases ws with
  | nil => exact h
  | cons v vs =>
    cases w with
    | nil => exact absurd rfl h
    | cons c cs => simp [blankSeparated]

/-- A line of fields without newline has no newline. -/
theorem blankSeparated_no_newline (ws : List TString) (h : ∀ w ∈ ws, '\n' ∉ w) :
    '\n' ∉ blankSeparated ws := by
  intro hm
  rcases mem_blankSeparated ws _ hm with h1 | ⟨w, hw, hc⟩
  · exact absurd h1 (by decide)
  · exact h w hw hc

/-- The lines of the inputs section add the inputs in their order. -/
theorem inputs_section (K : Collaborators) (rest : List TString) (xs : List AliTriggerInput) :
    ∀ c : AliTriggerConfiguration, c.fInputs.length + xs.length ≤ kNMaxInputs →
      (∀ x ∈ xs, IsLineName x.fName ∧ IsWord x.fDetector ∧ x.fLevel < 256 ∧
        x.fSignature < 2 ^ 32 ∧ x.fNumber < 256) →
      loadLines K (xs.map inputLine ++ rest) c 1 =
        loadLines K rest { c with fInputs := c.fInputs ++ xs } 1 := by
  induction xs with
  | nil => intro c _ _; simp
  | cons x xs ih =>
    intro c hcap hx
    obtain ⟨h1, h2, h3, h4, h5⟩ := hx x (List.mem_cons_self _ _)
    simp only [List.length_cons] at hcap
    rw [List.map_cons, List.cons_append,
      loadLines_cons_ok K _ _ c _ 1 1 (inputLine_parsed K c x h1 h2 h3 h4 h5 (by omega)),
      ih _ (by simp only [List.length_append, List.length_singleton]; omega)
        (fun y hy => hx y (List.mem_cons_of_mem _ hy))]
    simp [List.append_assoc]

/-- The lines of the interactions section add the interactions in their
order. -/
theorem interactions_section (K : Collaborators) (rest : List TString)
    (xs : List AliTriggerInteraction) :
    ∀ c : AliTriggerConfiguration, c.fInteractions.length + xs.length ≤ kNMaxInteractions →
      (∀ x ∈ xs, IsLineName x.fName ∧ IsWord x.fLogic ∧ K.CheckInputs x c.fInputs = true) →
      loadLines K (xs.map interactionLine ++ rest) c 2 =
        loadLines K rest { c with fInteractions := c.fInteractions ++ xs } 2 := by
  induction xs with
  | nil => intro c _ _; simp
  | cons x xs ih =>
    intro c hcap hx
    obtain ⟨h1, h2, h3⟩ := hx x (List.mem_cons_self _ _)
    simp only [List.length_cons] at hcap
    rw [List.map_cons, List.cons_append,
      loadLines_cons_ok K _ _ c _ 2 2 (interactionLine_parsed K c x h1 h2 h3 (by omega)),
      ih { c with fInteractions := c.fInteractions ++ [x] } (by simp only [List.length_append, List.length_singleton]; omega)
        (fun y hy => hx y (List.mem_cons_of_mem _ hy))]
    simp [List.append_assoc]

/-- The lines of the clusters section add the clusters in their order. -/
theorem clusters_section (K : Collaborators) (rest : List TString)
    (xs : List AliTriggerCluster) :
    ∀ c : AliTriggerConfiguration, c.fClusters.length + xs.length ≤ kNMaxClusters →
      (∀ x ∈ xs, IsLineName x.fName ∧ x.fIndex < 256 ∧ x.fDetectors ≠ [] ∧
        (∀ w ∈ Tokenize x.fDetectors [' '], IsWord w) ∧
        x.fDetectors = (Tokenize x.fDetectors [' ']).flatMap (fun tok => tok ++ [' '])) →
      loadLines K (xs.map clusterLine ++ rest) c 4 =
        loadLines K rest { c with fClusters := c.fClusters ++ xs } 4 := by
  induction xs with
  | nil => intro c _ _; simp
  | cons x xs ih =>
    intro c hcap hx
    simp only [List.length_cons] at hcap
    rw [List.map_cons, List.cons_append,
      loadLines_cons_ok K _ _ c _ 4 4
        (clusterLine_parsed K c x (hx x (List.mem_cons_self _ _)) (by omega)),
      ih _ (by simp only [List.length_append, List.length_singleton]; omega)
        (fun y hy => hx y (List.mem_cons_of_mem _ hy))]
    simp [List.append_assoc]

/-- The lines of the protections section add the protections in their
order. -/
theorem pfs_section (K : Collaborators) (rest : List TString)
    (xs : List AliTriggerPFProtection) :
    ∀ c : AliTriggerConfiguration, c.fPFProtections.length + xs.length ≤ kNMaxPFProtections →
      (∀ p ∈ xs, K.CheckInteractions p c.fInteractions = true ∧
        (p = newPFProtectionSentinel "NONE".toList ∨
          p = newPFProtectionSentinel "NOPF".toList ∨
          (IsLineName p.fName ∧ p.fName ≠ "NONE".toList ∧ p.fName ≠ "NOPF".toList ∧
            IsWord p.fIntName1 ∧ IsWord p.fIntName2 ∧ IsWord p.fIntName3 ∧
            ∀ v ∈ [p.fNa1, p.fNa2, p.fNb1, p.fNb2, p.fTa, p.fTb], -2 ^ 31 ≤ v ∧ v < 2 ^ 31))) →
      loadLines K (xs.map pfLine ++ rest) c 5 =
        loadLines K rest { c with fPFProtections := c.fPFProtections ++ xs } 5 := by
  induction xs with
  | nil => intro c _ _; simp
  | cons x xs ih =>
    intro c hcap hx
    obtain ⟨h1, h2⟩ := hx x (List.mem_cons_self _ _)
    simp only [List.length_cons] at hcap
    rw [List.map_cons, List.cons_append,
      loadLines_cons_ok K _ _ c _ 5 5 (pfLine_parsed K c x h1 h2 (by omega)),
      ih { c with fPFProtections := c.fPFProtections ++ [x] } (by simp only [List.length_append, List.length_singleton]; omega)
        (fun y hy => hx y (List.mem_cons_of_mem _ hy))]
    simp [List.append_assoc]

/-- The lines of the masks section add the masks in their order. -/
theorem masks_section (K : Collaborators) (rest : List TString) (xs : List AliTriggerBCMask) :
    ∀ c : AliTriggerConfiguration, c.fMasks.length + xs.length ≤ kNMaxMasks →
      (∀ m ∈ xs, m = newBCMaskSentinel "NONE".toList ∨
        (IsLineName m.fName ∧ m.fName ≠ "NONE".toList ∧ IsWord m.fPattern)) →
      loadLines K (xs.map maskLine ++ rest) c 6 =
        loadLines K rest { c with fMasks := c.fMasks ++ xs } 6 := by
  induction xs with
  | nil => intro c _ _; simp
  | cons x xs ih =>
    intro c hcap hx
    simp only [List.length_cons] at hcap
    rw [List.map_cons, List.cons_append,
      loadLines_cons_ok K _ _ c _ 6 6
        (maskLine_parsed K c x (hx x (List.mem_cons_self _ _)) (by omega)),
      ih _ (by simp only [List.length_append, List.length_singleton]; omega)
        (fun y hy => hx y (List.mem_cons_of_mem _ hy))]
    simp [List.append_assoc]

/-- The lines of the classes section add the classes in their order. -/
theorem classes_section (K : Collaborators) (rest : List TString) (xs : List AliTriggerClass) :
    ∀ c : AliTriggerConfiguration, c.fClasses.length + xs.length ≤ kNMaxClasses →
      classesAccepted K c xs = true →
      (∀ x ∈ xs, IsLineName x.fName ∧ x.fIndex < 256 ∧
        x.fClassMask = K.ClassMask x.fIndex ∧ IsWord x.fDescriptor ∧ IsWord x.fCluster ∧
        IsWord x.fPFProtection ∧ IsWord x.fMask ∧ x.fPrescaler < 2 ^ 32) →
      loadLines K (xs.map classLine ++ rest) c 7 =
        loadLines K rest { c with fClasses := c.fClasses ++ xs } 7 := by
  induction xs with
  | nil => intro c _ _ _; simp
  | cons x xs ih =>
    intro c hcap hacc hx
    simp only [List.length_cons] at hcap
    simp only [classesAccepted, Bool.and_eq_true] at hacc
    rw [List.map_cons, List.cons_append,
      loadLines_cons_ok K _ _ c _ 7 7
        (classLine_parsed K c x hacc.1 (hx x (List.mem_cons_self _ _)) (by omega)),
      ih _ (by simp only [List.length_append, List.length_singleton]; omega) hacc.2
        (fun y hy => hx y (List.mem_cons_of_mem _ hy))]
    simp [List.append_assoc]

/-- A line of fields without newline whose first field is not empty is a
line of a text. -/
theorem blankSeparated_line (w : TString) (ws : List TString) (hne : w ≠ [])
    (h : ∀ v ∈ w :: ws, '\n' ∉ v) :
    blankSeparated (w :: ws) ≠ [] ∧ ∀ c ∈ blankSeparated (w :: ws), c ∉ ['\n'] := by
  refine ⟨blankSeparated_ne_nil w ws hne, fun c hc hm => ?_⟩
  rw [List.mem_singleton] at hm
  subst hm
  exact blankSeparated_no_newline _ h hc

/-- Every line that `toLines` writes for an expressible configuration is not
empty and has no newline. -/
theorem toLines_lines (K : Collaborators) (cfg : AliTriggerConfiguration)
    (h : Expressible K cfg) : ∀ l ∈ toLines cfg, l ≠ [] ∧ ∀ c ∈ l, c ∉ ['\n'] := by
  obtain ⟨⟨hn1, -⟩, -, ⟨-, hin⟩, ⟨-, hint⟩, ⟨hf, hd⟩, ⟨-, hcl⟩, ⟨-, hpf⟩, ⟨-, hms⟩, -, -, hcs⟩ := h
  have wn : ∀ w, IsWord w → '\n' ∉ w := fun w hw => (isWord_spec w hw).2.2.2.1
  intro l hl
  simp only [toLines, hf, hd, List.map_nil, List.append_nil, List.mem_append, List.mem_cons,
    List.mem_singleton, List.not_mem_nil, or_false, List.mem_map, or_assoc] at hl
  rcases hl with rfl | rfl | rfl | ⟨x, hx, rfl⟩ | rfl | ⟨x, hx, rfl⟩ | rfl | rfl |
    ⟨x, hx, rfl⟩ | rfl | ⟨x, hx, rfl⟩ | rfl | ⟨x, hx, rfl⟩ | rfl | ⟨x, hx, rfl⟩
  · refine ⟨by simp, fun c hc hm => ?_⟩
    rw [List.mem_singleton] at hm
    subst hm
    rcases List.mem_append.mp hc with hc | hc
    · exact absurd hc (by decide)
    · exact hn1 hc
  · refine ⟨by simp, fun c hc hm => ?_⟩
    rw [List.mem_singleton] at hm
    subst hm
    rcases List.mem_append.mp hc with hc | hc
    · exact absurd hc (by decide)
    · exact (isWord_spec _ (isWord_showInt cfg.fVersion)).2.2.2.1 hc
  · decide
  · obtain ⟨h1, h2, -⟩ := hin x hx
    apply blankSeparated_line _ _ h1.1.1
    intro v hv
    simp only [List.mem_cons, List.mem_singleton, List.not_mem_nil, or_false] at hv
    rcases hv with rfl | rfl | rfl | rfl | rfl
    · exact wn _ h1.1
    · exact wn _ h2
    all_goals exact wn _ (isWord_showNat _)
  · decide
  · obtain ⟨h1, h2, -⟩ := hint x hx
    apply blankSeparated_line _ _ h1.1.1
    intro v hv
    simp only [List.mem_cons, List.mem_singleton, List.not_mem_nil, or_false] at hv
    rcases hv with rfl | rfl
    · exact wn _ h1.1
    · exact wn _ h2
  · decide
  · decide
  · obtain ⟨h1, -, -, h4, h5⟩ := hcl x hx
    apply blankSeparated_line _ _ h1.1.1
    intro v hv
    simp only [List.mem_cons, List.mem_singleton, List.not_mem_nil, or_false] at hv
    rcases hv with rfl | rfl | rfl
    · exact wn _ h1.1
    · exact wn _ (isWord_showNat _)
    · intro hm
      rw [h5] at hm
      obtain ⟨w, hw, hcw⟩ := List.mem_flatMap.mp hm
      rcases List.mem_append.mp hcw with hcw | hcw
      · exact wn w (h4 w hw) hcw
      · exact absurd hcw (by decide)
  · decide
  · obtain ⟨-, hp⟩ := hpf x hx
    rcases hp with rfl | rfl | ⟨h1, hne1, hne2, i1, i2, i3, -⟩
    · decide
    · decide
    · have hb : (x.fName == "NONE".toList || x.fName == "NOPF".toList) = false := by
        rw [Bool.or_eq_false_iff]
        exact ⟨beq_eq_false_iff_ne.mpr hne1, beq_eq_false_iff_ne.mpr hne2⟩
      unfold pfLine
      simp only [hb, Bool.false_eq_true, if_false]
      apply blankSeparated_line _ _ h1.1.1
      intro v hv
      simp only [List.mem_cons, List.mem_singleton, List.not_mem_nil, or_false] at hv
      rcases hv with rfl | rfl | rfl | rfl | rfl | rfl | rfl | rfl | rfl | rfl
      · exact wn _ h1.1
      · exact wn _ i1
      · exact wn _ i2
      · exact wn _ i3
      all_goals exact wn _ (isWord_showInt _)
  · decide
  · rcases hms x hx with rfl | ⟨h1, hne, h2⟩
    · decide
    · have hb : (x.fName == "NONE".toList) = false := beq_eq_false_iff_ne.mpr hne
      unfold maskLine
      simp only [hb, Bool.false_eq_true, if_false]
      apply blankSeparated_line _ _ h1.1.1
      intro v hv
      simp only [List.mem_cons, List.mem_singleton, List.not_mem_nil, or_false] at hv
      rcases hv with rfl | rfl
      · exact wn _ h1.1
      · exact wn _ h2
  · decide
  · obtain ⟨h1, -, -, h4, h5, h6, h7, -⟩ := hcs x hx
    apply blankSeparated_line _ _ h1.1.1
    intro v hv
    simp only [List.mem_cons, List.mem_singleton, List.not_mem_nil, or_false] at hv
    rcases hv with rfl | rfl | rfl | rfl | rfl | rfl | rfl | rfl
    · exact wn _ h1.1
    · exact wn _ (isWord_showNat _)
    · exact wn _ h4
    · exact wn _ h5
    · exact wn _ h6
    · exact wn _ h7
    · exact wn _ (isWord_showNat _)
    · cases x.fAllRare <;> decide

/-- The text of an expressible configuration is split into the lines
written. -/
theorem tokenize_toText (K : Collaborators) (cfg : AliTriggerConfiguration)
    (h : Expressible K cfg) : Tokenize (toText cfg) ['\n'] = toLines cfg :=
  tokenize_flatMap_delim ['\n'] '\n' (List.mem_singleton_self _) _ (toLines_lines K cfg h)

/-- The lines written for an expressible configuration are parsed back, one
section after the other, to the configuration; the description is not part of
the text. -/
theorem loadLines_toLines (K : Collaborators) (cfg : AliTriggerConfiguration)
    (h : Expressible K cfg) :
    loadLines K (toLines cfg) AliTriggerConfiguration.empty 0 =
      some (some { cfg with fTitle := [] }) := by
  obtain ⟨⟨-, hn2⟩, ⟨hv1, hv2⟩, ⟨hic, hin⟩, ⟨hxc, hint⟩, ⟨hf, hd⟩, ⟨hcc, hcl⟩, ⟨hpc, hpf⟩,
    ⟨hmc, hms⟩, hkc, hacc, hcs⟩ := h
  obtain ⟨name, title, inputs, interactions, functions, pfs, masks, descriptors, clusters,
    classes, version⟩ := cfg
  simp only at hn2 hv1 hv2 hic hin hxc hint hf hd hcc hcl hpc hpf hmc hms hkc hacc hcs
  subst hf hd
  have hlines : toLines ⟨name, title, inputs, interactions, [], pfs, masks, [], clusters,
      classes, version⟩ =
      ("PARTITION:".toList ++ name) :: ("VERSION:".toList ++ showInt version) ::
        "INPUTS:".toList :: (inputs.map inputLine ++
        ("INTERACTIONS:".toList :: (interactions.map interactionLine ++
        ("DESCRIPTORS:".toList :: "CLUSTERS:".toList :: (clusters.map clusterLine ++
        ("PFS:".toList :: (pfs.map pfLine ++
        ("BCMASKS:".toList :: (masks.map maskLine ++
        ("CLASSES:".toList :: (classes.map classLine ++ []))))))))))) := by
    simp only [toLines, List.map_nil, List.append_nil, List.append_assoc, List.cons_append,
      List.nil_append]
  rw [hlines]
  rw [loadLines_cons_ok K _ _ _ _ 0 0 (partitionLine_parsed K _ name 0 hn2)]
  rw [loadLines_cons_ok K _ _ _ _ 0 0 (versionLine_parsed K _ version 0 hv1 hv2)]
  rw [loadLines_cons_ok K _ _ _ _ 0 1 (headerLine_parsed K _ 0).1]
  rw [inputs_section K _ inputs _ (by simpa [AliTriggerConfiguration.empty] using hic) hin]
  rw [loadLines_cons_ok K _ _ _ _ 1 2 (headerLine_parsed K _ 1).2.1]
  rw [interactions_section K _ interactions _
    (by simpa [AliTriggerConfiguration.empty] using hxc)
    (by simpa [AliTriggerConfiguration.empty] using hint)]
  rw [loadLines_cons_ok K _ _ _ _ 2 3 (headerLine_parsed K _ 2).2.2.1]
  rw [loadLines_cons_ok K _ _ _ _ 3 4 (headerLine_parsed K _ 3).2.2.2.1]
  rw [clusters_section K _ clusters _ (by simpa [AliTriggerConfiguration.empty] using hcc) hcl]
  rw [loadLines_cons_ok K _ _ _ _ 4 5 (headerLine_parsed K _ 4).2.2.2.2.1]
  rw [pfs_section K _ pfs _ (by simpa [AliTriggerConfiguration.empty] using hpc)
    (by simpa [AliTriggerConfiguration.empty] using hpf)]
  rw [loadLines_cons_ok K _ _ _ _ 5 6 (headerLine_parsed K _ 5).2.2.2.2.2.1]
  rw [masks_section K _ masks _ (by simpa [AliTriggerConfiguration.empty] using hmc) hms]
  rw [loadLines_cons_ok K _ _ _ _ 6 7 (headerLine_parsed K _ 6).2.2.2.2.2.2]
  rw [classes_section K _ classes _ (by simpa [AliTriggerConfiguration.empty] using hkc)
    (by simpa [AliTriggerConfiguration.empty] using hacc) hcs]
  simp [loadLines, AliTriggerConfiguration.empty]

end AliRoot
